import Mathlib

/-!
Verification development for the thumbnail-strip controller
(`ThumbnailSequence.cpp` of scantailor).

The controller keeps one record per page in a multi-index container with
three views (by page id, display order, selected-then-unselected) plus a
single "selection leader" reference, and reacts to reset / insert / remove /
invalidate operations and to plain, ctrl- and shift-clicks.

The shallow embedding below models:
  * a page record (`Item`) by its stable arena handle, page id, page number,
    the two mutable flags, and its vertical geometry (`y` position and
    composite height, rationals of the source replaced by integers);
  * the container by the display-order list of records (`itemsInOrder`), the
    selection-order index as a list of handles (`selOrder`), and the leader
    as an optional handle;
  * every public operation as a pure function `State → State × List Notif`,
    `Notif` recording the emitted signals.

Handles play the role of the stable record addresses of the C++ multi-index
container: relocations never invalidate them, and the `selOrder` /`leader`
references are by handle.
-/

namespace ThumbSeq

/-- Sub-page designation of a page id (`PageId::SubPage`):
a single page, or the left/right half of a two-sided scan. -/
inductive SubPage
  | single
  | left
  | right
deriving DecidableEq, Repr

/-- Numeric value of the designation, matching the C++ enum order
`SINGLE_PAGE, LEFT_PAGE, RIGHT_PAGE` used by `PageId::operator<`. -/
def SubPage.toNat : SubPage → Nat
  | .single => 0
  | .left => 1
  | .right => 2

/-- A page identity: the referenced image plus the sub-page designation.
Image ids are modelled as naturals, `0` standing for the null `ImageId`. -/
structure PageId where
  imageId : Nat
  subPage : SubPage
deriving DecidableEq, Repr

/-- The null `PageId` (default-constructed: null image, `SINGLE_PAGE`). -/
def nullPageId : PageId := ⟨0, .single⟩

/-- Models `PageId(image)`: the one-argument constructor defaults to `SINGLE_PAGE`. -/
def pageIdOfImage (image : Nat) : PageId := ⟨image, .single⟩

/-- Strict ordering on page ids: by image id, then by sub-page designation.
This is the key order of the by-id index of the container. -/
def PageId.lt (a b : PageId) : Bool :=
  if a.imageId < b.imageId then true
  else if b.imageId < a.imageId then false
  else decide (a.subPage.toNat < b.subPage.toNat)

/-- A page record (`ThumbnailSequence::Item`) together with the geometry of
its composite visual. `handle` is the stable arena address of the record;
`y` is `composite->pos().y()` and `h` the height of the composite's bounding
rectangle. -/
structure Item where
  handle : Nat
  pageId : PageId
  pageNum : Nat
  selected : Bool
  leaderFlag : Bool
  y : Int
  h : Int
deriving DecidableEq, Repr

/-- The flag set carried by a `newSelectionLeader` notification
(`ThumbnailSequence::SelectionFlags`). The default flag set
`DEFAULT_SELECTION_FLAGS` is all-false. -/
structure SelectionFlags where
  selectedByUser : Bool := false
  redundant : Bool := false
  avoidScrolling : Bool := false
deriving DecidableEq, Repr

/-- An outward notification: either `newSelectionLeader(pageInfo, rect, flags)`
(the scroll rectangle is omitted) or `pastLastPageContextMenuRequested(pos)`. -/
inductive Notif
  | newSelectionLeader (pid : PageId) (flags : SelectionFlags)
  | pastLastPage (screenPos : Int × Int)
deriving DecidableEq, Repr

/-- Inter-item spacing (`static int const SPACING = 10`). -/
def SPACING : Int := 10

/-- The whole controller state (`ThumbnailSequence::Impl`).

`itemsInOrder` is the display-order view holding the records themselves;
`selOrder` is the selected-then-unselected view, as handles;
`leader` is `m_pSelectionLeader`, as a handle;
`orderProvider` is `m_ptrOrderProvider` (the `precedes` predicate);
`sceneRect` models `m_sceneRect` by its vertical extent, `none` being the
null rectangle; `nextHandle` is the arena allocation counter. -/
structure State where
  itemsInOrder : List Item
  selOrder : List Nat
  leader : Option Nat
  orderProvider : Option (PageId → PageId → Bool)
  sceneRect : Option (Int × Int)
  nextHandle : Nat

/-- The freshly constructed controller: all views empty, no leader. -/
def initState : State :=
  { itemsInOrder := [], selOrder := [], leader := none,
    orderProvider := none, sceneRect := none, nextHandle := 0 }

/-- Models `Item::setSelected`: sets the selected flag; the leader flag survives
only if the item stays selected. -/
def sSel (b : Bool) (it : Item) : Item :=
  { it with selected := b, leaderFlag := it.leaderFlag && b }

/-- Models `Item::setSelectionLeader`: sets the leader flag; setting it also makes
the item selected. -/
def sLead (b : Bool) (it : Item) : Item :=
  { it with selected := it.selected || b, leaderFlag := b }

/-- Apply `f` to the record with the given handle (all other records are
left alone; handles are unique in any reachable state). -/
def updItem (hdl : Nat) (f : Item → Item) (l : List Item) : List Item :=
  l.map fun it => if it.handle = hdl then f it else it

/-- Dereference a handle: the record with that handle, if any. -/
def findByHandle (l : List Item) (hdl : Nat) : Option Item :=
  l.find? fun it => it.handle == hdl

/-- The selected flag of the record a handle refers to. -/
def selAtH (l : List Item) (hdl : Nat) : Bool :=
  ((findByHandle l hdl).map Item.selected).getD false

/-- The page id of the record a handle refers to. -/
def pidAtH (l : List Item) (hdl : Nat) : PageId :=
  ((findByHandle l hdl).map Item.pageId).getD nullPageId

/-- Models `moveToSelected`: relocate the record to the beginning of the
selected-then-unselected view. -/
def moveToSelected (hdl : Nat) (s : State) : State :=
  { s with selOrder := hdl :: s.selOrder.erase hdl }

/-- Models `moveToUnselected`: relocate the record to the end of the
selected-then-unselected view. -/
def moveToUnselected (hdl : Nat) (s : State) : State :=
  { s with selOrder := s.selOrder.erase hdl ++ [hdl] }

/-- Models `multipleItemsSelected`: the first two records of the
selected-then-unselected view exist and are both selected. -/
def multipleItemsSelected (s : State) : Bool :=
  match s.selOrder with
  | h1 :: h2 :: _ => selAtH s.itemsInOrder h1 && selAtH s.itemsInOrder h2
  | _ => false

/-- Models `clearSelection`: drop the leader and unselect the selected prefix of
the selected-then-unselected view (the loop stops at the first unselected
record; no relocation happens). -/
def clearSelection (s : State) : State :=
  let pref := s.selOrder.takeWhile (selAtH s.itemsInOrder)
  { s with leader := none,
           itemsInOrder := s.itemsInOrder.map fun it =>
             if pref.contains it.handle then sSel false it else it }

/-- Models `selectedItems`: page ids of the selected prefix of the
selected-then-unselected view (the scan stops at the first unselected
record). -/
def selectedItems (s : State) : List PageId :=
  (s.selOrder.takeWhile (selAtH s.itemsInOrder)).map (pidAtH s.itemsInOrder)

/-- Backward phase of `itemInsertPosition`: starting from position `i`
(which dereferences into the range), step left while the new page id
precedes the element at the current position; the running signed distance
is threaded through. -/
def ipBack (p : PageId → Bool) (l : List PageId) : Nat → Int → Nat × Int
  | 0, d => (0, d)
  | i + 1, d =>
    if ((l.get? (i + 1)).map p).getD false then ipBack p l i (d - 1)
    else (i + 1, d)

/-- Forward phase of `itemInsertPosition`: step right while the new page id
does not precede the element at the current position, stopping at the end
of the range; `fuel` bounds the walk by the range length. -/
def ipFwd (p : PageId → Bool) (l : List PageId) : Nat → Nat → Int → Nat × Int
  | 0, i, d => (i, d)
  | fuel + 1, i, d =>
    match l.get? i with
    | none => (i, d)
    | some x => if p x then (i, d) else ipFwd p l fuel (i + 1) (d + 1)

/-- Models `itemInsertPosition(begin, end, page_id, hint, &dist)` over the range
`l` of page ids (display order), with `hint` a position in `[0, l.length]`.
Returns the insertion position together with the signed distance from the
hint. With no order provider the hint is returned unchanged with distance
zero. -/
def itemInsertPosition (provider : Option (PageId → PageId → Bool))
    (l : List PageId) (pageId : PageId) (hint : Nat) : Nat × Int :=
  match provider with
  | none => (hint, 0)
  | some prec =>
    let p := fun x => prec pageId x
    let (i1, d1) : Nat × Int :=
      if hint ≠ 0 then
        if hint = l.length then ipBack p l (hint - 1) (-1) else ipBack p l hint 0
      else (hint, 0)
    ipFwd p l (l.length - i1) i1 d1

/-- The dual-cursor search of `selectItemWithControl`: from position `i` of
the display order, probe one step backward, then one step forward,
alternating, until a cursor lands on a selected record. `sel` is the
selected flag by display position, `n` the number of records; the C++ loop
never terminates when nothing is selected, which the fuel models by `none`. -/
def ctrlSearch (sel : Nat → Bool) (n : Nat) : Nat → Nat → Nat → Option Nat
  | 0, _, _ => none
  | fuel + 1, b, f =>
    if b ≠ 0 then
      if sel (b - 1) then some (b - 1)
      else
        if f ≠ n then
          if f + 1 ≠ n && sel (f + 1) then some (f + 1)
          else ctrlSearch sel n fuel (b - 1) (f + 1)
        else ctrlSearch sel n fuel (b - 1) f
    else
      if f ≠ n then
        if f + 1 ≠ n && sel (f + 1) then some (f + 1)
        else ctrlSearch sel n fuel b (f + 1)
      else ctrlSearch sel n fuel b f

/-- Selected flag of the record at a display-order position. -/
def selAtIdx (l : List Item) (k : Nat) : Bool :=
  ((l.get? k).map Item.selected).getD false

/-- Display-order position of the record with the given handle. -/
def idxOfHandle (l : List Item) (hdl : Nat) : Nat :=
  l.findIdx fun it => it.handle == hdl

/-- Models `selectItemNoModifiers`: clear the whole selection, then select the
clicked record and make it the leader. The notification carries
`SELECTED_BY_USER`, plus `REDUNDANT_SELECTION` when the clicked record
already was the leader. -/
def selectItemNoModifiers (hdl : Nat) (s : State) : State × List Notif :=
  let flags : SelectionFlags :=
    { selectedByUser := true, redundant := s.leader = some hdl }
  let s1 := clearSelection s
  let s2 := { s1 with leader := some hdl,
                      itemsInOrder := updItem hdl (sLead true) s1.itemsInOrder }
  let s3 := moveToSelected hdl s2
  (s3, [Notif.newSelectionLeader (pidAtH s3.itemsInOrder hdl) flags])

/-- Models `selectItemWithControl`: toggle the clicked record's membership in the
selection. The clicked record is looked up by handle; a composite always
belongs to a stored record, so the `none` case only totalizes the model. -/
def selectItemWithControl (hdl : Nat) (s : State) : State × List Notif :=
  match findByHandle s.itemsInOrder hdl with
  | none => (s, [])
  | some it =>
    if !it.selected then
      -- Previously unselected: select it and make it the new leader.
      let s1 :=
        match s.leader with
        | some oldL => { s with itemsInOrder := updItem oldL (sLead false) s.itemsInOrder }
        | none => s
      let s2 := { s1 with leader := some hdl,
                          itemsInOrder := updItem hdl (sLead true) s1.itemsInOrder }
      let s3 := moveToSelected hdl s2
      (s3, [Notif.newSelectionLeader (pidAtH s3.itemsInOrder hdl)
              { selectedByUser := true }])
    else if !multipleItemsSelected s then
      -- Clicked on the only selected item.
      (s, [Notif.newSelectionLeader
             (pidAtH s.itemsInOrder (s.leader.getD 0))
             { selectedByUser := true, redundant := true }])
    else
      -- Unselect it.
      let s1 := { s with itemsInOrder := updItem hdl (sSel false) s.itemsInOrder }
      let s2 := moveToUnselected hdl s1
      if s.leader ≠ some hdl then
        -- The selection leader remains the same - we are done.
        (s2, [])
      else
        -- Search for the new leader among the other selected items,
        -- one step back, one step forward, alternating.
        let n := s2.itemsInOrder.length
        let i := idxOfHandle s2.itemsInOrder hdl
        match ctrlSearch (selAtIdx s2.itemsInOrder) n (n + 1) i i with
        | some j =>
          let newL := ((s2.itemsInOrder.get? j).map Item.handle).getD 0
          let s3 := { s2 with leader := some newL,
                              itemsInOrder := updItem newL (sLead true) s2.itemsInOrder }
          (s3, [Notif.newSelectionLeader (pidAtH s3.itemsInOrder newL)
                  { selectedByUser := true, avoidScrolling := true }])
        | none =>
          -- Unreachable when multiple items were selected (C++ asserts).
          ({ s2 with leader := none }, [])

/-- Models `selectItemWithShift`: select the inclusive display-order range between
the current leader and the clicked record, then make the clicked record the
leader. Without a leader this falls back to the no-modifiers behaviour.
When the clicked record is the leader itself the function returns before
emitting anything. -/
def selectItemWithShift (hdl : Nat) (s : State) : State × List Notif :=
  match s.leader with
  | none => selectItemNoModifiers hdl s
  | some oldL =>
    let flags : SelectionFlags :=
      { selectedByUser := true, redundant := oldL = hdl }
    if oldL = hdl then
      -- One-element sequence, already selected: early return, no signal.
      (s, [])
    else
      let e1 := idxOfHandle s.itemsInOrder oldL
      let e2 := idxOfHandle s.itemsInOrder hdl
      -- The dual-cursor walk only discovers which endpoint comes first.
      let lo := min e1 e2
      let hi := max e1 e2
      let range := ((s.itemsInOrder.drop lo).take (hi + 1 - lo)).map Item.handle
      let s1 := range.foldl
        (fun st h =>
          moveToSelected h
            { st with itemsInOrder := updItem h (sSel true) st.itemsInOrder })
        s
      let s2 := { s1 with itemsInOrder := updItem oldL (sLead false) s1.itemsInOrder }
      let s3 := { s2 with leader := some hdl,
                          itemsInOrder := updItem hdl (sLead true) s2.itemsInOrder }
      (s3, [Notif.newSelectionLeader (pidAtH s3.itemsInOrder hdl) flags])

/-- Models `setSelection(page_id)`: select exactly the given page. Every other
selected record is unselected (walking the selected prefix of the selection
view, relocating each to the unselected end); the page becomes the leader
unless it already was. The notification carries the default flag set, plus
`REDUNDANT_SELECTION` when the page already was the leader. -/
def setSelection (pid : PageId) (s : State) : State × List Notif :=
  match s.itemsInOrder.find? (fun (it : Item) => it.pageId == pid) with
  | none => (s, [])
  | some target =>
    let wasLeader := s.leader = some target.handle
    let pref := s.selOrder.takeWhile (selAtH s.itemsInOrder)
    let s1 := pref.foldl
      (fun st h =>
        if h = target.handle then st
        else
          let st' := moveToUnselected h
            { st with itemsInOrder := updItem h (sSel false) st.itemsInOrder }
          { st' with leader := if st'.leader = some h then none else st'.leader })
      s
    let s2 :=
      if !wasLeader then
        moveToSelected target.handle
          { s1 with leader := some target.handle,
                    itemsInOrder := updItem target.handle (sLead true) s1.itemsInOrder }
      else s1
    (s2, [Notif.newSelectionLeader target.pageId { redundant := wasLeader }])

/-- Whether to carry the selection across a `reset`. -/
inductive SelectionAction
  | keepSelection
  | resetSelection
deriving DecidableEq, Repr

/-- One page of a `PageSequenceSnapshot`, together with the height the
thumbnail factory gives its composite visual. -/
structure PageEntry where
  pid : PageId
  height : Int
deriving DecidableEq, Repr

/-- Extend the scene rectangle by the vertical span of one composite
(`CompositeItem::updateSceneRect`); `none` is the null rectangle. -/
def rectUnion (r : Option (Int × Int)) (top bot : Int) : Option (Int × Int) :=
  match r with
  | none => some (top, bot)
  | some (t, b) => some (min t top, max b bot)

/-- Models `clear()`: erase every record from all three views, drop the leader and
reset the scene rectangle to null. -/
def clearOp (s : State) : State :=
  { s with leader := none, itemsInOrder := [], selOrder := [],
           sceneRect := none }

/-- Insert into a sorted list, keeping insertion order among equivalent
elements (the stable sort of `std::stable_sort`). -/
def stableInsert (lt : α → α → Bool) (x : α) : List α → List α
  | [] => [x]
  | y :: ys => if lt y x then y :: stableInsert lt x ys else x :: y :: ys

/-- Stable sort by a strict comparator. -/
def stableSortBy (lt : α → α → Bool) : List α → List α
  | [] => []
  | x :: xs => stableInsert lt x (stableSortBy lt xs)

/-- The page-building loop of `reset`: append a record per page in sorted
order, stacking composites vertically, re-marking pages of the preserved
selection (select + relocate to the selected front) and re-finding the
preserved leader by id. Returns the state and `some_selected_item`. -/
def resetBuild (selected : List PageId) (leaderId : Option PageId) :
    List PageEntry → Nat → Int → State → Option Nat → State × Option Nat
  | [], _, _, s, someSel => (s, someSel)
  | p :: rest, i, offset, s, someSel =>
    let hdl := s.nextHandle
    let item : Item :=
      { handle := hdl, pageId := p.pid, pageNum := i,
        selected := false, leaderFlag := false, y := offset, h := p.height }
    let s1 : State :=
      { s with itemsInOrder := s.itemsInOrder ++ [item],
               selOrder := s.selOrder ++ [hdl],
               nextHandle := hdl + 1,
               sceneRect := rectUnion s.sceneRect offset (offset + p.height) }
    let (s2, someSel2) :=
      if selected.contains p.pid then
        (moveToSelected hdl
          { s1 with itemsInOrder := updItem hdl (sSel true) s1.itemsInOrder },
         some hdl)
      else (s1, someSel)
    let s3 := if leaderId = some p.pid then { s2 with leader := some hdl } else s2
    resetBuild selected leaderId rest (i + 1) (offset + p.height + SPACING) s3 someSel2

/-- The provider sort of `reset`: the page list stably sorted by the order
provider's `precedes`, or as given when no provider is installed. -/
def sortedPages (provider : Option (PageId → PageId → Bool))
    (pages : List PageEntry) : List PageEntry :=
  match provider with
  | none => pages
  | some prec => stableSortBy (fun a b => prec a.pid b.pid) pages

/-- The leader-fixing tail of `reset`, applied to the result of the building
loop: re-establish a leader (the preserved leader if the build re-found it
by id, else the last re-marked selected record, else the snapshot's current
page, relocated to the selected front), and when one is established, set
its leader flag and emit a notification with the default flag set carrying
the preserved leader's page info. -/
def resetTail (curPage : PageId) (leaderInfo : Option PageId)
    (r : State × Option Nat) : State × List Notif :=
  let s2 := r.1
  let s3 :=
    match s2.leader with
    | some _ => s2
    | none =>
      match r.2 with
      | some h => { s2 with leader := some h }
      | none =>
        match s2.itemsInOrder.find? (fun (it : Item) => it.pageId == curPage) with
        | some it => moveToSelected it.handle { s2 with leader := some it.handle }
        | none => s2
  match s3.leader with
  | some lh =>
    ({ s3 with itemsInOrder := updItem lh (sLead true) s3.itemsInOrder },
     [Notif.newSelectionLeader (leaderInfo.getD nullPageId) {}])
  | none => (s3, [])

/-- Models `reset(pages, selection_action, order_provider)`: install the new order
provider, optionally snapshot the current selection and leader identity,
clear everything, rebuild all records from the (possibly provider-sorted)
page list, and re-establish a leader through `resetTail`. -/
def reset (pages : List PageEntry) (action : SelectionAction)
    (provider : Option (PageId → PageId → Bool)) (curPage : PageId)
    (s : State) : State × List Notif :=
  let s0 := { s with orderProvider := provider }
  let selected : List PageId :=
    if action = .keepSelection then selectedItems s0 else []
  let leaderInfo : Option PageId :=
    if action = .keepSelection then
      (s0.leader.bind (findByHandle s0.itemsInOrder)).map Item.pageId
    else none
  let s1 := clearOp s0
  if pages.isEmpty then (s1, [])
  else
    resetTail curPage leaderInfo
      (resetBuild selected leaderInfo (sortedPages provider pages) 0 0 s1 none)

/-- Whether an insert goes before or after the reference page. -/
inductive BeforeOrAfter
  | before
  | after
deriving DecidableEq, Repr

/-- The by-id view of the container: the records ordered by page id. -/
def byIdView (s : State) : List Item :=
  stableSortBy (fun a b => PageId.lt a.pageId b.pageId) s.itemsInOrder

/-- Models `m_itemsById.lower_bound(PageId(image))` followed by the image check of
`insert`: the first record in id order whose page id is not below
`PageId(image)`, accepted only if it references the same image. -/
def refLookup (s : State) (image : Nat) : Option Item :=
  match (byIdView s).find? (fun it => !PageId.lt it.pageId (pageIdOfImage image)) with
  | none => none
  | some it => if it.pageId.imageId = image then some it else none

/-- Shift the vertical position of every record from display position `k`
on by `delta` (the tail loop of `insert`). -/
def shiftFrom (k : Nat) (delta : Int) (l : List Item) : List Item :=
  (l.take k) ++ (l.drop k).map (fun it => { it with y := it.y + delta })

/-- Accumulated scene rectangle of a list of records. -/
def rectOfItems (r : Option (Int × Int)) : List Item → Option (Int × Int)
  | [] => r
  | it :: rest => rectOfItems (rectUnion r it.y (it.y + it.h)) rest

/-- Models `insert(new_page, before_or_after, image)`: locate the insertion
position from the reference image (aborting silently when no record
references it), adjust it through `itemInsertPosition`, assign the next
tie-break page number, and splice the new record in, shifting every
following composite down by its height plus spacing. The new record joins
the selection view unselected at the back; no notification is emitted. -/
def insert (pid : PageId) (newH : Int) (boa : BeforeOrAfter) (image : Nat)
    (s : State) : State × List Notif :=
  let n := s.itemsInOrder.length
  let ordIt? : Option Nat :=
    if boa = .before ∧ image = 0 then some n
    else
      match refLookup s image with
      | none => none
      | some ref =>
        let k := idxOfHandle s.itemsInOrder ref.handle
        if boa = .after then
          let k1 := k + 1
          match s.orderProvider with
          | some _ => some k1
          | none =>
            -- Advance past the other half of the same image, if it follows.
            some (k1 + ((s.itemsInOrder.drop k1).takeWhile
                    (fun it => it.pageId.imageId == image)).length)
        else some k
  match ordIt? with
  | none => (s, [])
  | some hint =>
    let ordIt := (itemInsertPosition s.orderProvider
      (s.itemsInOrder.map Item.pageId) pid hint).1
    let pageNum :=
      if s.itemsInOrder.isEmpty then 0
      else (s.itemsInOrder.getLast?.map Item.pageNum).getD 0 + 1
    let offset : Int :=
      if s.itemsInOrder.isEmpty then 0
      else
        match s.itemsInOrder.get? ordIt with
        | some it => it.y
        | none =>
          match (s.itemsInOrder.take ordIt).getLast? with
          | some prev => prev.y + prev.h + SPACING
          | none => 0
    let hdl := s.nextHandle
    let item : Item :=
      { handle := hdl, pageId := pid, pageNum := pageNum,
        selected := false, leaderFlag := false, y := offset, h := newH }
    let shifted := shiftFrom ordIt (newH + SPACING) s.itemsInOrder
    let items' := (shifted.take ordIt) ++ item :: (shifted.drop ordIt)
    ({ s with itemsInOrder := items',
              selOrder := s.selOrder ++ [hdl],
              nextHandle := hdl + 1,
              sceneRect := rectOfItems
                (rectUnion s.sceneRect offset (offset + newH))
                (shifted.drop ordIt) },
     [])

/-- The removal walk of `removePages`: traverse the display order; kept
records are shifted up by the accumulated vacated height and folded into
the fresh scene rectangle, removed records clear the leader when they carry
it and record their image for singularization when they are a left or
right half. Returns the surviving records, the scene rectangle, the
images to singularize and the leader. -/
def removeWalk (toRemove : List PageId) :
    List Item → Int → Option (Int × Int) → List Nat → Option Nat →
    List Item × Option (Int × Int) × List Nat × Option Nat
  | [], _, rect, images, leader => ([], rect, images, leader)
  | it :: rest, delta, rect, images, leader =>
    if toRemove.contains it.pageId then
      let leader' := if leader = some it.handle then none else leader
      let images' :=
        match it.pageId.subPage with
        | .left | .right => images ++ [it.pageId.imageId]
        | .single => images
      removeWalk toRemove rest (delta - (it.h + SPACING)) rect images' leader'
    else
      let it' := { it with y := it.y + delta }
      let (restOut, rectOut, imagesOut, leaderOut) :=
        removeWalk toRemove rest delta (rectUnion rect it'.y (it'.y + it'.h))
          images leader
      (it' :: restOut, rectOut, imagesOut, leaderOut)

/-- Models `removePages(to_remove)`: erase the matching records from all views,
shift the following composites up, and for every removed left/right half
downgrade every remaining record of the same image to the single-page
designation. The leader is cleared when removed and never reassigned
here. -/
def removePages (toRemove : List PageId) (s : State) : State × List Notif :=
  let (kept, rect, images, leader') :=
    removeWalk toRemove s.itemsInOrder 0 none [] s.leader
  let survivors := kept.map Item.handle
  let items' := kept.map fun it =>
    if images.contains it.pageId.imageId then
      { it with pageId := ⟨it.pageId.imageId, .single⟩ }
    else it
  ({ s with itemsInOrder := items',
            selOrder := s.selOrder.filter (fun h => survivors.contains h),
            leader := leader',
            sceneRect := rect },
   [])

/-- Recompute positions of a run of records left to right from a running
offset (the repositioning sweeps of `invalidateThumbnail` and
`invalidateAllThumbnails`). -/
def sweepY (offset : Int) : List Item → List Item
  | [] => []
  | it :: rest => { it with y := offset } :: sweepY (offset + it.h + SPACING) rest

/-- Models `invalidateThumbnail(page_id)`: replace the record's composite with a
freshly built one of height `newH`, re-derive the record's display position
through `itemInsertPosition` (relocating it without reinsertion), reposition
the records between its old and new position (and everything after, when the
height changed), and rebuild the scene rectangle from the extreme records.
Emits a redundant-flagged leader notification when the record is the leader
and moved or changed size. Flags, selection view and leader are untouched. -/
def invalidateThumbnail (pid : PageId) (newH : Int) (s : State) : State × List Notif :=
  match s.itemsInOrder.find? (fun (it : Item) => it.pageId == pid) with
  | none => (s, [])
  | some target =>
    let oldH := target.h
    let oldY := target.y
    let k := idxOfHandle s.itemsInOrder target.handle
    let target' := { target with h := newH }
    -- Relocate the record to the front, out of the search range.
    let rest := s.itemsInOrder.eraseIdx k
    -- after_old: the display position the record used to precede, within rest.
    let (j, dist) := itemInsertPosition s.orderProvider
      (rest.map Item.pageId) pid k
    -- Relocate the record to its intended position.
    let l2 := (rest.take j) ++ target' :: (rest.drop j)
    -- Reposition between old and new position, then the tail when resized.
    let lo := if dist ≤ 0 then j else k
    let hi := if dist ≤ 0 then k + 1 else j + 1
    let startOffset : Int :=
      match (l2.take lo).getLast? with
      | some prev => prev.y + prev.h + SPACING
      | none => 0
    let l3 :=
      if oldH = newH then
        (l2.take lo) ++ sweepY startOffset ((l2.drop lo).take (hi - lo))
          ++ (l2.drop hi)
      else
        (l2.take lo) ++ sweepY startOffset (l2.drop lo)
    let rect :=
      match l3.head?, l3.getLast?, l3.get? j with
      | some f, some l, some m =>
        rectUnion (rectUnion (some (f.y, f.y + f.h)) l.y (l.y + l.h))
          m.y (m.y + m.h)
      | _, _, _ => s.sceneRect
    let s' := { s with itemsInOrder := l3, sceneRect := rect }
    -- `old_pos` in the source captures the *new* composite's position
    -- before the sweeps have placed it, which is the origin.
    let moved := oldH ≠ newH ∨ (((l3.get? j).map Item.y).getD oldY) ≠ 0
    if s.leader = some target.handle ∧ moved then
      (s', [Notif.newSelectionLeader target.pageId { redundant := true }])
    else
      (s', [])

/-- Models `invalidateAllThumbnails()`: stably re-sort the display order by the
provider, rebuild every composite (heights re-supplied by the factory) and
the full layout and scene rectangle. Flags, selection view and leader are
untouched. -/
def invalidateAllThumbnails (heights : PageId → Int) (s : State) : State × List Notif :=
  let sorted :=
    match s.orderProvider with
    | none => s.itemsInOrder
    | some prec => stableSortBy (fun a b => prec a.pageId b.pageId) s.itemsInOrder
  let rebuilt := sweepY 0 (sorted.map fun it => { it with h := heights it.pageId })
  ({ s with itemsInOrder := rebuilt, sceneRect := rectOfItems none rebuilt }, [])

/-- Models `sceneContextMenuEvent`: a context-menu event reaching the scene emits
`pastLastPageContextMenuRequested` with the event's screen position, unless
some records exist and the event's scene y-coordinate is not below the
bottom of the last record's bounding rectangle. -/
def sceneContextMenuEvent (scenePosY : Int) (screenPos : Int × Int)
    (s : State) : List Notif :=
  match s.itemsInOrder.getLast? with
  | some last =>
    if scenePosY ≤ last.y + last.h then []
    else [Notif.pastLastPage screenPos]
  | none => [Notif.pastLastPage screenPos]

/-- Keyboard modifier set of a click. -/
structure Mods where
  ctrl : Bool := false
  shift : Bool := false
deriving DecidableEq, Repr

/-- Models `itemSelectedByUser`: dispatch a left click on a composite to the
matching handler; control wins over shift. -/
def itemSelectedByUser (hdl : Nat) (mods : Mods) (s : State) : State × List Notif :=
  if mods.ctrl then selectItemWithControl hdl s
  else if mods.shift then selectItemWithShift hdl s
  else selectItemNoModifiers hdl s

/-- The states the controller can reach from construction through its
public operations. Clicks arrive only through composites of stored
records, hence the membership premise. -/
inductive Reachable : State → Prop
  | init : Reachable initState
  | reset (pages : List PageEntry) (action : SelectionAction)
      (provider : Option (PageId → PageId → Bool)) (curPage : PageId)
      (s : State) : Reachable s →
      Reachable (reset pages action provider curPage s).1
  | insert (pid : PageId) (newH : Int) (boa : BeforeOrAfter) (image : Nat)
      (s : State) : Reachable s → Reachable (insert pid newH boa image s).1
  | removePages (toRemove : List PageId) (s : State) : Reachable s →
      Reachable (removePages toRemove s).1
  | invalidateThumbnail (pid : PageId) (newH : Int) (s : State) :
      Reachable s → Reachable (invalidateThumbnail pid newH s).1
  | invalidateAllThumbnails (heights : PageId → Int) (s : State) :
      Reachable s → Reachable (invalidateAllThumbnails heights s).1
  | setSelection (pid : PageId) (s : State) : Reachable s →
      Reachable (setSelection pid s).1
  | click (hdl : Nat) (mods : Mods) (s : State) :
      hdl ∈ s.itemsInOrder.map Item.handle → Reachable s →
      Reachable (itemSelectedByUser hdl mods s).1

/-- The list of selected flags in selection order. -/
def selFlags (s : State) : List Bool :=
  s.selOrder.map (selAtH s.itemsInOrder)

/-- A Boolean list is partitioned when no `false` precedes a `true`. -/
def Partitioned (l : List Bool) : Prop :=
  l.Pairwise fun a b => b = true → a = true

/-- The structural invariants of a controller state: record handles are
unique and below the allocation counter, the selection view holds exactly
the record handles, its selected records precede its unselected ones, and
the leader reference, when set, names a stored, selected record. -/
structure Inv (s : State) : Prop where
  nodup : (s.itemsInOrder.map Item.handle).Nodup
  perm : s.selOrder.Perm (s.itemsInOrder.map Item.handle)
  bound : ∀ h ∈ s.itemsInOrder.map Item.handle, h < s.nextHandle
  part : Partitioned (selFlags s)
  selinv : ∀ h, s.leader = some h →
    ∃ it ∈ s.itemsInOrder, it.handle = h ∧ it.selected = true

/-- Projection of a record list to handles and selected flags; two lists
with permuted projections answer every selection query alike. -/
def projHS (l : List Item) : List (Nat × Bool) :=
  l.map fun it => (it.handle, it.selected)

/-- Loop invariant of `resetBuild`'s `some_selected_item` accumulator: when
set it names a stored, selected record, and while unset no record is
selected at all. -/
def SomeSelOK (s : State) (someSel : Option Nat) : Prop :=
  (∀ h, someSel = some h → h ∈ s.itemsInOrder.map Item.handle ∧
    selAtH s.itemsInOrder h = true) ∧
  (someSel = none → ∀ b ∈ selFlags s, b = false)

/-- Example page ids and states used to instantiate the general theorems on
concrete, evaluable inputs. -/
def pgA : PageId := ⟨1, SubPage.single⟩

def pgB : PageId := ⟨2, SubPage.single⟩

def pgL : PageId := ⟨5, SubPage.left⟩

def pgR : PageId := ⟨5, SubPage.right⟩

/-- One page, freshly reset: its record is selected and the leader. -/
def exReset1 : State :=
  (reset [⟨pgA, 5⟩] SelectionAction.resetSelection none pgA initState).1

/-- Two pages, freshly reset: the first record selected and the leader. -/
def exReset2 : State :=
  (reset [⟨pgA, 5⟩, ⟨pgB, 7⟩] SelectionAction.resetSelection none pgA initState).1

/-- Both records selected via a shift-click, the second now the leader. -/
def exShift2 : State := (itemSelectedByUser 1 ⟨false, true⟩ exReset2).1

/-- Fallback record for `Option.getD` on handle lookups of the examples. -/
def exFallback : Item := ⟨0, pgA, 0, false, false, 0, 0⟩

/-- The record of `exShift2` holding handle 1. -/
def exIt1 : Item := (findByHandle exShift2.itemsInOrder 1).getD exFallback

/-- A left and a right half of one two-sided scan, freshly reset. -/
def exLR : State :=
  (reset [⟨pgL, 4⟩, ⟨pgR, 4⟩] SelectionAction.resetSelection none pgL initState).1

/-- The record of `exLR` holding the left half. -/
def exItL : Item := (findByHandle exLR.itemsInOrder 0).getD exFallback

/-- The record of `exLR` holding the right half. -/
def exItR : Item := (findByHandle exLR.itemsInOrder 1).getD exFallback

/- ======================  generic lemmas  ====================== -/

theorem sSel_handle (b : Bool) (it : Item) : (sSel b it).handle = it.handle := rfl

theorem sLead_handle (b : Bool) (it : Item) : (sLead b it).handle = it.handle := rfl

theorem sSel_selected (b : Bool) (it : Item) : (sSel b it).selected = b := rfl

theorem sLead_selected (b : Bool) (it : Item) :
    (sLead b it).selected = (it.selected || b) := rfl

theorem updItem_map_handle (hdl : Nat) (f : Item → Item)
    (hf : ∀ it, (f it).handle = it.handle) (l : List Item) :
    (updItem hdl f l).map Item.handle = l.map Item.handle := by
  induction l with
  | nil => rfl
  | cons x xs ih =>
    simp only [updItem, List.map_cons] at *
    by_cases hx : x.handle = hdl <;> simp [hx, hf, ih]

theorem findByHandle_map (g : Item → Item) (hg : ∀ it, (g it).handle = it.handle)
    (l : List Item) (h : Nat) :
    findByHandle (l.map g) h = (findByHandle l h).map g := by
  induction l with
  | nil => rfl
  | cons x xs ih =>
    simp only [findByHandle, List.map_cons, List.find?_cons] at *
    by_cases hx : x.handle = h
    · simp [hg, hx]
    · have : (x.handle == h) = false := by simp [hx]
      have hgx : ((g x).handle == h) = false := by simp [hg, hx]
      simp [this, hgx, ih]

theorem findByHandle_updItem (hdl : Nat) (f : Item → Item)
    (hf : ∀ it, (f it).handle = it.handle) (l : List Item) (h : Nat) :
    findByHandle (updItem hdl f l) h =
      if h = hdl then (findByHandle l h).map f else findByHandle l h := by
  have := findByHandle_map (fun it => if it.handle = hdl then f it else it)
    (fun it => by by_cases hx : it.handle = hdl <;> simp [hx, hf]) l h
  rw [updItem, this]
  by_cases hh : h = hdl
  · subst hh
    cases hfind : findByHandle l h with
    | none => simp
    | some it =>
      have : it.handle = h := by
        have := List.find?_some hfind
        simpa using this
      simp [this]
  · cases hfind : findByHandle l h with
    | none => simp [hh]
    | some it =>
      have : it.handle = h := by
        have := List.find?_some hfind
        simpa using this
      simp [hh, this]

theorem selAtH_updItem_ne (hdl : Nat) (f : Item → Item)
    (hf : ∀ it, (f it).handle = it.handle) (l : List Item) (h : Nat)
    (hne : h ≠ hdl) : selAtH (updItem hdl f l) h = selAtH l h := by
  simp [selAtH, findByHandle_updItem hdl f hf l h, hne]

theorem selAtH_updItem_sLead_false (hdl : Nat) (l : List Item) (h : Nat) :
    selAtH (updItem hdl (sLead false) l) h = selAtH l h := by
  rw [selAtH, findByHandle_updItem hdl (sLead false) (sLead_handle false) l h]
  by_cases hh : h = hdl
  · subst hh
    cases hfind : findByHandle l h <;> simp [hfind, selAtH, sLead]
  · simp [hh, selAtH]

theorem findByHandle_mem {l : List Item} {h : Nat} {it : Item}
    (hfind : findByHandle l h = some it) : it ∈ l ∧ it.handle = h := by
  refine ⟨List.mem_of_find?_eq_some hfind, ?_⟩
  have := List.find?_some hfind
  simpa using this

theorem findByHandle_eq_none {l : List Item} {h : Nat} :
    findByHandle l h = none ↔ ∀ it ∈ l, it.handle ≠ h := by
  simp [findByHandle, List.find?_eq_none]

theorem findByHandle_isSome_of_mem {l : List Item} {it : Item} (hmem : it ∈ l) :
    (findByHandle l it.handle).isSome := by
  cases hfind : findByHandle l it.handle with
  | none => exact absurd rfl (findByHandle_eq_none.1 hfind it hmem)
  | some _ => rfl

theorem findByHandle_of_mem_nodup {l : List Item} {it : Item} (hmem : it ∈ l)
    (hnd : (l.map Item.handle).Nodup) : findByHandle l it.handle = some it := by
  induction l with
  | nil => cases hmem
  | cons x xs ih =>
    simp only [List.map_cons, List.nodup_cons] at hnd
    rcases List.mem_cons.1 hmem with hx | hx
    · subst hx; simp [findByHandle]
    · have hne : x.handle ≠ it.handle := by
        intro he
        exact hnd.1 (he ▸ List.mem_map_of_mem Item.handle hx)
      have : (x.handle == it.handle) = false := by simp [hne]
      simp only [findByHandle, List.find?_cons, this]
      exact ih hx hnd.2

theorem selAtH_of_mem_nodup {l : List Item} {it : Item} (hmem : it ∈ l)
    (hnd : (l.map Item.handle).Nodup) : selAtH l it.handle = it.selected := by
  simp [selAtH, findByHandle_of_mem_nodup hmem hnd]

theorem projHS_handles (l : List Item) :
    (projHS l).map Prod.fst = l.map Item.handle := by
  simp [projHS, List.map_map]

theorem selAtH_eq_of_projHS_perm {l l' : List Item}
    (hnd : (l.map Item.handle).Nodup) (hp : (projHS l).Perm (projHS l'))
    (h : Nat) : selAtH l h = selAtH l' h := by
  have hnd' : (l'.map Item.handle).Nodup := by
    rw [← projHS_handles]
    exact ((hp.map Prod.fst).nodup_iff).1 (by rw [projHS_handles]; exact hnd)
  cases hfind : findByHandle l h with
  | some it =>
    obtain ⟨hmem, hh⟩ := findByHandle_mem hfind
    have : (it.handle, it.selected) ∈ projHS l' :=
      hp.mem_iff.1 (by simp [projHS]; exact ⟨it, hmem, rfl, rfl⟩)
    simp only [projHS, List.mem_map] at this
    obtain ⟨it', hmem', heq⟩ := this
    have h1 : it'.handle = it.handle := by
      have := congrArg Prod.fst heq; simpa using this
    have h2 : it'.selected = it.selected := by
      have := congrArg Prod.snd heq; simpa using this
    have : findByHandle l' h = some it' := by
      rw [← hh, ← h1]
      exact findByHandle_of_mem_nodup hmem' hnd'
    simp [selAtH, hfind, this, h2]
  | none =>
    have hnone : findByHandle l' h = none := by
      rw [findByHandle_eq_none]
      intro it' hmem' hh'
      have : (it'.handle, it'.selected) ∈ projHS l :=
        hp.mem_iff.2 (by simp [projHS]; exact ⟨it', hmem', rfl, rfl⟩)
      simp only [projHS, List.mem_map] at this
      obtain ⟨it, hmem, heq⟩ := this
      have h1 : it.handle = it'.handle := by
        have := congrArg Prod.fst heq; simpa using this
      exact (findByHandle_eq_none.1 hfind it hmem) (h1.trans hh')
    simp [selAtH, hfind, hnone]

theorem partitioned_nil : Partitioned [] := List.Pairwise.nil

theorem partitioned_of_all_false {l : List Bool} (hl : ∀ x ∈ l, x = false) :
    Partitioned l := by
  induction l with
  | nil => exact partitioned_nil
  | cons x xs ih =>
    refine List.Pairwise.cons ?_ (ih fun y hy => hl y (List.mem_cons_of_mem x hy))
    intro y hy hyt
    exact absurd (hl y (List.mem_cons_of_mem x hy)) (by simp [hyt])

theorem partitioned_cons_true {l : List Bool} (hl : Partitioned l) :
    Partitioned (true :: l) :=
  List.Pairwise.cons (fun _ _ _ => rfl) hl

theorem partitioned_append_false {l : List Bool} (hl : Partitioned l) :
    Partitioned (l ++ [false]) := by
  rw [Partitioned, List.pairwise_append]
  refine ⟨hl, List.pairwise_singleton _ _, ?_⟩
  intro a _ b hb
  simp only [List.mem_singleton] at hb
  subst hb
  intro hfalse
  cases hfalse

theorem partitioned_sublist {l l' : List Bool} (hs : l'.Sublist l)
    (hl : Partitioned l) : Partitioned l' := hl.sublist hs

theorem takeWhile_eq_filter_of_partitioned {α : Type} (p : α → Bool)
    (l : List α) (hp : Partitioned (l.map p)) :
    l.takeWhile p = l.filter p := by
  induction l with
  | nil => rfl
  | cons x xs ih =>
    simp only [List.map_cons] at hp
    cases hx : p x with
    | true =>
      have ihx := ih (hp.sublist (List.sublist_cons_self _ _))
      simp [hx, ihx]
    | false =>
      simp only [List.takeWhile_cons, List.filter_cons, hx]
      have hall : ∀ y ∈ xs, p y = false := by
        intro y hy
        by_contra hne
        have hyt : p y = true := by
          cases hpy : p y
          · exact absurd hpy hne
          · rfl
        have := (List.pairwise_cons.1 hp).1 (p y) (List.mem_map_of_mem p hy) hyt
        rw [hx] at this
        cases this
      rw [List.filter_eq_nil_iff.2 fun y hy => by simp [hall y hy]]
      simp

theorem map_handle_of_preserve (g : Item → Item)
    (hg : ∀ it, (g it).handle = it.handle) (l : List Item) :
    (l.map g).map Item.handle = l.map Item.handle := by
  rw [List.map_map]
  exact List.map_congr_left fun it _ => hg it

theorem exists_of_handle_mem {l : List Item} {h : Nat}
    (hmem : h ∈ l.map Item.handle) : ∃ it ∈ l, it.handle = h := by
  simpa using hmem

theorem mem_updItem_self {hdl : Nat} {f : Item → Item} {l : List Item}
    {it : Item} (hmem : it ∈ l) (hh : it.handle = hdl) :
    f it ∈ updItem hdl f l := by
  have : f it = (fun x => if x.handle = hdl then f x else x) it := by simp [hh]
  rw [updItem, this]
  exact List.mem_map_of_mem _ hmem

theorem mem_updItem_other {hdl : Nat} {f : Item → Item} {l : List Item}
    {it : Item} (hmem : it ∈ l) (hh : it.handle ≠ hdl) :
    it ∈ updItem hdl f l := by
  have : it = (fun x => if x.handle = hdl then f x else x) it := by simp [hh]
  rw [updItem]
  exact this ▸ List.mem_map_of_mem _ hmem

theorem selAtH_updItem_sLead_true_self (hdl : Nat) (l : List Item)
    (hsome : (findByHandle l hdl).isSome) :
    selAtH (updItem hdl (sLead true) l) hdl = true := by
  rw [selAtH, findByHandle_updItem hdl (sLead true) (sLead_handle true) l hdl]
  cases hfind : findByHandle l hdl with
  | none => rw [hfind] at hsome; cases hsome
  | some it => simp [sLead]

theorem selAtH_updItem_sSel_self (hdl : Nat) (b : Bool) (l : List Item)
    (hsome : (findByHandle l hdl).isSome) :
    selAtH (updItem hdl (sSel b) l) hdl = b := by
  rw [selAtH, findByHandle_updItem hdl (sSel b) (sSel_handle b) l hdl]
  cases hfind : findByHandle l hdl with
  | none => rw [hfind] at hsome; cases hsome
  | some it => simp [sSel]

theorem perm_moveToSelected {sel : List Nat} {h : Nat} (hmem : h ∈ sel) :
    (h :: sel.erase h).Perm sel := (List.perm_cons_erase hmem).symm

theorem perm_moveToUnselected {sel : List Nat} {h : Nat} (hmem : h ∈ sel) :
    (sel.erase h ++ [h]).Perm sel :=
  (List.perm_append_singleton h _).trans (List.perm_cons_erase hmem).symm

theorem foldl_pred {α : Type} {P : State → Prop} (step : State → α → State)
    (l : List α) (hstep : ∀ st x, x ∈ l → P st → P (step st x)) :
    ∀ st, P st → P (l.foldl step st) := by
  induction l with
  | nil => intro st hst; exact hst
  | cons x xs ih =>
    intro st hst
    exact ih (fun st' x' hx' => hstep st' x' (List.mem_cons_of_mem x hx'))
      (step st x) (hstep st x (List.mem_cons_self x xs) hst)

theorem stableInsert_perm (lt : α → α → Bool) (x : α) (l : List α) :
    (stableInsert lt x l).Perm (x :: l) := by
  induction l with
  | nil => exact List.Perm.refl _
  | cons y ys ih =>
    rw [stableInsert]
    by_cases hc : lt y x = true
    · simp only [hc, if_true]
      exact (ih.cons y).trans (List.Perm.swap x y ys)
    · simp only [Bool.not_eq_true] at hc
      simp only [hc]
      exact List.Perm.refl _

theorem stableSortBy_perm (lt : α → α → Bool) (l : List α) :
    (stableSortBy lt l).Perm l := by
  induction l with
  | nil => exact List.Perm.refl _
  | cons x xs ih =>
    exact (stableInsert_perm lt x (stableSortBy lt xs)).trans (ih.cons x)

theorem sweepY_projHS (o : Int) (l : List Item) :
    projHS (sweepY o l) = projHS l := by
  induction l generalizing o with
  | nil => rfl
  | cons x xs ih => simp [sweepY, projHS] at *; exact ih _

theorem sweepY_map_handle (o : Int) (l : List Item) :
    (sweepY o l).map Item.handle = l.map Item.handle := by
  have := congrArg (List.map Prod.fst) (sweepY_projHS o l)
  rwa [projHS_handles, projHS_handles] at this

theorem projHS_append (l1 l2 : List Item) :
    projHS (l1 ++ l2) = projHS l1 ++ projHS l2 := by
  simp [projHS]

theorem selOrder_nodup {s : State} (hs : Inv s) : s.selOrder.Nodup :=
  (hs.perm.nodup_iff).2 hs.nodup

theorem dropWhile_all_false (l : List Bool) (hp : Partitioned l) :
    ∀ x ∈ l.dropWhile id, x = false := by
  intro x hx
  cases hd : l.dropWhile id with
  | nil => rw [hd] at hx; cases hx
  | cons y ys =>
    have hy : y = false := by
      have := List.head?_dropWhile_not id l
      rw [hd] at this
      simpa using this
    have hsub : (y :: ys).Sublist l := hd ▸ List.dropWhile_sublist id
    have hpart : Partitioned (y :: ys) := hp.sublist hsub
    rw [hd] at hx
    rcases List.mem_cons.1 hx with h | h
    · exact h ▸ hy
    · by_contra hne
      have hxt : x = true := by cases hxx : x
        <;> simp_all
      have := (List.pairwise_cons.1 hpart).1 x h hxt
      rw [hy] at this
      cases this

theorem dropWhile_flag_false {s : State} (hpart : Partitioned (selFlags s)) :
    ∀ h ∈ s.selOrder.dropWhile (selAtH s.itemsInOrder),
      selAtH s.itemsInOrder h = false := by
  intro h hmem
  have hmap : selAtH s.itemsInOrder h ∈
      (s.selOrder.map (selAtH s.itemsInOrder)).dropWhile id := by
    rw [List.dropWhile_map]
    exact List.mem_map_of_mem _ hmem
  exact dropWhile_all_false _ hpart _ hmap

/- ======================  clearSelection  ====================== -/

theorem clearSelection_map_handle (s : State) :
    (clearSelection s).itemsInOrder.map Item.handle =
      s.itemsInOrder.map Item.handle := by
  apply map_handle_of_preserve
  intro it
  by_cases hc : it.handle ∈ s.selOrder.takeWhile (selAtH s.itemsInOrder)
    <;> simp [hc, sSel_handle]

theorem clearSelection_flag_false (s : State) (hpart : Partitioned (selFlags s))
    (h : Nat) (hmem : h ∈ s.selOrder) :
    selAtH (clearSelection s).itemsInOrder h = false := by
  have hg : ∀ it : Item,
      ((fun it => if (s.selOrder.takeWhile (selAtH s.itemsInOrder)).contains it.handle
        then sSel false it else it) it).handle = it.handle := by
    intro it
    by_cases hc : it.handle ∈ s.selOrder.takeWhile (selAtH s.itemsInOrder)
      <;> simp [hc, sSel_handle]
  show selAtH (s.itemsInOrder.map _) h = false
  rw [selAtH, findByHandle_map _ hg]
  cases hfind : findByHandle s.itemsInOrder h with
  | none => simp
  | some it =>
    obtain ⟨hit, hh⟩ := findByHandle_mem hfind
    by_cases hc : it.handle ∈ s.selOrder.takeWhile (selAtH s.itemsInOrder)
    · simp [hc, sSel]
    · have hfl : ((s.selOrder.takeWhile (selAtH s.itemsInOrder)).contains it.handle)
          = false := by simpa using hc
      simp [hfl]
      rw [if_neg hc]
      -- h is outside the selected front, so its flag was already false.
      have hdrop : h ∈ s.selOrder.dropWhile (selAtH s.itemsInOrder) := by
        have hsplit : s.selOrder.takeWhile (selAtH s.itemsInOrder) ++
            s.selOrder.dropWhile (selAtH s.itemsInOrder) = s.selOrder :=
          List.takeWhile_append_dropWhile (selAtH s.itemsInOrder) s.selOrder
        have : h ∈ s.selOrder.takeWhile (selAtH s.itemsInOrder) ∨
            h ∈ s.selOrder.dropWhile (selAtH s.itemsInOrder) := by
          rw [← List.mem_append, hsplit]; exact hmem
        rcases this with hin | hin
        · exact absurd (hh ▸ hin) hc
        · exact hin
      have := dropWhile_flag_false hpart h hdrop
      rw [selAtH, hfind] at this
      simpa using this

theorem clearSelection_inv {s : State} (hs : Inv s) : Inv (clearSelection s) where
  nodup := by rw [clearSelection_map_handle]; exact hs.nodup
  perm := by
    show s.selOrder.Perm _
    rw [clearSelection_map_handle]; exact hs.perm
  bound := by
    intro h hmem
    rw [clearSelection_map_handle] at hmem
    exact hs.bound h hmem
  part := by
    apply partitioned_of_all_false
    intro x hx
    simp only [selFlags, List.mem_map] at hx
    obtain ⟨h, hmem, hflag⟩ := hx
    rw [← hflag]
    exact clearSelection_flag_false s hs.part h hmem
  selinv := by intro h hleader; cases hleader

/- ======================  selectItemNoModifiers  ====================== -/

theorem selectItemNoModifiers_state (hdl : Nat) (s : State) :
    (selectItemNoModifiers hdl s).1 =
      State.mk (updItem hdl (sLead true) (clearSelection s).itemsInOrder)
        (hdl :: (clearSelection s).selOrder.erase hdl)
        (some hdl) (clearSelection s).orderProvider
        (clearSelection s).sceneRect (clearSelection s).nextHandle := rfl

theorem selectItemNoModifiers_inv {hdl : Nat} {s : State} (hs : Inv s)
    (hmem : hdl ∈ s.itemsInOrder.map Item.handle) :
    Inv (selectItemNoModifiers hdl s).1 := by
  have hs1 := clearSelection_inv hs
  set s1 := clearSelection s with hs1def
  have hmem1 : hdl ∈ s1.itemsInOrder.map Item.handle := by
    rw [hs1def, clearSelection_map_handle]; exact hmem
  have hsel1 : hdl ∈ s1.selOrder := hs1.perm.mem_iff.2 hmem1
  have hnd1 : s1.selOrder.Nodup := selOrder_nodup hs1
  have hsome1 : (findByHandle s1.itemsInOrder hdl).isSome := by
    obtain ⟨it, hit, hh⟩ := exists_of_handle_mem hmem1
    exact hh ▸ findByHandle_isSome_of_mem hit
  rw [selectItemNoModifiers_state, ← hs1def]
  constructor
  · show ((updItem hdl (sLead true) s1.itemsInOrder).map Item.handle).Nodup
    rw [updItem_map_handle hdl _ (sLead_handle true)]
    exact hs1.nodup
  · show (hdl :: s1.selOrder.erase hdl).Perm
      ((updItem hdl (sLead true) s1.itemsInOrder).map Item.handle)
    rw [updItem_map_handle hdl _ (sLead_handle true)]
    exact (perm_moveToSelected hsel1).trans hs1.perm
  · intro h hmemh
    have hmemh' : h ∈ s1.itemsInOrder.map Item.handle := by
      rw [← updItem_map_handle hdl (sLead true) (sLead_handle true)]
      exact hmemh
    exact hs1.bound h hmemh'
  · show Partitioned (((hdl :: s1.selOrder.erase hdl)).map
      (selAtH (updItem hdl (sLead true) s1.itemsInOrder)))
    rw [List.map_cons]
    rw [selAtH_updItem_sLead_true_self hdl _ hsome1]
    apply partitioned_cons_true
    apply partitioned_of_all_false
    intro x hx
    simp only [List.mem_map] at hx
    obtain ⟨h, hmemh, hflag⟩ := hx
    have hne : h ≠ hdl := ((List.Nodup.mem_erase_iff hnd1).1 hmemh).1
    rw [← hflag, selAtH_updItem_ne hdl _ (sLead_handle true) _ h hne]
    exact clearSelection_flag_false s hs.part h
      (((List.Nodup.mem_erase_iff hnd1).1 hmemh).2)
  · intro h hleader
    obtain ⟨it, hit, hh⟩ := exists_of_handle_mem hmem1
    simp only [Option.some.injEq] at hleader
    refine ⟨sLead true it, mem_updItem_self hit hh, ?_, ?_⟩
    · rw [sLead_handle]; rw [hh, hleader]
    · simp [sLead]

/- ======================  selectItemWithControl  ====================== -/

theorem ctrlSearch_some_sel {sel : Nat → Bool} {n : Nat} :
    ∀ {fuel b f j : Nat}, ctrlSearch sel n fuel b f = some j → sel j = true := by
  intro fuel
  induction fuel with
  | zero => intro b f j hres; cases hres
  | succ fuel ih =>
    intro b f j hres
    rw [ctrlSearch] at hres
    by_cases hb : b ≠ 0
    · rw [if_pos hb] at hres
      by_cases hsb : sel (b - 1)
      · rw [if_pos hsb] at hres
        cases hres
        exact hsb
      · rw [if_neg hsb] at hres
        by_cases hf : f ≠ n
        · rw [if_pos hf] at hres
          by_cases hff : (f + 1 ≠ n && sel (f + 1)) = true
          · rw [if_pos hff] at hres
            cases hres
            exact (Bool.and_eq_true_iff.1 hff).2
          · rw [if_neg hff] at hres
            exact ih hres
        · rw [if_neg hf] at hres
          exact ih hres
    · rw [if_neg hb] at hres
      by_cases hf : f ≠ n
      · rw [if_pos hf] at hres
        by_cases hff : (f + 1 ≠ n && sel (f + 1)) = true
        · rw [if_pos hff] at hres
          cases hres
          exact (Bool.and_eq_true_iff.1 hff).2
        · rw [if_neg hff] at hres
          exact ih hres
      · rw [if_neg hf] at hres
        exact ih hres

theorem selAtIdx_true_get {l : List Item} {j : Nat} (hsel : selAtIdx l j = true) :
    ∃ it, l.get? j = some it ∧ it.selected = true := by
  cases hget : l.get? j with
  | none => rw [selAtIdx, hget] at hsel; cases hsel
  | some it =>
    refine ⟨it, rfl, ?_⟩
    rw [selAtIdx, hget] at hsel
    simpa using hsel

theorem ctrl_state_unsel_some (hdl : Nat) (s : State) (it : Item) (oldL : Nat)
    (hfind : findByHandle s.itemsInOrder hdl = some it)
    (hsel : it.selected = false) (hlead : s.leader = some oldL) :
    selectItemWithControl hdl s =
      (State.mk
        (updItem hdl (sLead true) (updItem oldL (sLead false) s.itemsInOrder))
        (hdl :: s.selOrder.erase hdl) (some hdl) s.orderProvider s.sceneRect
        s.nextHandle,
       [Notif.newSelectionLeader
          (pidAtH (updItem hdl (sLead true)
            (updItem oldL (sLead false) s.itemsInOrder)) hdl)
          ⟨true, false, false⟩]) := by
  rw [selectItemWithControl, hfind]
  dsimp only
  rw [hsel, hlead]
  rfl

theorem ctrl_state_unsel_none (hdl : Nat) (s : State) (it : Item)
    (hfind : findByHandle s.itemsInOrder hdl = some it)
    (hsel : it.selected = false) (hlead : s.leader = none) :
    selectItemWithControl hdl s =
      (State.mk (updItem hdl (sLead true) s.itemsInOrder)
        (hdl :: s.selOrder.erase hdl) (some hdl) s.orderProvider s.sceneRect
        s.nextHandle,
       [Notif.newSelectionLeader
          (pidAtH (updItem hdl (sLead true) s.itemsInOrder) hdl)
          ⟨true, false, false⟩]) := by
  rw [selectItemWithControl, hfind]
  dsimp only
  rw [hsel, hlead]
  rfl

theorem ctrl_state_only (hdl : Nat) (s : State) (it : Item)
    (hfind : findByHandle s.itemsInOrder hdl = some it)
    (hsel : it.selected = true) (hmult : multipleItemsSelected s = false) :
    selectItemWithControl hdl s =
      (s, [Notif.newSelectionLeader
            (pidAtH s.itemsInOrder (s.leader.getD 0)) ⟨true, true, false⟩]) := by
  rw [selectItemWithControl, hfind]
  dsimp only
  rw [hsel, hmult]
  rfl

theorem ctrl_state_desel (hdl : Nat) (s : State) (it : Item)
    (hfind : findByHandle s.itemsInOrder hdl = some it)
    (hsel : it.selected = true) (hmult : multipleItemsSelected s = true)
    (hlead : s.leader ≠ some hdl) :
    selectItemWithControl hdl s =
      (State.mk (updItem hdl (sSel false) s.itemsInOrder)
        (s.selOrder.erase hdl ++ [hdl]) s.leader s.orderProvider s.sceneRect
        s.nextHandle, []) := by
  rw [selectItemWithControl, hfind]
  dsimp only
  rw [hsel, hmult]
  rw [if_pos hlead]
  rfl

theorem ctrl_state_desel_leader (hdl : Nat) (s : State) (it : Item) (j : Nat)
    (hfind : findByHandle s.itemsInOrder hdl = some it)
    (hsel : it.selected = true) (hmult : multipleItemsSelected s = true)
    (hlead : s.leader = some hdl)
    (hsearch : ctrlSearch (selAtIdx (updItem hdl (sSel false) s.itemsInOrder))
      (updItem hdl (sSel false) s.itemsInOrder).length
      ((updItem hdl (sSel false) s.itemsInOrder).length + 1)
      (idxOfHandle (updItem hdl (sSel false) s.itemsInOrder) hdl)
      (idxOfHandle (updItem hdl (sSel false) s.itemsInOrder) hdl) = some j) :
    selectItemWithControl hdl s =
      (State.mk
        (updItem ((((updItem hdl (sSel false) s.itemsInOrder).get? j).map
            Item.handle).getD 0) (sLead true)
          (updItem hdl (sSel false) s.itemsInOrder))
        (s.selOrder.erase hdl ++ [hdl])
        (some ((((updItem hdl (sSel false) s.itemsInOrder).get? j).map
            Item.handle).getD 0))
        s.orderProvider s.sceneRect s.nextHandle,
       [Notif.newSelectionLeader
          (pidAtH (updItem ((((updItem hdl (sSel false) s.itemsInOrder).get? j).map
              Item.handle).getD 0) (sLead true)
            (updItem hdl (sSel false) s.itemsInOrder))
            ((((updItem hdl (sSel false) s.itemsInOrder).get? j).map
              Item.handle).getD 0))
          ⟨true, false, true⟩]) := by
  rw [selectItemWithControl, hfind]
  dsimp only [moveToUnselected]
  rw [hsel, hmult, hlead]
  rw [if_neg (show ¬ ((some hdl : Option Nat) ≠ some hdl) from fun hne => hne rfl)]
  rw [hsearch]
  rfl

theorem ctrl_state_desel_leader_nofind (hdl : Nat) (s : State) (it : Item)
    (hfind : findByHandle s.itemsInOrder hdl = some it)
    (hsel : it.selected = true) (hmult : multipleItemsSelected s = true)
    (hlead : s.leader = some hdl)
    (hsearch : ctrlSearch (selAtIdx (updItem hdl (sSel false) s.itemsInOrder))
      (updItem hdl (sSel false) s.itemsInOrder).length
      ((updItem hdl (sSel false) s.itemsInOrder).length + 1)
      (idxOfHandle (updItem hdl (sSel false) s.itemsInOrder) hdl)
      (idxOfHandle (updItem hdl (sSel false) s.itemsInOrder) hdl) = none) :
    selectItemWithControl hdl s =
      (State.mk (updItem hdl (sSel false) s.itemsInOrder)
        (s.selOrder.erase hdl ++ [hdl]) none s.orderProvider s.sceneRect
        s.nextHandle, []) := by
  rw [selectItemWithControl, hfind]
  dsimp only [moveToUnselected]
  rw [hsel, hmult, hlead]
  rw [if_neg (show ¬ ((some hdl : Option Nat) ≠ some hdl) from fun hne => hne rfl)]
  rw [hsearch]
  rfl

theorem ctrl_desel_part {hdl : Nat} {s : State} (hs : Inv s)
    (hmem : hdl ∈ s.itemsInOrder.map Item.handle) :
    Partitioned ((s.selOrder.erase hdl ++ [hdl]).map
      (selAtH (updItem hdl (sSel false) s.itemsInOrder))) := by
  have hnd := selOrder_nodup hs
  have hsome : (findByHandle s.itemsInOrder hdl).isSome := by
    obtain ⟨it, hit, hh⟩ := exists_of_handle_mem hmem
    exact hh ▸ findByHandle_isSome_of_mem hit
  rw [List.map_append]
  have hflags : (s.selOrder.erase hdl).map
      (selAtH (updItem hdl (sSel false) s.itemsInOrder)) =
      (s.selOrder.erase hdl).map (selAtH s.itemsInOrder) := by
    apply List.map_congr_left
    intro h hmemh
    exact selAtH_updItem_ne hdl _ (sSel_handle false) _ h
      ((List.Nodup.mem_erase_iff hnd).1 hmemh).1
  rw [hflags]
  have hsub : ((s.selOrder.erase hdl).map (selAtH s.itemsInOrder)).Sublist
      (s.selOrder.map (selAtH s.itemsInOrder)) :=
    (List.erase_sublist hdl s.selOrder).map _
  have hpart : Partitioned ((s.selOrder.erase hdl).map (selAtH s.itemsInOrder)) :=
    partitioned_sublist hsub hs.part
  have hone : (List.map (selAtH (updItem hdl (sSel false) s.itemsInOrder)) [hdl]) =
      [false] := by
    simp only [List.map_cons, List.map_nil]
    rw [selAtH_updItem_sSel_self hdl false _ hsome]
  rw [hone]
  exact partitioned_append_false hpart

theorem ctrl_tail_inv {hdl : Nat} {s : State} (hs : Inv s)
    (hmem : hdl ∈ s.itemsInOrder.map Item.handle) (items1 : List Item)
    (hh1 : items1.map Item.handle = s.itemsInOrder.map Item.handle)
    (hflags : ∀ h, selAtH items1 h = selAtH s.itemsInOrder h)
    (p : Option (PageId → PageId → Bool)) (r : Option (Int × Int)) :
    Inv (State.mk (updItem hdl (sLead true) items1)
      (hdl :: s.selOrder.erase hdl) (some hdl) p r s.nextHandle) := by
  have hnd := selOrder_nodup hs
  have hselord : hdl ∈ s.selOrder := hs.perm.mem_iff.2 hmem
  have hmem1 : hdl ∈ items1.map Item.handle := by rw [hh1]; exact hmem
  have hsome1 : (findByHandle items1 hdl).isSome := by
    obtain ⟨it1, hit1, hh1x⟩ := exists_of_handle_mem hmem1
    exact hh1x ▸ findByHandle_isSome_of_mem hit1
  constructor
  · show ((updItem hdl (sLead true) items1).map Item.handle).Nodup
    rw [updItem_map_handle hdl _ (sLead_handle true), hh1]
    exact hs.nodup
  · show (hdl :: s.selOrder.erase hdl).Perm _
    rw [updItem_map_handle hdl _ (sLead_handle true), hh1]
    exact (perm_moveToSelected hselord).trans hs.perm
  · intro h hmemh
    rw [show (State.mk (updItem hdl (sLead true) items1)
        (hdl :: s.selOrder.erase hdl) (some hdl) p r
        s.nextHandle).itemsInOrder = updItem hdl (sLead true) items1 from rfl,
      updItem_map_handle hdl _ (sLead_handle true), hh1] at hmemh
    exact hs.bound h hmemh
  · show Partitioned ((hdl :: s.selOrder.erase hdl).map
      (selAtH (updItem hdl (sLead true) items1)))
    rw [List.map_cons, selAtH_updItem_sLead_true_self hdl _ hsome1]
    apply partitioned_cons_true
    have heq : (s.selOrder.erase hdl).map (selAtH (updItem hdl (sLead true) items1))
        = (s.selOrder.erase hdl).map (selAtH s.itemsInOrder) := by
      apply List.map_congr_left
      intro h hmemh
      rw [selAtH_updItem_ne hdl _ (sLead_handle true) _ h
        ((List.Nodup.mem_erase_iff hnd).1 hmemh).1]
      exact hflags h
    rw [heq]
    exact partitioned_sublist ((List.erase_sublist hdl s.selOrder).map _) hs.part
  · intro h hleader
    simp only [Option.some.injEq] at hleader
    obtain ⟨it1, hit1, hh1x⟩ := exists_of_handle_mem hmem1
    refine ⟨sLead true it1, mem_updItem_self hit1 hh1x, ?_, ?_⟩
    · rw [sLead_handle, hh1x, hleader]
    · simp [sLead]

theorem ctrl_desel_inv {hdl : Nat} {s : State} (hs : Inv s)
    (hmem : hdl ∈ s.itemsInOrder.map Item.handle)
    (ld : Option Nat)
    (hld : ∀ h, ld = some h → h ≠ hdl ∧ s.leader = some h) :
    Inv (State.mk (updItem hdl (sSel false) s.itemsInOrder)
      (s.selOrder.erase hdl ++ [hdl]) ld s.orderProvider s.sceneRect
      s.nextHandle) := by
  have hselord : hdl ∈ s.selOrder := hs.perm.mem_iff.2 hmem
  constructor
  · show ((updItem hdl (sSel false) s.itemsInOrder).map Item.handle).Nodup
    rw [updItem_map_handle hdl _ (sSel_handle false)]
    exact hs.nodup
  · show (s.selOrder.erase hdl ++ [hdl]).Perm _
    rw [updItem_map_handle hdl _ (sSel_handle false)]
    exact (perm_moveToUnselected hselord).trans hs.perm
  · intro h hmemh
    rw [show (State.mk (updItem hdl (sSel false) s.itemsInOrder)
        (s.selOrder.erase hdl ++ [hdl]) ld s.orderProvider s.sceneRect
        s.nextHandle).itemsInOrder = updItem hdl (sSel false) s.itemsInOrder
        from rfl,
      updItem_map_handle hdl _ (sSel_handle false)] at hmemh
    exact hs.bound h hmemh
  · exact ctrl_desel_part hs hmem
  · intro h hleader
    obtain ⟨hne, hsl⟩ := hld h hleader
    obtain ⟨itL, hitL, hhL, hselL⟩ := hs.selinv h hsl
    exact ⟨itL, mem_updItem_other hitL (hhL.symm ▸ hne), hhL, hselL⟩

theorem selectItemWithControl_inv {hdl : Nat} {s : State} (hs : Inv s)
    (hmem : hdl ∈ s.itemsInOrder.map Item.handle) :
    Inv (selectItemWithControl hdl s).1 := by
  have hsome : (findByHandle s.itemsInOrder hdl).isSome := by
    obtain ⟨it, hit, hh⟩ := exists_of_handle_mem hmem
    exact hh ▸ findByHandle_isSome_of_mem hit
  cases hfind : findByHandle s.itemsInOrder hdl with
  | none => rw [hfind] at hsome; cases hsome
  | some it =>
  by_cases hsel : it.selected = true
  · by_cases hmult : multipleItemsSelected s = true
    · by_cases hlead : s.leader = some hdl
      · cases hsearch : ctrlSearch
            (selAtIdx (updItem hdl (sSel false) s.itemsInOrder))
            (updItem hdl (sSel false) s.itemsInOrder).length
            ((updItem hdl (sSel false) s.itemsInOrder).length + 1)
            (idxOfHandle (updItem hdl (sSel false) s.itemsInOrder) hdl)
            (idxOfHandle (updItem hdl (sSel false) s.itemsInOrder) hdl) with
        | none =>
          rw [ctrl_state_desel_leader_nofind hdl s it hfind hsel hmult hlead
            hsearch]
          exact ctrl_desel_inv hs hmem none (fun h hh => by cases hh)
        | some j =>
          rw [ctrl_state_desel_leader hdl s it j hfind hsel hmult hlead hsearch]
          have hjsel := ctrlSearch_some_sel hsearch
          obtain ⟨itj, hgetj, hselj⟩ := selAtIdx_true_get hjsel
          have hitjmem : itj ∈ updItem hdl (sSel false) s.itemsInOrder :=
            List.get?_mem hgetj
          have hnewl : (((updItem hdl (sSel false) s.itemsInOrder).get? j).map
              Item.handle).getD 0 = itj.handle := by
            rw [hgetj]; rfl
          have hnd2 : ((updItem hdl (sSel false) s.itemsInOrder).map
              Item.handle).Nodup := by
            rw [updItem_map_handle hdl _ (sSel_handle false)]
            exact hs.nodup
          have hselord : hdl ∈ s.selOrder := hs.perm.mem_iff.2 hmem
          rw [hnewl]
          -- The searched-for record is selected, so raising its leader flag
          -- leaves every selection flag unchanged.
          constructor
          · show ((updItem itj.handle (sLead true)
              (updItem hdl (sSel false) s.itemsInOrder)).map Item.handle).Nodup
            rw [updItem_map_handle _ _ (sLead_handle true)]
            exact hnd2
          · show (s.selOrder.erase hdl ++ [hdl]).Perm _
            rw [updItem_map_handle _ _ (sLead_handle true),
              updItem_map_handle hdl _ (sSel_handle false)]
            exact (perm_moveToUnselected hselord).trans hs.perm
          · intro h hmemh
            rw [show (State.mk (updItem itj.handle (sLead true)
                (updItem hdl (sSel false) s.itemsInOrder))
                (s.selOrder.erase hdl ++ [hdl]) (some itj.handle)
                s.orderProvider s.sceneRect s.nextHandle).itemsInOrder =
                updItem itj.handle (sLead true)
                  (updItem hdl (sSel false) s.itemsInOrder) from rfl,
              updItem_map_handle _ _ (sLead_handle true),
              updItem_map_handle hdl _ (sSel_handle false)] at hmemh
            exact hs.bound h hmemh
          · show Partitioned ((s.selOrder.erase hdl ++ [hdl]).map
              (selAtH (updItem itj.handle (sLead true)
                (updItem hdl (sSel false) s.itemsInOrder))))
            have heq : ∀ h, selAtH (updItem itj.handle (sLead true)
                (updItem hdl (sSel false) s.itemsInOrder)) h =
                selAtH (updItem hdl (sSel false) s.itemsInOrder) h := by
              intro h
              by_cases hh : h = itj.handle
              · subst hh
                rw [selAtH_updItem_sLead_true_self _ _
                  (findByHandle_isSome_of_mem hitjmem)]
                rw [selAtH_of_mem_nodup hitjmem hnd2, hselj]
              · exact selAtH_updItem_ne _ _ (sLead_handle true) _ h hh
            rw [List.map_congr_left (fun h _ => heq h)]
            exact ctrl_desel_part hs hmem
          · intro h hleader
            simp only [Option.some.injEq] at hleader
            refine ⟨sLead true itj, mem_updItem_self hitjmem rfl, ?_, ?_⟩
            · rw [sLead_handle, hleader]
            · simp [sLead]
      · rw [ctrl_state_desel hdl s it hfind hsel hmult hlead]
        exact ctrl_desel_inv hs hmem s.leader
          (fun h hh => ⟨fun he => hlead (by rw [hh, he]) |>.elim, hh⟩)
    · have hmult' : multipleItemsSelected s = false := by
        cases hm : multipleItemsSelected s
        · rfl
        · exact absurd hm hmult
      rw [ctrl_state_only hdl s it hfind hsel hmult']
      exact hs
  · have hsel' : it.selected = false := by
      cases hx : it.selected
      · rfl
      · exact absurd hx hsel
    cases hlead : s.leader with
    | some oldL =>
      rw [ctrl_state_unsel_some hdl s it oldL hfind hsel' hlead]
      exact ctrl_tail_inv hs hmem (updItem oldL (sLead false) s.itemsInOrder)
        (updItem_map_handle oldL _ (sLead_handle false) s.itemsInOrder)
        (fun h => selAtH_updItem_sLead_false oldL s.itemsInOrder h)
        s.orderProvider s.sceneRect
    | none =>
      rw [ctrl_state_unsel_none hdl s it hfind hsel' hlead]
      exact ctrl_tail_inv hs hmem s.itemsInOrder rfl (fun h => rfl)
        s.orderProvider s.sceneRect



/- ======================  selectItemWithShift  ====================== -/

theorem shift_return_state (hdl : Nat) (s : State) (oldL : Nat)
    (hlead : s.leader = some oldL) (heq : oldL = hdl) :
    selectItemWithShift hdl s = (s, []) := by
  rw [selectItemWithShift, hlead]
  dsimp only
  rw [if_pos heq]

theorem idxOfHandle_spec {l : List Item} {h : Nat}
    (hmem : h ∈ l.map Item.handle) :
    ∃ it, l.get? (idxOfHandle l h) = some it ∧ it.handle = h := by
  induction l with
  | nil => cases hmem
  | cons x xs ih =>
    rw [idxOfHandle, List.findIdx_cons]
    by_cases hx : x.handle = h
    · have : (x.handle == h) = true := by simp [hx]
      rw [this]
      exact ⟨x, rfl, hx⟩
    · have hbx : (x.handle == h) = false := by simp [hx]
      rw [hbx]
      have hmem' : h ∈ xs.map Item.handle := by
        rcases List.mem_map.1 hmem with ⟨it, hit, hh⟩
        rcases List.mem_cons.1 hit with he | he
        · exact absurd (he ▸ hh) hx
        · exact hh ▸ List.mem_map_of_mem Item.handle he
      obtain ⟨it, hget, hh⟩ := ih hmem'
      exact ⟨it, by simpa using hget, hh⟩

theorem shift_step_items_map (s st : State) (x : Nat) :
    ((moveToSelected x
      { st with itemsInOrder := updItem x (sSel true) st.itemsInOrder })
        ).itemsInOrder.map Item.handle = st.itemsInOrder.map Item.handle :=
  updItem_map_handle x _ (sSel_handle true) st.itemsInOrder

theorem shift_step_inv {s : State} (st : State) (x : Nat)
    (hx : x ∈ s.itemsInOrder.map Item.handle)
    (hP : Inv st ∧ st.itemsInOrder.map Item.handle = s.itemsInOrder.map Item.handle
      ∧ st.leader = s.leader ∧ st.nextHandle = s.nextHandle) :
    Inv (moveToSelected x
        { st with itemsInOrder := updItem x (sSel true) st.itemsInOrder }) ∧
      (moveToSelected x
        { st with itemsInOrder := updItem x (sSel true) st.itemsInOrder }
          ).itemsInOrder.map Item.handle = s.itemsInOrder.map Item.handle ∧
      (moveToSelected x
        { st with itemsInOrder := updItem x (sSel true) st.itemsInOrder }
          ).leader = s.leader ∧
      (moveToSelected x
        { st with itemsInOrder := updItem x (sSel true) st.itemsInOrder }
          ).nextHandle = s.nextHandle := by
  obtain ⟨hInv, hmaps, hld, hnh⟩ := hP
  have hxst : x ∈ st.itemsInOrder.map Item.handle := by rw [hmaps]; exact hx
  have hxsel : x ∈ st.selOrder := hInv.perm.mem_iff.2 hxst
  have hnd := selOrder_nodup hInv
  have hsome : (findByHandle st.itemsInOrder x).isSome := by
    obtain ⟨it, hit, hh⟩ := exists_of_handle_mem hxst
    exact hh ▸ findByHandle_isSome_of_mem hit
  refine ⟨?_, ?_, hld, hnh⟩
  · constructor
    · show ((updItem x (sSel true) st.itemsInOrder).map Item.handle).Nodup
      rw [updItem_map_handle x _ (sSel_handle true)]
      exact hInv.nodup
    · show (x :: st.selOrder.erase x).Perm
        ((updItem x (sSel true) st.itemsInOrder).map Item.handle)
      rw [updItem_map_handle x _ (sSel_handle true)]
      exact (perm_moveToSelected hxsel).trans hInv.perm
    · intro h hmemh
      have : h ∈ st.itemsInOrder.map Item.handle := by
        rw [← updItem_map_handle x (sSel true) (sSel_handle true)]
        exact hmemh
      exact hInv.bound h this
    · show Partitioned ((x :: st.selOrder.erase x).map
        (selAtH (updItem x (sSel true) st.itemsInOrder)))
      rw [List.map_cons, selAtH_updItem_sSel_self x true _ hsome]
      apply partitioned_cons_true
      have heq : (st.selOrder.erase x).map
          (selAtH (updItem x (sSel true) st.itemsInOrder)) =
          (st.selOrder.erase x).map (selAtH st.itemsInOrder) := by
        apply List.map_congr_left
        intro h hmemh
        exact selAtH_updItem_ne x _ (sSel_handle true) _ h
          ((List.Nodup.mem_erase_iff hnd).1 hmemh).1
      rw [heq]
      exact partitioned_sublist ((List.erase_sublist x st.selOrder).map _)
        hInv.part
    · intro h hleader
      obtain ⟨itL, hitL, hhL, hselL⟩ := hInv.selinv h hleader
      by_cases hhe : itL.handle = x
      · refine ⟨sSel true itL, mem_updItem_self hitL hhe, ?_, ?_⟩
        · rw [sSel_handle]; exact hhL
        · rfl
      · exact ⟨itL, mem_updItem_other hitL hhe, hhL, hselL⟩
  · rw [shift_step_items_map s st x]
    exact hmaps

theorem shift_fold_keeps_true (l : List Nat) :
    ∀ (st : State) (h : Nat), selAtH st.itemsInOrder h = true →
      selAtH ((l.foldl (fun st h => moveToSelected h
        { st with itemsInOrder := updItem h (sSel true) st.itemsInOrder }) st)
          ).itemsInOrder h = true := by
  induction l with
  | nil => intro st h hsel; exact hsel
  | cons x xs ih =>
    intro st h hsel
    rw [List.foldl_cons]
    apply ih
    show selAtH (updItem x (sSel true) st.itemsInOrder) h = true
    by_cases hhx : h = x
    · subst hhx
      apply selAtH_updItem_sSel_self
      rw [selAtH] at hsel
      cases hfind : findByHandle st.itemsInOrder h with
      | none => rw [hfind] at hsel; cases hsel
      | some _ => rfl
    · rw [selAtH_updItem_ne x _ (sSel_handle true) _ h hhx]
      exact hsel

theorem shift_fold_sets_true (l : List Nat) :
    ∀ (st : State) (h : Nat), h ∈ l → h ∈ st.itemsInOrder.map Item.handle →
      selAtH ((l.foldl (fun st h => moveToSelected h
        { st with itemsInOrder := updItem h (sSel true) st.itemsInOrder }) st)
          ).itemsInOrder h = true := by
  induction l with
  | nil => intro st h hmem; cases hmem
  | cons x xs ih =>
    intro st h hmem hpres
    rw [List.foldl_cons]
    by_cases hhx : h = x
    · subst hhx
      apply shift_fold_keeps_true
      show selAtH (updItem h (sSel true) st.itemsInOrder) h = true
      apply selAtH_updItem_sSel_self
      obtain ⟨it, hit, hh⟩ := exists_of_handle_mem hpres
      exact hh ▸ findByHandle_isSome_of_mem hit
    · have hmem' : h ∈ xs := by
        rcases List.mem_cons.1 hmem with he | he
        · exact absurd he hhx
        · exact he
      apply ih _ h hmem'
      rw [shift_step_items_map st st x]
      exact hpres

theorem shift_final_inv (hdl oldL : Nat) (s st : State)
    (hInv : Inv st)
    (hh : st.itemsInOrder.map Item.handle = s.itemsInOrder.map Item.handle)
    (hflag : selAtH st.itemsInOrder hdl = true)
    (hmem : hdl ∈ s.itemsInOrder.map Item.handle)
    (p : Option (PageId → PageId → Bool)) (r : Option (Int × Int)) :
    Inv (State.mk
      (updItem hdl (sLead true) (updItem oldL (sLead false) st.itemsInOrder))
      st.selOrder (some hdl) p r st.nextHandle) := by
  have hmemst : hdl ∈ st.itemsInOrder.map Item.handle := by rw [hh]; exact hmem
  have hsome : (findByHandle (updItem oldL (sLead false) st.itemsInOrder) hdl
      ).isSome := by
    have : hdl ∈ (updItem oldL (sLead false) st.itemsInOrder).map Item.handle := by
      rw [updItem_map_handle oldL _ (sLead_handle false)]
      exact hmemst
    obtain ⟨it, hit, hhx⟩ := exists_of_handle_mem this
    exact hhx ▸ findByHandle_isSome_of_mem hit
  constructor
  · show ((updItem hdl (sLead true)
      (updItem oldL (sLead false) st.itemsInOrder)).map Item.handle).Nodup
    rw [updItem_map_handle hdl _ (sLead_handle true),
      updItem_map_handle oldL _ (sLead_handle false)]
    exact hInv.nodup
  · show st.selOrder.Perm _
    rw [updItem_map_handle hdl _ (sLead_handle true),
      updItem_map_handle oldL _ (sLead_handle false)]
    exact hInv.perm
  · intro h hmemh
    rw [show (State.mk
        (updItem hdl (sLead true) (updItem oldL (sLead false) st.itemsInOrder))
        st.selOrder (some hdl) p r st.nextHandle).itemsInOrder =
        updItem hdl (sLead true) (updItem oldL (sLead false) st.itemsInOrder)
        from rfl,
      updItem_map_handle hdl _ (sLead_handle true),
      updItem_map_handle oldL _ (sLead_handle false)] at hmemh
    exact hInv.bound h hmemh
  · show Partitioned (st.selOrder.map (selAtH (updItem hdl (sLead true)
      (updItem oldL (sLead false) st.itemsInOrder))))
    have heq : ∀ h, selAtH (updItem hdl (sLead true)
        (updItem oldL (sLead false) st.itemsInOrder)) h =
        selAtH st.itemsInOrder h := by
      intro h
      by_cases hhx : h = hdl
      · subst hhx
        rw [selAtH_updItem_sLead_true_self _ _ hsome, hflag]
      · rw [selAtH_updItem_ne hdl _ (sLead_handle true) _ h hhx]
        exact selAtH_updItem_sLead_false oldL st.itemsInOrder h
    rw [List.map_congr_left (fun h _ => heq h)]
    exact hInv.part
  · intro h hleader
    simp only [Option.some.injEq] at hleader
    have : hdl ∈ (updItem oldL (sLead false) st.itemsInOrder).map Item.handle := by
      rw [updItem_map_handle oldL _ (sLead_handle false)]
      exact hmemst
    obtain ⟨it1, hit1, hh1⟩ := exists_of_handle_mem this
    refine ⟨sLead true it1, mem_updItem_self hit1 hh1, ?_, ?_⟩
    · rw [sLead_handle, hh1, hleader]
    · simp [sLead]

theorem selectItemWithShift_inv {hdl : Nat} {s : State} (hs : Inv s)
    (hmem : hdl ∈ s.itemsInOrder.map Item.handle) :
    Inv (selectItemWithShift hdl s).1 := by
  cases hlead : s.leader with
  | none =>
    rw [selectItemWithShift, hlead]
    exact selectItemNoModifiers_inv hs hmem
  | some oldL =>
    by_cases heq : oldL = hdl
    · rw [shift_return_state hdl s oldL hlead heq]
      exact hs
    · rw [selectItemWithShift, hlead]
      dsimp only
      rw [if_neg heq]
      dsimp only
      -- The fold over the clicked range preserves the invariant and sets
      -- the flag of every range member, the clicked item included.
      have hrange : ∀ x ∈ ((s.itemsInOrder.drop
          (min (idxOfHandle s.itemsInOrder oldL) (idxOfHandle s.itemsInOrder hdl))
          ).take (max (idxOfHandle s.itemsInOrder oldL)
            (idxOfHandle s.itemsInOrder hdl) + 1 -
            min (idxOfHandle s.itemsInOrder oldL)
              (idxOfHandle s.itemsInOrder hdl))).map Item.handle,
          x ∈ s.itemsInOrder.map Item.handle := by
        intro x hx
        rcases List.mem_map.1 hx with ⟨it, hit, hh⟩
        exact hh ▸ List.mem_map_of_mem Item.handle
          ((List.drop_sublist _ _).subset ((List.take_sublist _ _).subset hit))
      have hP := foldl_pred
        (fun st h => moveToSelected h
          { st with itemsInOrder := updItem h (sSel true) st.itemsInOrder })
        (((s.itemsInOrder.drop
          (min (idxOfHandle s.itemsInOrder oldL) (idxOfHandle s.itemsInOrder hdl))
          ).take (max (idxOfHandle s.itemsInOrder oldL)
            (idxOfHandle s.itemsInOrder hdl) + 1 -
            min (idxOfHandle s.itemsInOrder oldL)
              (idxOfHandle s.itemsInOrder hdl))).map Item.handle)
        (fun st x hx hPst => shift_step_inv st x (hrange x hx) hPst)
        s ⟨hs, rfl, rfl, rfl⟩
      obtain ⟨hInvF, hmapsF, hldF, hnhF⟩ := hP
      -- The clicked handle lies inside the selected range.
      have hdlrange : hdl ∈ ((s.itemsInOrder.drop
          (min (idxOfHandle s.itemsInOrder oldL) (idxOfHandle s.itemsInOrder hdl))
          ).take (max (idxOfHandle s.itemsInOrder oldL)
            (idxOfHandle s.itemsInOrder hdl) + 1 -
            min (idxOfHandle s.itemsInOrder oldL)
              (idxOfHandle s.itemsInOrder hdl))).map Item.handle := by
        obtain ⟨it2, hget2, hh2⟩ := idxOfHandle_spec hmem
        have hlo : min (idxOfHandle s.itemsInOrder oldL)
            (idxOfHandle s.itemsInOrder hdl) ≤ idxOfHandle s.itemsInOrder hdl :=
          min_le_right _ _
        have hhi : idxOfHandle s.itemsInOrder hdl ≤
            max (idxOfHandle s.itemsInOrder oldL)
              (idxOfHandle s.itemsInOrder hdl) := le_max_right _ _
        have hgetdrop : ((s.itemsInOrder.drop
            (min (idxOfHandle s.itemsInOrder oldL)
              (idxOfHandle s.itemsInOrder hdl))).get?
            (idxOfHandle s.itemsInOrder hdl -
              min (idxOfHandle s.itemsInOrder oldL)
                (idxOfHandle s.itemsInOrder hdl))) = some it2 := by
          rw [List.get?_drop]
          rw [Nat.add_sub_cancel' hlo]
          exact hget2
        have hlt : idxOfHandle s.itemsInOrder hdl -
            min (idxOfHandle s.itemsInOrder oldL)
              (idxOfHandle s.itemsInOrder hdl) <
            max (idxOfHandle s.itemsInOrder oldL)
              (idxOfHandle s.itemsInOrder hdl) + 1 -
            min (idxOfHandle s.itemsInOrder oldL)
              (idxOfHandle s.itemsInOrder hdl) := by
          omega
        have hgettake := @List.get?_take _
          (s.itemsInOrder.drop
            (min (idxOfHandle s.itemsInOrder oldL)
              (idxOfHandle s.itemsInOrder hdl))) _ _ hlt
        rw [hgetdrop] at hgettake
        have hmem2 := List.mem_map_of_mem Item.handle (List.get?_mem hgettake)
        rw [hh2] at hmem2
        exact hmem2
      have hflagF := shift_fold_sets_true _ s hdl hdlrange hmem
      exact shift_final_inv hdl oldL s _ hInvF hmapsF hflagF hmem
        _ _


/- ======================  setSelection  ====================== -/

theorem setSelection_inv {pid : PageId} {s : State} (hs : Inv s) :
    Inv (setSelection pid s).1 := by
  cases hfind : s.itemsInOrder.find? (fun (it : Item) => it.pageId == pid) with
  | none =>
    rw [setSelection, hfind]
    exact hs
  | some target =>
    rw [setSelection, hfind]
    dsimp only
    -- Invariant carried through the deselection walk.
    have hstep : ∀ st x, x ∈ s.selOrder.takeWhile (selAtH s.itemsInOrder) →
        (Inv st ∧
          st.itemsInOrder.map Item.handle = s.itemsInOrder.map Item.handle ∧
          st.nextHandle = s.nextHandle ∧
          (s.leader = some target.handle → st.leader = s.leader)) →
        (Inv ((fun st h =>
            if h = target.handle then st
            else
              let st' := moveToUnselected h
                { st with itemsInOrder := updItem h (sSel false) st.itemsInOrder }
              { st' with
                  leader := if st'.leader = some h then none else st'.leader })
          st x) ∧
          ((fun st h =>
            if h = target.handle then st
            else
              let st' := moveToUnselected h
                { st with itemsInOrder := updItem h (sSel false) st.itemsInOrder }
              { st' with
                  leader := if st'.leader = some h then none else st'.leader })
          st x).itemsInOrder.map Item.handle = s.itemsInOrder.map Item.handle ∧
          ((fun st h =>
            if h = target.handle then st
            else
              let st' := moveToUnselected h
                { st with itemsInOrder := updItem h (sSel false) st.itemsInOrder }
              { st' with
                  leader := if st'.leader = some h then none else st'.leader })
          st x).nextHandle = s.nextHandle ∧
          (s.leader = some target.handle →
            ((fun st h =>
              if h = target.handle then st
              else
                let st' := moveToUnselected h
                  { st with itemsInOrder := updItem h (sSel false) st.itemsInOrder }
                { st' with
                    leader := if st'.leader = some h then none else st'.leader })
            st x).leader = s.leader)) := by
      intro st x hx hP
      obtain ⟨hInv, hmaps, hnh, hldw⟩ := hP
      by_cases hxt : x = target.handle
      · simp only [hxt, if_true]
        exact ⟨hInv, hmaps, hnh, hldw⟩
      · simp only [hxt, if_false]
        have hxs : x ∈ s.itemsInOrder.map Item.handle := by
          have hxsel : x ∈ s.selOrder :=
            (List.takeWhile_sublist (selAtH s.itemsInOrder)).subset hx
          exact hs.perm.mem_iff.1 hxsel
        have hxst : x ∈ st.itemsInOrder.map Item.handle := by
          rw [hmaps]; exact hxs
        refine ⟨?_, ?_, ?_, ?_⟩
        · exact ctrl_desel_inv hInv hxst
            (if st.leader = some x then none else st.leader)
            (fun h hh => by
              by_cases hlx : st.leader = some x
              · rw [if_pos hlx] at hh; cases hh
              · rw [if_neg hlx] at hh
                exact ⟨fun he => hlx (he ▸ hh), hh⟩)
        · show (updItem x (sSel false) st.itemsInOrder).map Item.handle =
            s.itemsInOrder.map Item.handle
          rw [updItem_map_handle x _ (sSel_handle false)]
          exact hmaps
        · exact hnh
        · intro hwl
          have hst : st.leader = s.leader := hldw hwl
          show (if st.leader = some x then none else st.leader) = s.leader
          rw [if_neg (fun hlx => hxt (by
            have := hlx.symm.trans (hst.trans hwl)
            exact (Option.some.injEq _ _ ▸ this).symm ▸ rfl))]
          exact hst
      done
    have hP := @foldl_pred Nat
      (fun st => Inv st ∧
        st.itemsInOrder.map Item.handle = s.itemsInOrder.map Item.handle ∧
        st.nextHandle = s.nextHandle ∧
        (s.leader = some target.handle → st.leader = s.leader))
      (fun st h =>
        if h = target.handle then st
        else
          let st' := moveToUnselected h
            { st with itemsInOrder := updItem h (sSel false) st.itemsInOrder }
          { st' with leader := if st'.leader = some h then none else st'.leader })
      (s.selOrder.takeWhile (selAtH s.itemsInOrder))
      hstep s ⟨hs, rfl, rfl, fun _ => rfl⟩
    obtain ⟨hInvF, hmapsF, hnhF, hldF⟩ := hP
    by_cases hw : s.leader = some target.handle
    · rw [if_neg (show ¬ ((!decide (s.leader = some target.handle)) = true)
        from by simp [hw])]
      exact hInvF
    · rw [if_pos (show (!decide (s.leader = some target.handle)) = true
        from by simp [hw])]
      refine ctrl_tail_inv hInvF ?_ _ rfl (fun h => rfl) _ _
      rw [hmapsF]
      exact List.mem_map_of_mem Item.handle (List.mem_of_find?_eq_some hfind)


/- ===============  more generic record-list lemmas  =============== -/

theorem findByHandle_append (l1 l2 : List Item) (h : Nat) :
    findByHandle (l1 ++ l2) h =
      match findByHandle l1 h with
      | some it => some it
      | none => findByHandle l2 h := by
  induction l1 with
  | nil => simp [findByHandle]
  | cons x xs ih =>
    by_cases hx : x.handle = h
    · have hb : (x.handle == h) = true := by simp [hx]
      simp [findByHandle, List.find?_cons, hb]
    · have hb : (x.handle == h) = false := by simp [hx]
      simp only [findByHandle, List.cons_append, List.find?_cons, hb]
      exact ih

theorem mem_transport_of_projHS_perm {l l' : List Item}
    (hp : (projHS l).Perm (projHS l')) {it : Item} (hmem : it ∈ l) :
    ∃ it' ∈ l', it'.handle = it.handle ∧ it'.selected = it.selected := by
  have hm : (it.handle, it.selected) ∈ projHS l' :=
    hp.mem_iff.1 (by simp [projHS]; exact ⟨it, hmem, rfl, rfl⟩)
  simp only [projHS, List.mem_map] at hm
  obtain ⟨it', hmem', heq⟩ := hm
  refine ⟨it', hmem', ?_, ?_⟩
  · have := congrArg Prod.fst heq; simpa using this
  · have := congrArg Prod.snd heq; simpa using this

theorem updItem_not_mem {hdl : Nat} {f : Item → Item} {l : List Item}
    (hout : hdl ∉ l.map Item.handle) : updItem hdl f l = l := by
  induction l with
  | nil => rfl
  | cons x xs ih =>
    simp only [List.map_cons, List.mem_cons, not_or] at hout
    simp only [updItem, List.map_cons] at ih ⊢
    rw [if_neg (fun he => hout.1 he.symm), ih hout.2]

theorem updItem_append (hdl : Nat) (f : Item → Item) (l1 l2 : List Item) :
    updItem hdl f (l1 ++ l2) = updItem hdl f l1 ++ updItem hdl f l2 := by
  simp [updItem]

theorem shiftFrom_projHS (k : Nat) (d : Int) (l : List Item) :
    projHS (shiftFrom k d l) = projHS l := by
  rw [shiftFrom, projHS, List.map_append, List.map_map]
  have h2 : (l.drop k).map ((fun it => (it.handle, it.selected)) ∘
      (fun it => { it with y := it.y + d })) =
      (l.drop k).map (fun it => (it.handle, it.selected)) := by
    apply List.map_congr_left
    intro it _
    rfl
  rw [h2, ← List.map_append, List.take_append_drop]
  rfl

theorem shiftFrom_map_handle (k : Nat) (d : Int) (l : List Item) :
    (shiftFrom k d l).map Item.handle = l.map Item.handle := by
  have := congrArg (List.map Prod.fst) (shiftFrom_projHS k d l)
  rwa [projHS_handles, projHS_handles] at this

theorem selAtH_eq_of_projHS_eq {l l' : List Item}
    (hnd : (l.map Item.handle).Nodup) (hp : projHS l = projHS l') (h : Nat) :
    selAtH l h = selAtH l' h :=
  selAtH_eq_of_projHS_perm hnd (hp ▸ List.Perm.refl _) h

/- ===============  itemInsertPosition analysis  =============== -/

theorem ipBack_le (p : PageId → Bool) (l : List PageId) :
    ∀ (i : Nat) (d : Int), (ipBack p l i d).1 ≤ i := by
  intro i
  induction i with
  | zero => intro d; exact Nat.le_refl 0
  | succ i ih =>
    intro d
    rw [ipBack]
    by_cases hc : ((l.get? (i + 1)).map p).getD false = true
    · rw [if_pos hc]
      exact Nat.le_succ_of_le (ih (d - 1))
    · rw [if_neg hc]

theorem ipBack_dist (p : PageId → Bool) (l : List PageId) :
    ∀ (i : Nat) (d : Int),
      (ipBack p l i d).2 = d - ((i : Int) - ((ipBack p l i d).1 : Int)) := by
  intro i
  induction i with
  | zero => intro d; simp [ipBack]
  | succ i ih =>
    intro d
    rw [ipBack]
    by_cases hc : ((l.get? (i + 1)).map p).getD false = true
    · rw [if_pos hc, ih (d - 1)]
      push_cast
      ring
    · rw [if_neg hc]
      simp

theorem ipBack_stop (p : PageId → Bool) (l : List PageId) :
    ∀ (i : Nat) (d : Int), (ipBack p l i d).1 = 0 ∨
      ((l.get? (ipBack p l i d).1).map p).getD false = false := by
  intro i
  induction i with
  | zero => intro d; exact Or.inl rfl
  | succ i ih =>
    intro d
    rw [ipBack]
    by_cases hc : ((l.get? (i + 1)).map p).getD false = true
    · rw [if_pos hc]
      exact ih (d - 1)
    · rw [if_neg hc]
      right
      simpa using hc

theorem ipFwd_spec (p : PageId → Bool) (l : List PageId) :
    ∀ (fuel i : Nat) (d : Int), fuel + i ≥ l.length →
      i ≤ (ipFwd p l fuel i d).1 ∧
      ((ipFwd p l fuel i d).2 =
        d + (((ipFwd p l fuel i d).1 : Int) - (i : Int))) ∧
      (l.get? (ipFwd p l fuel i d).1 = none ∨
        ((l.get? (ipFwd p l fuel i d).1).map p).getD false = true) ∧
      ((ipFwd p l fuel i d).1 = i ∨
        ((l.get? ((ipFwd p l fuel i d).1 - 1)).map p).getD false = false) ∧
      (i ≤ l.length → (ipFwd p l fuel i d).1 ≤ l.length) := by
  intro fuel
  induction fuel with
  | zero =>
    intro i d hfuel
    have hlen : l.length ≤ i := by omega
    refine ⟨Nat.le_refl i, by simp [ipFwd], ?_, Or.inl rfl, fun h => h⟩
    left
    show l.get? i = none
    exact List.get?_eq_none.2 hlen
  | succ fuel ih =>
    intro i d hfuel
    rw [ipFwd]
    cases hget : l.get? i with
    | none =>
      exact ⟨Nat.le_refl i, by simp, Or.inl hget, Or.inl rfl, fun h => h⟩
    | some x =>
      dsimp only
      by_cases hp : p x = true
      · rw [if_pos hp]
        exact ⟨Nat.le_refl i, by simp, Or.inr (by
          show ((l.get? i).map p).getD false = true
          rw [hget]
          simp [hp]), Or.inl rfl, fun h => h⟩
      · rw [if_neg hp]
        have hfuel' : fuel + (i + 1) ≥ l.length := by omega
        obtain ⟨h1, h2, h3, h4, h5⟩ := ih (i + 1) (d + 1) hfuel'
        refine ⟨Nat.le_of_succ_le h1, ?_, h3, ?_, ?_⟩
        · rw [h2]
          push_cast
          ring
        · rcases h4 with he | hnp
          · right
            rw [he, Nat.add_sub_cancel, hget]
            simp [hp]
          · exact Or.inr hnp
        · intro _
          have hilen : i < l.length := by
            by_contra hge
            rw [List.get?_eq_none.2 (by omega)] at hget
            cases hget
          exact h5 hilen

theorem itemInsertPosition_some_eq (prec : PageId → PageId → Bool)
    (l : List PageId) (pageId : PageId) (hint : Nat) :
    itemInsertPosition (some prec) l pageId hint =
      (let p := fun x => prec pageId x
       let bp := if hint ≠ 0 then
          if hint = l.length then ipBack p l (hint - 1) (-1)
          else ipBack p l hint 0
        else (hint, 0)
       ipFwd p l (l.length - bp.1) bp.1 bp.2) := by
  rw [itemInsertPosition]

theorem itemInsertPosition_spec (prec : PageId → PageId → Bool)
    (l : List PageId) (pageId : PageId) (hint : Nat) (hh : hint ≤ l.length) :
    ((itemInsertPosition (some prec) l pageId hint).1 ≤ l.length) ∧
    ((itemInsertPosition (some prec) l pageId hint).1 = l.length ∨
      ((l.get? (itemInsertPosition (some prec) l pageId hint).1).map
        (fun x => prec pageId x)).getD false = true) ∧
    ((itemInsertPosition (some prec) l pageId hint).1 = 0 ∨
      ((l.get? ((itemInsertPosition (some prec) l pageId hint).1 - 1)).map
        (fun x => prec pageId x)).getD false = false) ∧
    ((itemInsertPosition (some prec) l pageId hint).2 =
      ((itemInsertPosition (some prec) l pageId hint).1 : Int) - (hint : Int)) := by
  rw [itemInsertPosition_some_eq]
  dsimp only
  by_cases h0 : hint ≠ 0
  · rw [if_pos h0]
    have hmain : ∀ (i0 : Nat) (d0 : Int), i0 < l.length →
        d0 - (i0 : Int) = -(hint : Int) →
        (let bp := ipBack (fun x => prec pageId x) l i0 d0
         let res := ipFwd (fun x => prec pageId x) l (l.length - bp.1) bp.1 bp.2
         res.1 ≤ l.length ∧
         (res.1 = l.length ∨
           ((l.get? res.1).map (fun x => prec pageId x)).getD false = true) ∧
         (res.1 = 0 ∨
           ((l.get? (res.1 - 1)).map (fun x => prec pageId x)).getD false
             = false) ∧
         res.2 = (res.1 : Int) - (hint : Int)) := by
      intro i0 d0 hi0 hd0
      set p := fun x => prec pageId x with hpdef
      have hle := ipBack_le p l i0 d0
      have hdist := ipBack_dist p l i0 d0
      have hstop := ipBack_stop p l i0 d0
      have hfuel : (l.length - (ipBack p l i0 d0).1) + (ipBack p l i0 d0).1
          ≥ l.length := by omega
      obtain ⟨h1, h2, h3, h4, h5⟩ := ipFwd_spec p l _ _ _ hfuel
      have hi1len : (ipBack p l i0 d0).1 ≤ l.length := by omega
      refine ⟨h5 hi1len, ?_, ?_, ?_⟩
      · rcases h3 with hn | ht
        · left
          have := List.get?_eq_none.1 hn
          omega
        · exact Or.inr ht
      · rcases h4 with he | hnp
        · rcases hstop with hz | hmf
          · left; omega
          · exfalso
            have hvalid : (ipBack p l i0 d0).1 < l.length := by omega
            cases hgx : l.get? (ipBack p l i0 d0).1 with
            | none =>
              have := List.get?_eq_none.1 hgx
              omega
            | some x =>
              rw [hgx] at hmf
              simp at hmf
              rcases h3 with hn | ht
              · rw [he, hgx] at hn
                cases hn
              · rw [he, hgx] at ht
                simp at ht
                rw [hmf] at ht
                cases ht
        · exact Or.inr hnp
      · rw [h2, hdist]
        omega
    by_cases hl : hint = l.length
    · rw [if_pos hl]
      have hlen1 : 0 < l.length := by omega
      exact hmain (hint - 1) (-1) (by omega) (by omega)
    · rw [if_neg hl]
      exact hmain hint 0 (by omega) (by omega)
  · rw [if_neg h0]
    have h0' : hint = 0 := by omega
    subst h0'
    dsimp only
    have hfuel : (l.length - 0) + 0 ≥ l.length := by omega
    obtain ⟨h1, h2, h3, h4, h5⟩ :=
      ipFwd_spec (fun x => prec pageId x) l (l.length - 0) 0 0 hfuel
    refine ⟨h5 (Nat.zero_le _), ?_, ?_, ?_⟩
    · rcases h3 with hn | ht
      · left
        have := List.get?_eq_none.1 hn
        have hle := h5 (Nat.zero_le _)
        omega
      · exact Or.inr ht
    · rcases h4 with he | hnp
      · exact Or.inl he
      · exact Or.inr hnp
    · rw [h2]
      omega


/- ======================  insert  ====================== -/

theorem findByHandle_insert_ne {x : Item} {h : Nat} (l1 l2 : List Item)
    (hx : x.handle ≠ h) :
    findByHandle (l1 ++ x :: l2) h = findByHandle (l1 ++ l2) h := by
  rw [findByHandle_append, findByHandle_append]
  cases findByHandle l1 h with
  | some it => rfl
  | none =>
    show findByHandle (x :: l2) h = findByHandle l2 h
    have hb : (x.handle == h) = false := by simp [hx]
    simp [findByHandle, List.find?_cons, hb]

theorem nextHandle_not_mem {s : State} (hs : Inv s) :
    s.nextHandle ∉ s.itemsInOrder.map Item.handle :=
  fun hmem => absurd (hs.bound s.nextHandle hmem) (lt_irrefl _)

theorem insert_core_inv (pid : PageId) (newH : Int) (k : Nat) (pn : Nat)
    (off : Int) (op : Option (PageId → PageId → Bool))
    (r : Option (Int × Int)) {s : State} (hs : Inv s) :
    Inv (State.mk
      ((shiftFrom k (newH + SPACING) s.itemsInOrder).take k ++
        (⟨s.nextHandle, pid, pn, false, false, off, newH⟩ : Item) ::
          (shiftFrom k (newH + SPACING) s.itemsInOrder).drop k)
      (s.selOrder ++ [s.nextHandle]) s.leader op r
      (s.nextHandle + 1)) := by
  set item : Item := ⟨s.nextHandle, pid, pn, false, false, off, newH⟩ with hitem
  set sh := shiftFrom k (newH + SPACING) s.itemsInOrder with hsh
  have hshmap : sh.map Item.handle = s.itemsInOrder.map Item.handle :=
    shiftFrom_map_handle k _ s.itemsInOrder
  have hshproj : projHS sh = projHS s.itemsInOrder :=
    shiftFrom_projHS k _ s.itemsInOrder
  have hshnd : (sh.map Item.handle).Nodup := by rw [hshmap]; exact hs.nodup
  have hsplit : sh.take k ++ sh.drop k = sh := List.take_append_drop k sh
  have hpermi : (sh.take k ++ item :: sh.drop k).Perm (item :: sh) := by
    have := @List.perm_middle _ item (sh.take k) (sh.drop k)
    rw [hsplit] at this
    exact this
  have hpermh : ((sh.take k ++ item :: sh.drop k).map Item.handle).Perm
      (s.nextHandle :: s.itemsInOrder.map Item.handle) := by
    have := hpermi.map Item.handle
    rw [List.map_cons, hshmap] at this
    exact this
  have hfresh := nextHandle_not_mem hs
  have hndnew : (s.nextHandle :: s.itemsInOrder.map Item.handle).Nodup :=
    List.nodup_cons.2 ⟨hfresh, hs.nodup⟩
  constructor
  · exact (hpermh.nodup_iff).2 hndnew
  · show (s.selOrder ++ [s.nextHandle]).Perm _
    refine ((List.perm_append_singleton _ _).trans
      (hs.perm.cons s.nextHandle)).trans ?_
    exact hpermh.symm
  · intro h hmemh
    have hm2 : h ∈ s.nextHandle :: s.itemsInOrder.map Item.handle :=
      hpermh.mem_iff.1 hmemh
    show h < s.nextHandle + 1
    rcases List.mem_cons.1 hm2 with he | hm
    · omega
    · have := hs.bound h hm
      omega
  · show Partitioned ((s.selOrder ++ [s.nextHandle]).map
      (selAtH (sh.take k ++ item :: sh.drop k)))
    rw [List.map_append]
    have hflags : s.selOrder.map (selAtH (sh.take k ++ item :: sh.drop k)) =
        s.selOrder.map (selAtH s.itemsInOrder) := by
      apply List.map_congr_left
      intro h hmemh
      have hlt : h < s.nextHandle :=
        hs.bound h (hs.perm.mem_iff.1 hmemh)
      have hne : item.handle ≠ h := show s.nextHandle ≠ h by omega
      rw [selAtH, findByHandle_insert_ne _ _ hne, hsplit]
      have := selAtH_eq_of_projHS_eq hshnd hshproj h
      rw [selAtH] at this
      rw [this]
    rw [hflags]
    have hlast : [s.nextHandle].map (selAtH (sh.take k ++ item :: sh.drop k)) =
        [false] := by
      simp only [List.map_cons, List.map_nil]
      rw [selAtH, findByHandle_append]
      have hnone : findByHandle (sh.take k) s.nextHandle = none := by
        rw [findByHandle_eq_none]
        intro it hit hh
        have : it.handle ∈ sh.map Item.handle :=
          List.mem_map_of_mem Item.handle ((List.take_sublist k sh).subset hit)
        rw [hshmap] at this
        exact absurd (hh ▸ this) hfresh
      rw [hnone]
      have hb : (item.handle == s.nextHandle) = true := by simp [hitem]
      simp [findByHandle, List.find?_cons, hb, hitem]
    rw [hlast]
    exact partitioned_append_false hs.part
  · intro h hleader
    obtain ⟨it, hit, hh, hsel⟩ := hs.selinv h hleader
    have hp2 : (projHS s.itemsInOrder).Perm (projHS sh) := by
      rw [hshproj]
    obtain ⟨it', hit', hh', hsel'⟩ := mem_transport_of_projHS_perm hp2 hit
    refine ⟨it', ?_, hh'.trans hh, hsel'.trans hsel⟩
    have hit2 : it' ∈ sh.take k ++ sh.drop k := by rw [hsplit]; exact hit'
    rcases List.mem_append.1 hit2 with hm | hm
    · exact List.mem_append.2 (Or.inl hm)
    · exact List.mem_append.2 (Or.inr (List.mem_cons_of_mem item hm))

theorem insert_inv {pid : PageId} {newH : Int} {boa : BeforeOrAfter}
    {image : Nat} {s : State} (hs : Inv s) :
    Inv (insert pid newH boa image s).1 := by
  rw [insert]
  dsimp only
  by_cases hbn : boa = BeforeOrAfter.before ∧ image = 0
  · rw [if_pos hbn]
    dsimp only
    exact insert_core_inv pid newH _ _ _ _ _ hs
  · rw [if_neg hbn]
    cases href : refLookup s image with
    | none => exact hs
    | some ref =>
      dsimp only
      by_cases hba : boa = BeforeOrAfter.after
      · rw [if_pos hba]
        cases hop : s.orderProvider with
        | some prov =>
          dsimp only
          exact insert_core_inv pid newH _ _ _ _ _ hs
        | none =>
          dsimp only
          exact insert_core_inv pid newH _ _ _ _ _ hs
      · rw [if_neg hba]
        dsimp only
        exact insert_core_inv pid newH _ _ _ _ _ hs

/- ==================  invalidateAllThumbnails  ================== -/

theorem map_hfix_projHS (heights : PageId → Int) (l : List Item) :
    projHS (l.map (fun it => { it with h := heights it.pageId })) = projHS l := by
  rw [projHS, projHS, List.map_map]
  apply List.map_congr_left
  intro it _
  rfl

theorem invalidateAllThumbnails_inv {heights : PageId → Int} {s : State}
    (hs : Inv s) : Inv (invalidateAllThumbnails heights s).1 := by
  rw [invalidateAllThumbnails]
  dsimp only
  have hmain : ∀ (op : Option (PageId → PageId → Bool)) (sorted : List Item),
      sorted.Perm s.itemsInOrder →
      Inv (State.mk
        (sweepY 0 (sorted.map fun it => { it with h := heights it.pageId }))
        s.selOrder s.leader op
        (rectOfItems none
          (sweepY 0 (sorted.map fun it => { it with h := heights it.pageId })))
        s.nextHandle) := by
    intro op sorted hperm
    have hproj : (projHS (sweepY 0
        (sorted.map fun it => { it with h := heights it.pageId }))).Perm
        (projHS s.itemsInOrder) := by
      rw [sweepY_projHS, map_hfix_projHS]
      exact hperm.map _
    have hmaph : ((sweepY 0 (sorted.map fun it =>
        { it with h := heights it.pageId })).map Item.handle).Perm
        (s.itemsInOrder.map Item.handle) := by
      have := hproj.map Prod.fst
      rwa [projHS_handles, projHS_handles] at this
    constructor
    · exact (hmaph.nodup_iff).2 hs.nodup
    · exact hs.perm.trans hmaph.symm
    · intro h hmemh
      exact hs.bound h (hmaph.mem_iff.1 hmemh)
    · show Partitioned (s.selOrder.map (selAtH (sweepY 0 (sorted.map fun it =>
        { it with h := heights it.pageId }))))
      have := fun h => selAtH_eq_of_projHS_perm hs.nodup hproj.symm h
      rw [List.map_congr_left (fun h _ => (this h).symm)]
      exact hs.part
    · intro h hleader
      obtain ⟨it, hit, hh, hsel⟩ := hs.selinv h hleader
      obtain ⟨it', hit', hh', hsel'⟩ :=
        mem_transport_of_projHS_perm hproj.symm hit
      exact ⟨it', hit', hh'.trans hh, hsel'.trans hsel⟩
  cases hop : s.orderProvider with
  | none =>
    dsimp only
    exact hmain _ s.itemsInOrder (List.Perm.refl _)
  | some prov =>
    dsimp only
    exact hmain _ _ (stableSortBy_perm _ s.itemsInOrder)


/- ======================  removePages  ====================== -/

theorem removeWalk_spec (toRemove : List PageId) :
    ∀ (l : List Item) (delta : Int) (rect : Option (Int × Int))
      (images : List Nat) (leader : Option Nat),
      projHS (removeWalk toRemove l delta rect images leader).1 =
        projHS (l.filter fun it => !(toRemove.contains it.pageId)) ∧
      (∀ h, (removeWalk toRemove l delta rect images leader).2.2.2 = some h →
        leader = some h ∧
        ∀ it ∈ l, toRemove.contains it.pageId = true → it.handle ≠ h) := by
  intro l
  induction l with
  | nil =>
    intro delta rect images leader
    exact ⟨rfl, fun h hh => ⟨hh, fun it hit => absurd hit (List.not_mem_nil it)⟩⟩
  | cons x xs ih =>
    intro delta rect images leader
    rw [removeWalk]
    by_cases hc : toRemove.contains x.pageId = true
    · rw [if_pos hc]
      dsimp only
      obtain ⟨hproj, hlead⟩ := ih (delta - (x.h + SPACING)) rect
        (match x.pageId.subPage with
          | SubPage.left | SubPage.right => images ++ [x.pageId.imageId]
          | SubPage.single => images)
        (if leader = some x.handle then none else leader)
      refine ⟨?_, ?_⟩
      · rw [hproj, List.filter_cons, hc]
        simp
      · intro h hh
        obtain ⟨hld, hrest⟩ := hlead h hh
        by_cases hlx : leader = some x.handle
        · rw [if_pos hlx] at hld
          cases hld
        · rw [if_neg hlx] at hld
          refine ⟨hld, ?_⟩
          intro it hit hcit
          rcases List.mem_cons.1 hit with he | hm
          · subst he
            intro hhe
            exact hlx (by rw [hld, hhe])
          · exact hrest it hm hcit
    · rw [if_neg hc]
      dsimp only
      obtain ⟨hproj, hlead⟩ := ih delta
        (rectUnion rect (x.y + delta) (x.y + delta + x.h)) images leader
      refine ⟨?_, ?_⟩
      · show projHS ({ x with y := x.y + delta } ::
          (removeWalk toRemove xs delta _ images leader).1) = _
        rw [List.filter_cons]
        have hcf : (!toRemove.contains x.pageId) = true := by
          simp only [Bool.not_eq_true'] at hc ⊢
          simpa using hc
        rw [hcf]
        simp only [if_true, projHS, List.map_cons]
        exact congrArg (List.cons _) hproj
      · intro h hh
        obtain ⟨hld, hrest⟩ := hlead h hh
        refine ⟨hld, ?_⟩
        intro it hit hcit
        rcases List.mem_cons.1 hit with he | hm
        · subst he
          rw [hcit] at hc
          exact absurd rfl hc
        · exact hrest it hm hcit

theorem singularize_projHS (images : List Nat) (l : List Item) :
    projHS (l.map fun it =>
      if images.contains it.pageId.imageId then
        { it with pageId := ⟨it.pageId.imageId, SubPage.single⟩ }
      else it) = projHS l := by
  rw [projHS, projHS, List.map_map]
  apply List.map_congr_left
  intro it _
  by_cases hc : it.pageId.imageId ∈ images
    <;> simp [hc]

theorem filter_handles_of_sub (q : Item → Bool) :
    ∀ (l : List Item), (l.map Item.handle).Nodup →
      (l.map Item.handle).filter
          (fun h => ((l.filter q).map Item.handle).contains h) =
        (l.filter q).map Item.handle := by
  intro l
  induction l with
  | nil => intro _; rfl
  | cons x xs ih =>
    intro hnd
    simp only [List.map_cons, List.nodup_cons] at hnd
    obtain ⟨hx, hndxs⟩ := hnd
    rw [List.filter_cons, List.map_cons, List.filter_cons]
    by_cases hq : q x = true
    · rw [hq]
      simp only [if_true, List.map_cons]
      have hcx : ((x.handle :: (xs.filter q).map Item.handle).contains x.handle)
          = true := by simp
      rw [hcx]
      simp only [if_true]
      congr 1
      have hcong : ∀ h ∈ xs.map Item.handle,
          ((x.handle :: (xs.filter q).map Item.handle).contains h) =
          (((xs.filter q).map Item.handle).contains h) := by
        intro h hm
        have hne : h ≠ x.handle := fun he => hx (he ▸ hm)
        simp only [List.contains_cons]
        have : (h == x.handle) = false := by simp [hne]
        rw [this]
        simp
      rw [List.filter_congr hcong]
      exact ih hndxs
    · have hq' : q x = false := by
        cases hqx : q x
        · rfl
        · exact absurd hqx hq
      rw [hq']
      simp only [Bool.false_eq_true, if_false]
      have hcx : (((xs.filter q).map Item.handle).contains x.handle) = false := by
        by_contra hcc
        have hct : (((xs.filter q).map Item.handle).contains x.handle) = true := by
          cases hv : ((xs.filter q).map Item.handle).contains x.handle
          · exact absurd hv hcc
          · rfl
        have hmm : x.handle ∈ (xs.filter q).map Item.handle :=
          List.mem_of_elem_eq_true hct
        rcases List.mem_map.1 hmm with ⟨it, hit, hh⟩
        exact hx (hh ▸ List.mem_map_of_mem Item.handle
          ((List.filter_sublist xs).subset hit))
      rw [hcx]
      simp only [Bool.false_eq_true, if_false]
      exact ih hndxs

theorem removePages_inv {toRemove : List PageId} {s : State} (hs : Inv s) :
    Inv (removePages toRemove s).1 := by
  rw [removePages]
  obtain ⟨hproj, hlead⟩ := removeWalk_spec toRemove s.itemsInOrder 0 none []
    s.leader
  cases hwalk : removeWalk toRemove s.itemsInOrder 0 none [] s.leader with
  | mk kept rest =>
  cases rest with
  | mk rect rest2 =>
  cases rest2 with
  | mk images leader2 =>
  rw [hwalk] at hproj hlead
  dsimp only at hproj hlead ⊢
  set keep : Item → Bool := fun it => !(toRemove.contains it.pageId) with hkeep
  -- The singularized survivors still answer every handle query like the
  -- original records did.
  have hproj2 : projHS (kept.map fun it =>
      if images.contains it.pageId.imageId then
        { it with pageId := ⟨it.pageId.imageId, SubPage.single⟩ }
      else it) = projHS (s.itemsInOrder.filter keep) := by
    rw [singularize_projHS, hproj]
  have hmaph : (kept.map fun it =>
      if images.contains it.pageId.imageId then
        { it with pageId := ⟨it.pageId.imageId, SubPage.single⟩ }
      else it).map Item.handle = (s.itemsInOrder.filter keep).map Item.handle := by
    have := congrArg (List.map Prod.fst) hproj2
    rwa [projHS_handles, projHS_handles] at this
  have hkepth : kept.map Item.handle =
      (s.itemsInOrder.filter keep).map Item.handle := by
    have := congrArg (List.map Prod.fst) hproj
    rwa [projHS_handles, projHS_handles] at this
  have hsubh : ((s.itemsInOrder.filter keep).map Item.handle).Sublist
      (s.itemsInOrder.map Item.handle) := (List.filter_sublist _).map _
  have hndf : ((s.itemsInOrder.filter keep).map Item.handle).Nodup :=
    hs.nodup.sublist hsubh
  have hnd2 : ((kept.map fun it =>
      if images.contains it.pageId.imageId then
        { it with pageId := ⟨it.pageId.imageId, SubPage.single⟩ }
      else it).map Item.handle).Nodup := by
    rw [hmaph]; exact hndf
  constructor
  · exact hnd2
  · show (s.selOrder.filter fun h => (kept.map Item.handle).contains h).Perm _
    rw [hmaph, hkepth]
    refine (hs.perm.filter _).trans ?_
    rw [filter_handles_of_sub keep s.itemsInOrder hs.nodup]
  · intro h hmemh
    rw [hmaph] at hmemh
    exact hs.bound h (hsubh.subset hmemh)
  · show Partitioned ((s.selOrder.filter fun h =>
      (kept.map Item.handle).contains h).map (selAtH _))
    have hflags : ∀ h ∈ s.selOrder.filter fun h =>
        (kept.map Item.handle).contains h,
        selAtH (kept.map fun it =>
          if images.contains it.pageId.imageId then
            { it with pageId := ⟨it.pageId.imageId, SubPage.single⟩ }
          else it) h = selAtH s.itemsInOrder h := by
      intro h hmemh
      have hsurv : h ∈ (s.itemsInOrder.filter keep).map Item.handle := by
        have := List.of_mem_filter hmemh
        rw [← hkepth]
        simpa using this
      obtain ⟨it, hit, hh⟩ := exists_of_handle_mem hsurv
      rw [show selAtH (kept.map fun it =>
          if images.contains it.pageId.imageId then
            { it with pageId := ⟨it.pageId.imageId, SubPage.single⟩ }
          else it) h = selAtH (s.itemsInOrder.filter keep) h from
        selAtH_eq_of_projHS_eq hnd2 hproj2 h]
      rw [← hh, selAtH_of_mem_nodup hit hndf,
        selAtH_of_mem_nodup ((List.filter_sublist _).subset hit) hs.nodup]
    rw [List.map_congr_left hflags]
    exact partitioned_sublist ((List.filter_sublist _).map _) hs.part
  · intro h hleader
    obtain ⟨hld, hrest⟩ := hlead h hleader
    obtain ⟨it, hit, hh, hsel⟩ := hs.selinv h hld
    have hkit : keep it = true := by
      rw [hkeep]
      simp only [Bool.not_eq_true']
      by_contra hcc
      have : toRemove.contains it.pageId = true := by
        cases hx : toRemove.contains it.pageId
        · exact absurd hx hcc
        · rfl
      exact hrest it hit this hh
    have hitf : it ∈ s.itemsInOrder.filter keep := List.mem_filter.2 ⟨hit, hkit⟩
    have hp2 : (projHS (s.itemsInOrder.filter keep)).Perm
        (projHS (kept.map fun it =>
          if images.contains it.pageId.imageId then
            { it with pageId := ⟨it.pageId.imageId, SubPage.single⟩ }
          else it)) := by rw [hproj2]
    obtain ⟨it', hit', hh', hsel'⟩ := mem_transport_of_projHS_perm hp2 hitf
    exact ⟨it', hit', hh'.trans hh, hsel'.trans hsel⟩


/- ==================  invalidateThumbnail  ================== -/

theorem inv_of_projHS_perm {s : State} (hs : Inv s) (l' : List Item)
    (hp : (projHS l').Perm (projHS s.itemsInOrder))
    (op : Option (PageId → PageId → Bool)) (r : Option (Int × Int)) :
    Inv (State.mk l' s.selOrder s.leader op r s.nextHandle) := by
  have hmaph : (l'.map Item.handle).Perm (s.itemsInOrder.map Item.handle) := by
    have := hp.map Prod.fst
    rwa [projHS_handles, projHS_handles] at this
  constructor
  · exact (hmaph.nodup_iff).2 hs.nodup
  · exact hs.perm.trans hmaph.symm
  · intro h hmemh
    exact hs.bound h (hmaph.mem_iff.1 hmemh)
  · show Partitioned (s.selOrder.map (selAtH l'))
    have heach := fun h => selAtH_eq_of_projHS_perm hs.nodup hp.symm h
    rw [List.map_congr_left (fun h _ => (heach h).symm)]
    exact hs.part
  · intro h hleader
    obtain ⟨it, hit, hh, hsel⟩ := hs.selinv h hleader
    obtain ⟨it', hit', hh', hsel'⟩ := mem_transport_of_projHS_perm hp.symm hit
    exact ⟨it', hit', hh'.trans hh, hsel'.trans hsel⟩

theorem perm_cons_eraseIdx_of_get {l : List Item} :
    ∀ {k : Nat} {a : Item}, l.get? k = some a → l.Perm (a :: l.eraseIdx k) := by
  induction l with
  | nil => intro k a h; cases h
  | cons x xs ih =>
    intro k a h
    cases k with
    | zero =>
      have hax : x = a := by
        have : some x = some a := h
        exact Option.some.inj this
      subst hax
      exact List.Perm.refl _
    | succ k =>
      have hx : xs.get? k = some a := h
      show (x :: xs).Perm (a :: x :: xs.eraseIdx k)
      exact ((ih hx).cons x).trans (List.Perm.swap a x _)

theorem itemInsertPosition_dist (prov : Option (PageId → PageId → Bool))
    (l : List PageId) (pid : PageId) (hint : Nat) (hh : hint ≤ l.length) :
    (itemInsertPosition prov l pid hint).2 =
      ((itemInsertPosition prov l pid hint).1 : Int) - (hint : Int) := by
  cases prov with
  | none => simp [itemInsertPosition]
  | some prec => exact (itemInsertPosition_spec prec l pid hint hh).2.2.2

theorem projHS_resweep_all (lo : Nat) (off : Int) (l : List Item) :
    projHS (l.take lo ++ sweepY off (l.drop lo)) = projHS l := by
  rw [projHS_append, sweepY_projHS, ← projHS_append, List.take_append_drop]

theorem projHS_resweep_mid (lo hi : Nat) (hlohi : lo ≤ hi) (off : Int)
    (l : List Item) :
    projHS (l.take lo ++ sweepY off ((l.drop lo).take (hi - lo)) ++ l.drop hi)
      = projHS l := by
  have h2 : (l.drop lo).drop (hi - lo) = l.drop hi := by
    rw [List.drop_drop]
    congr 1
    omega
  conv_rhs => rw [← List.take_append_drop lo l,
    ← List.take_append_drop (hi - lo) (l.drop lo)]
  rw [h2, projHS_append, projHS_append, projHS_append, projHS_append,
    sweepY_projHS, List.append_assoc]

theorem invalidateThumbnail_inv {pid : PageId} {newH : Int} {s : State}
    (hs : Inv s) : Inv (invalidateThumbnail pid newH s).1 := by
  rw [invalidateThumbnail]
  cases hfind : s.itemsInOrder.find? (fun (it : Item) => it.pageId == pid) with
  | none => exact hs
  | some target =>
  dsimp only
  have htmem : target ∈ s.itemsInOrder := List.mem_of_find?_eq_some hfind
  have hhmem : target.handle ∈ s.itemsInOrder.map Item.handle :=
    List.mem_map_of_mem _ htmem
  obtain ⟨it2, hget2, hh2⟩ := idxOfHandle_spec hhmem
  have hit2mem : it2 ∈ s.itemsInOrder := List.get?_mem hget2
  have hit2eq : it2 = target := by
    have e1 := findByHandle_of_mem_nodup hit2mem hs.nodup
    have e2 := findByHandle_of_mem_nodup htmem hs.nodup
    rw [hh2] at e1
    rw [e1] at e2
    exact Option.some.inj e2
  rw [hit2eq] at hget2
  have hklen : idxOfHandle s.itemsInOrder target.handle <
      s.itemsInOrder.length := by
    by_contra hge
    rw [List.get?_eq_none.2 (by omega)] at hget2
    cases hget2
  have hpermk : s.itemsInOrder.Perm (target ::
      s.itemsInOrder.eraseIdx (idxOfHandle s.itemsInOrder target.handle)) :=
    perm_cons_eraseIdx_of_get hget2
  have hrestlen : ((s.itemsInOrder.eraseIdx
      (idxOfHandle s.itemsInOrder target.handle)).map Item.pageId).length =
      s.itemsInOrder.length - 1 := by
    simp [List.length_eraseIdx, hklen]
  cases hip : itemInsertPosition s.orderProvider
      ((s.itemsInOrder.eraseIdx (idxOfHandle s.itemsInOrder target.handle)).map
        Item.pageId) pid (idxOfHandle s.itemsInOrder target.handle) with
  | mk j dist =>
  dsimp only
  -- The signed distance measured by itemInsertPosition.
  have hhint2 : idxOfHandle s.itemsInOrder target.handle ≤
      ((s.itemsInOrder.eraseIdx (idxOfHandle s.itemsInOrder target.handle)).map
        Item.pageId).length := by
    rw [hrestlen]
    omega
  have hdist : dist = (j : Int) -
      (idxOfHandle s.itemsInOrder target.handle : Int) := by
    have := itemInsertPosition_dist s.orderProvider _ pid _ hhint2
    rw [hip] at this
    exact this
  have hlohi : (if dist ≤ 0 then j
        else idxOfHandle s.itemsInOrder target.handle) ≤
      (if dist ≤ 0 then idxOfHandle s.itemsInOrder target.handle + 1
        else j + 1) := by
    by_cases hd : dist ≤ 0
    · rw [if_pos hd, if_pos hd]
      omega
    · rw [if_neg hd, if_neg hd]
      omega
  have hperml2 : (projHS
      ((s.itemsInOrder.eraseIdx
          (idxOfHandle s.itemsInOrder target.handle)).take j ++
        { target with h := newH } :: (s.itemsInOrder.eraseIdx
          (idxOfHandle s.itemsInOrder target.handle)).drop j)).Perm
      (projHS s.itemsInOrder) := by
    have h1 : ((s.itemsInOrder.eraseIdx
        (idxOfHandle s.itemsInOrder target.handle)).take j ++
        { target with h := newH } :: (s.itemsInOrder.eraseIdx
          (idxOfHandle s.itemsInOrder target.handle)).drop j).Perm
        ({ target with h := newH } :: s.itemsInOrder.eraseIdx
          (idxOfHandle s.itemsInOrder target.handle)) := by
      have hm := @List.perm_middle _ { target with h := newH }
        ((s.itemsInOrder.eraseIdx
          (idxOfHandle s.itemsInOrder target.handle)).take j)
        ((s.itemsInOrder.eraseIdx
          (idxOfHandle s.itemsInOrder target.handle)).drop j)
      rwa [List.take_append_drop] at hm
    exact (h1.map (fun it => (it.handle, it.selected))).trans
      ((hpermk.map (fun it => (it.handle, it.selected))).symm)
  rw [apply_ite Prod.fst]
  dsimp only
  rw [ite_self]
  by_cases hres : target.h = newH
  · rw [if_pos hres]
    apply inv_of_projHS_perm hs
    rw [projHS_resweep_mid _ _ hlohi]
    exact hperml2
  · rw [if_neg hres]
    apply inv_of_projHS_perm hs
    rw [projHS_resweep_all]
    exact hperml2

/- ======================  reset  ====================== -/

theorem selAtH_append_left {l1 l2 : List Item} {h : Nat}
    (hmem : h ∈ l1.map Item.handle) : selAtH (l1 ++ l2) h = selAtH l1 h := by
  obtain ⟨it, hit, hh⟩ := exists_of_handle_mem hmem
  rw [selAtH, selAtH, findByHandle_append]
  cases hfind : findByHandle l1 h with
  | some it' => rfl
  | none => exact absurd hh (findByHandle_eq_none.1 hfind it hit)

theorem findByHandle_append_fresh {l : List Item} {item : Item}
    (hnotmem : item.handle ∉ l.map Item.handle) :
    findByHandle (l ++ [item]) item.handle = some item := by
  rw [findByHandle_append]
  have hnone : findByHandle l item.handle = none := by
    rw [findByHandle_eq_none]
    intro it hit he
    exact hnotmem (he ▸ List.mem_map_of_mem Item.handle hit)
  rw [hnone]
  simp [findByHandle]

theorem selFlags_append_fresh {s : State} (hs : Inv s) {item : Item}
    (hnotmem : item.handle ∉ s.itemsInOrder.map Item.handle)
    (hsel : item.selected = false) :
    (s.selOrder ++ [item.handle]).map (selAtH (s.itemsInOrder ++ [item]))
      = selFlags s ++ [false] := by
  rw [List.map_append]
  have h1 : s.selOrder.map (selAtH (s.itemsInOrder ++ [item])) = selFlags s :=
    List.map_congr_left fun h0 hm => selAtH_append_left (hs.perm.subset hm)
  have h2 : [item.handle].map (selAtH (s.itemsInOrder ++ [item])) = [false] := by
    rw [List.map_singleton, selAtH, findByHandle_append_fresh hnotmem]
    simp [hsel]
  rw [h1, h2]

theorem build_step_unsel_inv {s : State} (hs : Inv s) (item : Item)
    (hh : item.handle = s.nextHandle) (hsel : item.selected = false)
    (r : Option (Int × Int)) :
    Inv (State.mk (s.itemsInOrder ++ [item]) (s.selOrder ++ [item.handle])
      s.leader s.orderProvider r (s.nextHandle + 1)) := by
  have hnotmem : item.handle ∉ s.itemsInOrder.map Item.handle := by
    rw [hh]
    exact nextHandle_not_mem hs
  refine ⟨?_, ?_, ?_, ?_, ?_⟩
  · show ((s.itemsInOrder ++ [item]).map Item.handle).Nodup
    rw [List.map_append, List.map_singleton]
    refine List.Nodup.append hs.nodup (List.nodup_singleton _) ?_
    intro a ha hb
    rw [List.mem_singleton] at hb
    subst hb
    exact hnotmem ha
  · show (s.selOrder ++ [item.handle]).Perm ((s.itemsInOrder ++ [item]).map Item.handle)
    rw [List.map_append, List.map_singleton]
    exact hs.perm.append (List.Perm.refl _)
  · intro h0 hm
    show h0 < s.nextHandle + 1
    rw [List.map_append, List.map_singleton] at hm
    rcases List.mem_append.1 hm with hm | hm
    · exact Nat.lt_trans (hs.bound h0 hm) (Nat.lt_succ_self _)
    · rw [List.mem_singleton] at hm
      subst hm
      rw [hh]
      exact Nat.lt_succ_self _
  · show Partitioned ((s.selOrder ++ [item.handle]).map
      (selAtH (s.itemsInOrder ++ [item])))
    rw [selFlags_append_fresh hs hnotmem hsel]
    exact partitioned_append_false hs.part
  · intro h0 hld
    obtain ⟨it, hmem, hht, hselt⟩ := hs.selinv h0 hld
    exact ⟨it, List.mem_append_left _ hmem, hht, hselt⟩

theorem build_step_sel_inv {s : State} (hs : Inv s) (item : Item)
    (hh : item.handle = s.nextHandle) (r : Option (Int × Int)) (ld : Option Nat)
    (hld : ld = s.leader ∨ ld = some item.handle) :
    Inv (State.mk
      (updItem item.handle (sSel true) (s.itemsInOrder ++ [item]))
      (item.handle :: (s.selOrder ++ [item.handle]).erase item.handle)
      ld s.orderProvider r (s.nextHandle + 1)) := by
  have hnotmem : item.handle ∉ s.itemsInOrder.map Item.handle := by
    rw [hh]
    exact nextHandle_not_mem hs
  have hnotsel : item.handle ∉ s.selOrder := fun hm => hnotmem (hs.perm.subset hm)
  have herase : (s.selOrder ++ [item.handle]).erase item.handle = s.selOrder := by
    rw [List.erase_append_right _ hnotsel, List.erase_cons_head, List.append_nil]
  have hmap : (updItem item.handle (sSel true)
      (s.itemsInOrder ++ [item])).map Item.handle
        = s.itemsInOrder.map Item.handle ++ [item.handle] := by
    rw [updItem_map_handle _ _ (sSel_handle true), List.map_append,
      List.map_singleton]
  have hfind : findByHandle (s.itemsInOrder ++ [item]) item.handle = some item :=
    findByHandle_append_fresh hnotmem
  have hAtSelf : selAtH (updItem item.handle (sSel true)
      (s.itemsInOrder ++ [item])) item.handle = true := by
    refine selAtH_updItem_sSel_self _ _ _ ?_
    rw [hfind]
    rfl
  have hTail : ∀ h0 ∈ s.selOrder, selAtH (updItem item.handle (sSel true)
      (s.itemsInOrder ++ [item])) h0 = selAtH s.itemsInOrder h0 := by
    intro h0 hm
    have hmm : h0 ∈ s.itemsInOrder.map Item.handle := hs.perm.subset hm
    have hne : h0 ≠ item.handle := fun he => hnotmem (he ▸ hmm)
    rw [selAtH_updItem_ne _ _ (sSel_handle true) _ _ hne, selAtH_append_left hmm]
  refine ⟨?_, ?_, ?_, ?_, ?_⟩
  · show ((updItem item.handle (sSel true)
      (s.itemsInOrder ++ [item])).map Item.handle).Nodup
    rw [hmap]
    refine List.Nodup.append hs.nodup (List.nodup_singleton _) ?_
    intro a ha hb
    rw [List.mem_singleton] at hb
    subst hb
    exact hnotmem ha
  · show (item.handle :: (s.selOrder ++ [item.handle]).erase item.handle).Perm
      ((updItem item.handle (sSel true) (s.itemsInOrder ++ [item])).map Item.handle)
    rw [hmap, herase]
    exact (hs.perm.cons item.handle).trans (List.perm_append_singleton _ _).symm
  · intro h0 hm
    show h0 < s.nextHandle + 1
    rw [hmap] at hm
    rcases List.mem_append.1 hm with hm | hm
    · exact Nat.lt_trans (hs.bound h0 hm) (Nat.lt_succ_self _)
    · rw [List.mem_singleton] at hm
      subst hm
      rw [hh]
      exact Nat.lt_succ_self _
  · show Partitioned ((item.handle :: (s.selOrder ++ [item.handle]).erase
      item.handle).map (selAtH (updItem item.handle (sSel true)
        (s.itemsInOrder ++ [item]))))
    rw [herase, List.map_cons, hAtSelf, List.map_congr_left hTail]
    exact partitioned_cons_true hs.part
  · intro h0 hld0
    rcases hld with hld | hld
    · rw [hld] at hld0
      obtain ⟨it, hmem, hht, hselt⟩ := hs.selinv h0 hld0
      have hne : it.handle ≠ item.handle := by
        intro he
        exact hnotmem (he ▸ List.mem_map_of_mem Item.handle hmem)
      exact ⟨it, mem_updItem_other (List.mem_append_left _ hmem) hne, hht, hselt⟩
    · rw [hld] at hld0
      have he : item.handle = h0 := by
        injection hld0
      refine ⟨sSel true item,
        mem_updItem_self (List.mem_append_right _ (List.mem_singleton_self _)) rfl,
        ?_, rfl⟩
      rw [sSel_handle]
      exact he

theorem leader_fix_inv {s : State} (hs : Inv s) {lh : Nat}
    (hmem : ∃ it ∈ s.itemsInOrder, it.handle = lh ∧ it.selected = true) :
    Inv { s with itemsInOrder := updItem lh (sLead true) s.itemsInOrder } := by
  obtain ⟨it, hit, hh, hsel⟩ := hmem
  have hpoint : ∀ h0, selAtH (updItem lh (sLead true) s.itemsInOrder) h0
      = selAtH s.itemsInOrder h0 := by
    intro h0
    by_cases he : h0 = lh
    · have hfind : findByHandle s.itemsInOrder h0 = some it := by
        rw [he, ← hh]
        exact findByHandle_of_mem_nodup hit hs.nodup
      rw [selAtH, selAtH, findByHandle_updItem lh (sLead true) (sLead_handle true),
        if_pos he, hfind]
      simp [sLead, hsel]
    · exact selAtH_updItem_ne _ _ (sLead_handle true) _ _ he
  refine ⟨?_, ?_, ?_, ?_, ?_⟩
  · show ((updItem lh (sLead true) s.itemsInOrder).map Item.handle).Nodup
    rw [updItem_map_handle _ _ (sLead_handle true)]
    exact hs.nodup
  · show s.selOrder.Perm ((updItem lh (sLead true) s.itemsInOrder).map Item.handle)
    rw [updItem_map_handle _ _ (sLead_handle true)]
    exact hs.perm
  · intro h0 hm
    show h0 < s.nextHandle
    rw [updItem_map_handle _ _ (sLead_handle true)] at hm
    exact hs.bound h0 hm
  · show Partitioned (s.selOrder.map (selAtH (updItem lh (sLead true)
      s.itemsInOrder)))
    rw [List.map_congr_left fun h0 _ => hpoint h0]
    exact hs.part
  · intro h0 hld0
    obtain ⟨it0, hit0, hh0, hsel0⟩ := hs.selinv h0 hld0
    by_cases he : it0.handle = lh
    · refine ⟨sLead true it0, mem_updItem_self hit0 he, ?_, ?_⟩
      · rw [sLead_handle]
        exact hh0
      · simp [sLead]
    · exact ⟨it0, mem_updItem_other hit0 he, hh0, hsel0⟩

theorem mem_selectedItems {s : State} (hs : Inv s) {it : Item}
    (hit : it ∈ s.itemsInOrder) (hsel : it.selected = true) :
    it.pageId ∈ selectedItems s := by
  rw [selectedItems, takeWhile_eq_filter_of_partitioned _ _ hs.part]
  have hmemh : it.handle ∈ s.selOrder :=
    hs.perm.mem_iff.2 (List.mem_map_of_mem Item.handle hit)
  have hselh : selAtH s.itemsInOrder it.handle = true := by
    rw [selAtH_of_mem_nodup hit hs.nodup]
    exact hsel
  refine List.mem_map.2 ⟨it.handle, List.mem_filter.2 ⟨hmemh, hselh⟩, ?_⟩
  rw [pidAtH, findByHandle_of_mem_nodup hit hs.nodup]
  rfl

theorem resetBuild_inv (selected : List PageId) (leaderId : Option PageId)
    (hLid : ∀ lid, leaderId = some lid → selected.contains lid = true) :
    ∀ (pages : List PageEntry) (i : Nat) (off : Int) (s : State)
      (someSel : Option Nat), Inv s → SomeSelOK s someSel →
      Inv (resetBuild selected leaderId pages i off s someSel).1 ∧
        SomeSelOK (resetBuild selected leaderId pages i off s someSel).1
          (resetBuild selected leaderId pages i off s someSel).2 := by
  intro pages
  induction pages with
  | nil =>
    intro i off s someSel hs hok
    exact ⟨hs, hok⟩
  | cons p rest ih =>
    intro i off s someSel hs hok
    rw [resetBuild]
    dsimp only
    have hnotmem : s.nextHandle ∉ s.itemsInOrder.map Item.handle :=
      nextHandle_not_mem hs
    by_cases hsel : selected.contains p.pid = true
    · rw [if_pos hsel]
      dsimp only [moveToSelected]
      have hfind : findByHandle (s.itemsInOrder ++
          [Item.mk s.nextHandle p.pid i false false off p.height]) s.nextHandle
            = some (Item.mk s.nextHandle p.pid i false false off p.height) :=
        findByHandle_append_fresh hnotmem
      have hmemN : s.nextHandle ∈ (updItem s.nextHandle (sSel true)
          (s.itemsInOrder ++
            [Item.mk s.nextHandle p.pid i false false off p.height])).map
              Item.handle := by
        rw [updItem_map_handle _ _ (sSel_handle true), List.map_append]
        exact List.mem_append_right _ (List.mem_singleton_self _)
      have hselN : selAtH (updItem s.nextHandle (sSel true)
          (s.itemsInOrder ++
            [Item.mk s.nextHandle p.pid i false false off p.height]))
              s.nextHandle = true := by
        refine selAtH_updItem_sSel_self _ _ _ ?_
        rw [hfind]
        rfl
      have hokN : ∀ (st : State),
          st.itemsInOrder = updItem s.nextHandle (sSel true)
            (s.itemsInOrder ++
              [Item.mk s.nextHandle p.pid i false false off p.height]) →
          SomeSelOK st (some s.nextHandle) := by
        intro st hst
        refine ⟨?_, ?_⟩
        · intro h0 hsome
          have he : s.nextHandle = h0 := by
            injection hsome
          rw [hst, ← he]
          exact ⟨hmemN, hselN⟩
        · intro hnone
          cases hnone
      by_cases hlid : leaderId = some p.pid
      · rw [if_pos hlid]
        refine ih (i + 1) (off + p.height + SPACING) _ _ ?_ (hokN _ rfl)
        exact build_step_sel_inv hs
          (Item.mk s.nextHandle p.pid i false false off p.height) rfl _ _
          (Or.inr rfl)
      · rw [if_neg hlid]
        refine ih (i + 1) (off + p.height + SPACING) _ _ ?_ (hokN _ rfl)
        exact build_step_sel_inv hs
          (Item.mk s.nextHandle p.pid i false false off p.height) rfl _ _
          (Or.inl rfl)
    · rw [if_neg hsel]
      dsimp only
      by_cases hlid : leaderId = some p.pid
      · exact absurd (hLid p.pid hlid) hsel
      · rw [if_neg hlid]
        refine ih (i + 1) (off + p.height + SPACING) _ _ ?_ ?_
        · exact build_step_unsel_inv hs
            (Item.mk s.nextHandle p.pid i false false off p.height) rfl rfl _
        · refine ⟨?_, ?_⟩
          · intro h0 hsome
            obtain ⟨hm, hsel0⟩ := hok.1 h0 hsome
            refine ⟨?_, ?_⟩
            · show h0 ∈ (s.itemsInOrder ++
                [Item.mk s.nextHandle p.pid i false false off p.height]).map
                  Item.handle
              rw [List.map_append]
              exact List.mem_append_left _ hm
            · show selAtH (s.itemsInOrder ++
                [Item.mk s.nextHandle p.pid i false false off p.height]) h0 = true
              rw [selAtH_append_left hm]
              exact hsel0
          · intro hnone
            have hall := hok.2 hnone
            show ∀ b ∈ (s.selOrder ++ [s.nextHandle]).map
              (selAtH (s.itemsInOrder ++
                [Item.mk s.nextHandle p.pid i false false off p.height])), b = false
            have heq := @selFlags_append_fresh s hs
              (Item.mk s.nextHandle p.pid i false false off p.height)
              hnotmem rfl
            rw [heq]
            intro b hb
            rcases List.mem_append.1 hb with hb | hb
            · exact hall b hb
            · rw [List.mem_singleton] at hb
              exact hb

theorem resetTail_inv (curPage : PageId) (li : Option PageId)
    (r : State × Option Nat) (hs2 : Inv r.1) (hok : SomeSelOK r.1 r.2) :
    Inv (resetTail curPage li r).1 := by
  rw [resetTail]
  cases hld : r.1.leader with
  | some lh =>
    dsimp only
    rw [hld]
    dsimp only
    have hsLift : Inv (State.mk r.1.itemsInOrder r.1.selOrder (some lh)
        r.1.orderProvider r.1.sceneRect r.1.nextHandle) :=
      ⟨hs2.nodup, hs2.perm, hs2.bound, hs2.part,
        fun h0 hld0 => hs2.selinv h0 (hld.trans hld0)⟩
    refine leader_fix_inv hsLift ?_
    exact hsLift.selinv lh rfl
  | none =>
    dsimp only
    cases hss : r.2 with
    | some h =>
      dsimp only
      obtain ⟨hm, hsel0⟩ := hok.1 h hss
      obtain ⟨it, hit, hh⟩ := exists_of_handle_mem hm
      have hselit : it.selected = true := by
        rw [← selAtH_of_mem_nodup hit hs2.nodup, hh]
        exact hsel0
      have hsLift : Inv (State.mk r.1.itemsInOrder r.1.selOrder (some h)
          r.1.orderProvider r.1.sceneRect r.1.nextHandle) :=
        ⟨hs2.nodup, hs2.perm, hs2.bound, hs2.part,
          fun h0 hld0 => by
            have he : h = h0 := by injection hld0
            exact ⟨it, hit, by rw [hh, he], hselit⟩⟩
      exact leader_fix_inv hsLift ⟨it, hit, by rw [hh], hselit⟩
    | none =>
      dsimp only
      cases hfind : r.1.itemsInOrder.find? (fun (it : Item) => it.pageId == curPage) with
      | some it =>
        dsimp only [moveToSelected]
        have hit : it ∈ r.1.itemsInOrder := List.mem_of_find?_eq_some hfind
        have hmemh : it.handle ∈ r.1.itemsInOrder.map Item.handle :=
          List.mem_map_of_mem Item.handle hit
        have hmemsel : it.handle ∈ r.1.selOrder := hs2.perm.mem_iff.2 hmemh
        have hall := hok.2 hss
        refine ⟨?_, ?_, ?_, ?_, ?_⟩
        · show ((updItem it.handle (sLead true) r.1.itemsInOrder).map
            Item.handle).Nodup
          rw [updItem_map_handle _ _ (sLead_handle true)]
          exact hs2.nodup
        · show (it.handle :: r.1.selOrder.erase it.handle).Perm
            ((updItem it.handle (sLead true) r.1.itemsInOrder).map Item.handle)
          rw [updItem_map_handle _ _ (sLead_handle true)]
          exact (perm_moveToSelected hmemsel).trans hs2.perm
        · intro h0 hm
          show h0 < r.1.nextHandle
          rw [updItem_map_handle _ _ (sLead_handle true)] at hm
          exact hs2.bound h0 hm
        · show Partitioned ((it.handle :: r.1.selOrder.erase it.handle).map
            (selAtH (updItem it.handle (sLead true) r.1.itemsInOrder)))
          rw [List.map_cons,
            selAtH_updItem_sLead_true_self _ _ (findByHandle_isSome_of_mem hit)]
          refine List.Pairwise.cons (fun y hy hyt => rfl) ?_
          refine partitioned_of_all_false ?_
          intro b hb
          obtain ⟨h0, hh0, hb0⟩ := List.mem_map.1 hb
          have hne : h0 ≠ it.handle :=
            ((selOrder_nodup hs2).mem_erase_iff.1 hh0).1
          have hh0' : h0 ∈ r.1.selOrder :=
            ((selOrder_nodup hs2).mem_erase_iff.1 hh0).2
          rw [← hb0, selAtH_updItem_ne _ _ (sLead_handle true) _ _ hne]
          exact hall _ (List.mem_map_of_mem _ hh0')
        · intro h0 hld0
          have he : it.handle = h0 := by injection hld0
          refine ⟨sLead true it, mem_updItem_self hit rfl, ?_, ?_⟩
          · rw [sLead_handle]
            exact he
          · simp [sLead]
      | none =>
        dsimp only
        rw [hld]
        exact hs2

theorem reset_inv {pages : List PageEntry} {action : SelectionAction}
    {provider : Option (PageId → PageId → Bool)} {curPage : PageId} {s : State}
    (hs : Inv s) : Inv (reset pages action provider curPage s).1 := by
  rw [reset.eq_def]
  dsimp only [clearOp]
  have hEmptyInv : Inv (State.mk [] [] none provider none s.nextHandle) :=
    ⟨List.nodup_nil, List.Perm.refl _, fun h hm => absurd hm (List.not_mem_nil h),
      List.Pairwise.nil, fun h hld => by cases hld⟩
  by_cases hemp : pages.isEmpty = true
  · rw [if_pos hemp]
    exact hEmptyInv
  · rw [if_neg hemp]
    have hs0 : Inv (State.mk s.itemsInOrder s.selOrder s.leader provider
        s.sceneRect s.nextHandle) :=
      ⟨hs.nodup, hs.perm, hs.bound, hs.part, hs.selinv⟩
    have hLid : ∀ lid,
        (if action = SelectionAction.keepSelection then
          (s.leader.bind (findByHandle s.itemsInOrder)).map Item.pageId
          else none) = some lid →
        (if action = SelectionAction.keepSelection then
          selectedItems (State.mk s.itemsInOrder s.selOrder s.leader provider
            s.sceneRect s.nextHandle)
          else []).contains lid = true := by
      intro lid hli
      by_cases hact : action = SelectionAction.keepSelection
      · rw [if_pos hact] at hli ⊢
        cases hl : s.leader with
        | none =>
          rw [hl] at hli
          cases hli
        | some lh =>
          rw [hl] at hli
          obtain ⟨it0, hit0, hh0, hsel0⟩ := hs.selinv lh hl
          have hf : findByHandle s.itemsInOrder lh = some it0 := by
            rw [← hh0]
            exact findByHandle_of_mem_nodup hit0 hs.nodup
          rw [Option.some_bind, hf] at hli
          have hlid0 : lid = it0.pageId := by
            injection hli with hli0
            exact hli0.symm
          have hmem : lid ∈ selectedItems (State.mk s.itemsInOrder s.selOrder
              s.leader provider s.sceneRect s.nextHandle) := by
            rw [hlid0]
            exact mem_selectedItems hs0 hit0 hsel0
          simpa using hmem
      · rw [if_neg hact] at hli
        cases hli
    have hok0 : SomeSelOK (State.mk [] [] none provider none s.nextHandle) none :=
      ⟨(fun h0 hsome => nomatch hsome),
        fun _ b hb => absurd hb (List.not_mem_nil b)⟩
    refine resetTail_inv curPage _ _ ?_ ?_
    · exact (resetBuild_inv _ _ hLid _ 0 0 _ none hEmptyInv hok0).1
    · exact (resetBuild_inv _ _ hLid _ 0 0 _ none hEmptyInv hok0).2

/- ======================  reachability  ====================== -/

theorem initState_inv : Inv initState :=
  ⟨List.nodup_nil, List.Perm.refl _, fun h hm => absurd hm (List.not_mem_nil h),
    List.Pairwise.nil, fun h hld => nomatch hld⟩

theorem itemSelectedByUser_inv {hdl : Nat} {mods : Mods} {s : State}
    (hs : Inv s) (hmem : hdl ∈ s.itemsInOrder.map Item.handle) :
    Inv (itemSelectedByUser hdl mods s).1 := by
  rw [itemSelectedByUser]
  by_cases hc : mods.ctrl = true
  · rw [if_pos hc]
    exact selectItemWithControl_inv hs hmem
  · rw [if_neg hc]
    by_cases hsh : mods.shift = true
    · rw [if_pos hsh]
      exact selectItemWithShift_inv hs hmem
    · rw [if_neg hsh]
      exact selectItemNoModifiers_inv hs hmem

theorem inv_reachable {s : State} (hr : Reachable s) : Inv s := by
  induction hr with
  | init => exact initState_inv
  | reset pages action provider curPage s hr ih => exact reset_inv ih
  | insert pid newH boa image s hr ih => exact insert_inv ih
  | removePages toRemove s hr ih => exact removePages_inv ih
  | invalidateThumbnail pid newH s hr ih => exact invalidateThumbnail_inv ih
  | invalidateAllThumbnails heights s hr ih => exact invalidateAllThumbnails_inv ih
  | setSelection pid s hr ih => exact setSelection_inv ih
  | click hdl mods s hmem hr ih => exact itemSelectedByUser_inv ih hmem

/- ======================  ctrl-search characterization  ====================== -/

theorem ctrlSearch_found (sel : Nat → Bool) (n i : Nat) :
    ∀ (fuel k b f : Nat), b = i - k → f = min (i + k) n →
      (∀ e, 1 ≤ e → e ≤ k →
        (e ≤ i → sel (i - e) = false) ∧ (i + e < n → sel (i + e) = false)) →
      (∃ d, 1 ≤ d ∧ d ≤ k + fuel ∧
        ((d ≤ i ∧ sel (i - d) = true) ∨ (i + d < n ∧ sel (i + d) = true))) →
      ∃ j d, ctrlSearch sel n fuel b f = some j ∧
        1 ≤ d ∧ k < d ∧
        ((j = i - d ∧ d ≤ i) ∨ (j = i + d ∧ i + d < n)) ∧
        sel j = true ∧
        (∀ e, 1 ≤ e → e < d →
          (e ≤ i → sel (i - e) = false) ∧ (i + e < n → sel (i + e) = false)) ∧
        (j = i + d → d ≤ i → sel (i - d) = false) := by
  intro fuel
  induction fuel with
  | zero =>
    intro k b f hb hf hprobe hex
    exfalso
    obtain ⟨d, hd1, hdk, hside⟩ := hex
    rcases hside with ⟨hdi, hsel⟩ | ⟨hdn, hsel⟩
    · have := (hprobe d hd1 (by omega)).1 hdi
      rw [this] at hsel
      cases hsel
    · have := (hprobe d hd1 (by omega)).2 hdn
      rw [this] at hsel
      cases hsel
  | succ fuel ih =>
    intro k b f hb hf hprobe hex
    rw [ctrlSearch]
    by_cases hb0 : b ≠ 0
    · rw [if_pos hb0]
      have hki : k < i := by omega
      by_cases hsb : sel (b - 1) = true
      · rw [if_pos hsb]
        refine ⟨b - 1, k + 1, rfl, by omega, by omega, Or.inl ⟨by omega, by omega⟩,
          hsb, ?_, ?_⟩
        · intro e he1 hek
          exact hprobe e he1 (by omega)
        · intro hj
          exfalso
          omega
      · rw [if_neg hsb]
        rw [Bool.not_eq_true] at hsb
        have hsb' : sel (i - (k + 1)) = false := by
          have : i - (k + 1) = b - 1 := by omega
          rw [this]
          exact hsb
        by_cases hfn : f ≠ n
        · rw [if_pos hfn]
          have hfk : f = i + k := by omega
          have hkn : i + k < n := by omega
          by_cases hpf : (decide (f + 1 ≠ n) && sel (f + 1)) = true
          · rw [if_pos hpf]
            rw [Bool.and_eq_true, decide_eq_true_eq] at hpf
            obtain ⟨hne, hself⟩ := hpf
            refine ⟨f + 1, k + 1, rfl, by omega, by omega,
              Or.inr ⟨by omega, by omega⟩, hself, ?_, ?_⟩
            · intro e he1 hek
              exact hprobe e he1 (by omega)
            · intro hj hdi
              exact hsb'
          · rw [if_neg hpf]
            have hforward : i + (k + 1) < n → sel (i + (k + 1)) = false := by
              intro hlt
              have hne : ¬(f + 1 = n) := by omega
              have : ¬(sel (f + 1) = true) := by
                intro hst
                exact hpf (by
                  rw [Bool.and_eq_true, decide_eq_true_eq]
                  exact ⟨hne, hst⟩)
              rw [Bool.not_eq_true] at this
              have hfe : i + (k + 1) = f + 1 := by omega
              rw [hfe]
              exact this
            obtain ⟨j, d, heq, hd1, hkd, hside, hselj, hall, htie⟩ :=
              ih (k + 1) (b - 1) (f + 1) (by omega) (by omega)
                (by
                  intro e he1 hek
                  by_cases hekk : e ≤ k
                  · exact hprobe e he1 hekk
                  · have he : e = k + 1 := by omega
                    subst he
                    exact ⟨fun _ => hsb', hforward⟩)
                (by
                  obtain ⟨d, hd1, hdk, hside⟩ := hex
                  exact ⟨d, hd1, by omega, hside⟩)
            exact ⟨j, d, heq, hd1, by omega, hside, hselj, hall, htie⟩
        · rw [if_neg hfn]
          have hfe : f = n := by omega
          have hkn : n ≤ i + k := by omega
          obtain ⟨j, d, heq, hd1, hkd, hside, hselj, hall, htie⟩ :=
            ih (k + 1) (b - 1) f (by omega) (by omega)
              (by
                intro e he1 hek
                by_cases hekk : e ≤ k
                · exact hprobe e he1 hekk
                · have he : e = k + 1 := by omega
                  subst he
                  exact ⟨fun _ => hsb', fun hlt => absurd hlt (by omega)⟩)
              (by
                obtain ⟨d, hd1, hdk, hside⟩ := hex
                exact ⟨d, hd1, by omega, hside⟩)
          exact ⟨j, d, heq, hd1, by omega, hside, hselj, hall, htie⟩
    · rw [if_neg hb0]
      have hik : i ≤ k := by omega
      by_cases hfn : f ≠ n
      · rw [if_pos hfn]
        have hfk : f = i + k := by omega
        have hkn : i + k < n := by omega
        by_cases hpf : (decide (f + 1 ≠ n) && sel (f + 1)) = true
        · rw [if_pos hpf]
          rw [Bool.and_eq_true, decide_eq_true_eq] at hpf
          obtain ⟨hne, hself⟩ := hpf
          refine ⟨f + 1, k + 1, rfl, by omega, by omega,
            Or.inr ⟨by omega, by omega⟩, hself, ?_, ?_⟩
          · intro e he1 hek
            exact hprobe e he1 (by omega)
          · intro hj hdi
            exfalso
            omega
        · rw [if_neg hpf]
          have hforward : i + (k + 1) < n → sel (i + (k + 1)) = false := by
            intro hlt
            have hne : ¬(f + 1 = n) := by omega
            have : ¬(sel (f + 1) = true) := by
              intro hst
              exact hpf (by
                rw [Bool.and_eq_true, decide_eq_true_eq]
                exact ⟨hne, hst⟩)
            rw [Bool.not_eq_true] at this
            have hfe : i + (k + 1) = f + 1 := by omega
            rw [hfe]
            exact this
          obtain ⟨j, d, heq, hd1, hkd, hside, hselj, hall, htie⟩ :=
            ih (k + 1) b (f + 1) (by omega) (by omega)
              (by
                intro e he1 hek
                by_cases hekk : e ≤ k
                · exact hprobe e he1 hekk
                · have he : e = k + 1 := by omega
                  subst he
                  exact ⟨fun hle => absurd hle (by omega), hforward⟩)
              (by
                obtain ⟨d, hd1, hdk, hside⟩ := hex
                exact ⟨d, hd1, by omega, hside⟩)
          exact ⟨j, d, heq, hd1, by omega, hside, hselj, hall, htie⟩
      · rw [if_neg hfn]
        have hfe : f = n := by omega
        have hkn : n ≤ i + k := by omega
        obtain ⟨j, d, heq, hd1, hkd, hside, hselj, hall, htie⟩ :=
          ih (k + 1) b f (by omega) (by omega)
            (by
              intro e he1 hek
              by_cases hekk : e ≤ k
              · exact hprobe e he1 hekk
              · have he : e = k + 1 := by omega
                subst he
                exact ⟨fun hle => absurd hle (by omega),
                  fun hlt => absurd hlt (by omega)⟩)
            (by
              obtain ⟨d, hd1, hdk, hside⟩ := hex
              exact ⟨d, hd1, by omega, hside⟩)
        exact ⟨j, d, heq, hd1, by omega, hside, hselj, hall, htie⟩

/- ======================  reset selection round-trip  ====================== -/

theorem mem_selectedItems_iff {s : State} (hs : Inv s) (pid : PageId) :
    pid ∈ selectedItems s ↔
      ∃ it ∈ s.itemsInOrder, it.selected = true ∧ it.pageId = pid := by
  constructor
  · intro hmem
    rw [selectedItems, takeWhile_eq_filter_of_partitioned _ _ hs.part] at hmem
    obtain ⟨h, hfil, hpid⟩ := List.mem_map.1 hmem
    obtain ⟨hmemsel, hselh⟩ := List.mem_filter.1 hfil
    obtain ⟨it, hit, hh⟩ := exists_of_handle_mem (hs.perm.subset hmemsel)
    refine ⟨it, hit, ?_, ?_⟩
    · rw [← selAtH_of_mem_nodup hit hs.nodup, hh]
      exact hselh
    · rw [← hpid, pidAtH, ← hh, findByHandle_of_mem_nodup hit hs.nodup]
      rfl
  · rintro ⟨it, hit, hsel, hpid⟩
    rw [← hpid]
    exact mem_selectedItems hs hit hsel

theorem updItem_sLead_selset {l : List Item} (hnd : (l.map Item.handle).Nodup)
    {lh : Nat} {it0 : Item} (hit0 : it0 ∈ l) (hh0 : it0.handle = lh)
    (hsel0 : it0.selected = true) (pid : PageId) :
    (∃ it ∈ updItem lh (sLead true) l, it.selected = true ∧ it.pageId = pid) ↔
      (∃ it ∈ l, it.selected = true ∧ it.pageId = pid) := by
  constructor
  · rintro ⟨x, hx, hxsel, hxpid⟩
    rw [updItem] at hx
    obtain ⟨y, hy, hxy⟩ := List.mem_map.1 hx
    by_cases hyh : y.handle = lh
    · have hy0 : y = it0 := by
        have h1 := findByHandle_of_mem_nodup hy hnd
        have h2 := findByHandle_of_mem_nodup hit0 hnd
        rw [hyh] at h1
        rw [hh0] at h2
        rw [h1] at h2
        injection h2
      refine ⟨y, hy, by rw [hy0]; exact hsel0, ?_⟩
      rw [if_pos hyh] at hxy
      rw [← hxy] at hxpid
      exact hxpid
    · rw [if_neg hyh] at hxy
      subst hxy
      exact ⟨y, hy, hxsel, hxpid⟩
  · rintro ⟨y, hy, hysel, hypid⟩
    by_cases hyh : y.handle = lh
    · exact ⟨sLead true y, mem_updItem_self hy hyh, by simp [sLead], hypid⟩
    · exact ⟨y, mem_updItem_other hy hyh, hysel, hypid⟩

theorem selset_append_upd {l : List Item} {hdl : Nat}
    (hnotmem : hdl ∉ l.map Item.handle) {item : Item} (hh : item.handle = hdl)
    (pid : PageId) :
    (∃ it ∈ updItem hdl (sSel true) (l ++ [item]),
        it.selected = true ∧ it.pageId = pid) ↔
      ((∃ it ∈ l, it.selected = true ∧ it.pageId = pid) ∨ item.pageId = pid) := by
  have heq : updItem hdl (sSel true) (l ++ [item]) = l ++ [sSel true item] := by
    rw [updItem_append, updItem_not_mem hnotmem]
    congr 1
    simp [updItem, hh]
  rw [heq]
  constructor
  · rintro ⟨x, hx, hxsel, hxpid⟩
    rcases List.mem_append.1 hx with hx | hx
    · exact Or.inl ⟨x, hx, hxsel, hxpid⟩
    · rw [List.mem_singleton] at hx
      subst hx
      exact Or.inr hxpid
  · rintro (⟨x, hx, hxsel, hxpid⟩ | hpid)
    · exact ⟨x, List.mem_append_left _ hx, hxsel, hxpid⟩
    · exact ⟨sSel true item,
        List.mem_append_right _ (List.mem_singleton_self _), rfl, hpid⟩

theorem selset_append_unsel {l : List Item} {item : Item}
    (hsel : item.selected = false) (pid : PageId) :
    (∃ it ∈ l ++ [item], it.selected = true ∧ it.pageId = pid) ↔
      (∃ it ∈ l, it.selected = true ∧ it.pageId = pid) := by
  constructor
  · rintro ⟨x, hx, hxsel, hxpid⟩
    rcases List.mem_append.1 hx with hx | hx
    · exact ⟨x, hx, hxsel, hxpid⟩
    · rw [List.mem_singleton] at hx
      subst hx
      rw [hsel] at hxsel
      cases hxsel
  · rintro ⟨x, hx, hxsel, hxpid⟩
    exact ⟨x, List.mem_append_left _ hx, hxsel, hxpid⟩

theorem resetBuild_selset (selected : List PageId) (leaderId : Option PageId)
    (hLid : ∀ lid, leaderId = some lid → selected.contains lid = true) :
    ∀ (pages : List PageEntry) (i : Nat) (off : Int) (s : State)
      (someSel : Option Nat), Inv s → ∀ pid,
      ((∃ it ∈ (resetBuild selected leaderId pages i off s someSel).1.itemsInOrder,
          it.selected = true ∧ it.pageId = pid) ↔
        ((∃ it ∈ s.itemsInOrder, it.selected = true ∧ it.pageId = pid) ∨
          (pid ∈ selected ∧ pid ∈ pages.map PageEntry.pid))) := by
  intro pages
  induction pages with
  | nil =>
    intro i off s someSel hs pid
    constructor
    · intro h
      exact Or.inl h
    · rintro (h | ⟨_, hmem⟩)
      · exact h
      · exact absurd hmem (List.not_mem_nil pid)
  | cons p rest ih =>
    intro i off s someSel hs pid
    rw [resetBuild]
    dsimp only
    have hnotmem : s.nextHandle ∉ s.itemsInOrder.map Item.handle :=
      nextHandle_not_mem hs
    have hmemcons : pid ∈ (p :: rest).map PageEntry.pid ↔
        (pid = p.pid ∨ pid ∈ rest.map PageEntry.pid) := by
      rw [List.map_cons, List.mem_cons]
    by_cases hsel : selected.contains p.pid = true
    · rw [if_pos hsel]
      dsimp only [moveToSelected]
      have hpmem : p.pid ∈ selected := List.mem_of_elem_eq_true hsel
      have hupd := @selset_append_upd s.itemsInOrder s.nextHandle hnotmem
        (Item.mk s.nextHandle p.pid i false false off p.height) rfl pid
      by_cases hlid : leaderId = some p.pid
      · rw [if_pos hlid]
        have hstep := ih (i + 1) (off + p.height + SPACING) _ (some s.nextHandle)
          (build_step_sel_inv hs
            (Item.mk s.nextHandle p.pid i false false off p.height) rfl
            (rectUnion s.sceneRect off (off + p.height)) _ (Or.inr rfl)) pid
        refine Iff.trans hstep (Iff.trans (or_congr hupd Iff.rfl) ?_)
        constructor
        · rintro ((h | hpp) | ⟨hps, hpr⟩)
          · exact Or.inl h
          · exact Or.inr ⟨hpp ▸ hpmem, hmemcons.2 (Or.inl hpp.symm)⟩
          · exact Or.inr ⟨hps, hmemcons.2 (Or.inr hpr)⟩
        · rintro (h | ⟨hps, hpc⟩)
          · exact Or.inl (Or.inl h)
          · rcases hmemcons.1 hpc with hpp | hpr
            · exact Or.inl (Or.inr hpp.symm)
            · exact Or.inr ⟨hps, hpr⟩
      · rw [if_neg hlid]
        have hstep := ih (i + 1) (off + p.height + SPACING) _ (some s.nextHandle)
          (build_step_sel_inv hs
            (Item.mk s.nextHandle p.pid i false false off p.height) rfl
            (rectUnion s.sceneRect off (off + p.height)) _ (Or.inl rfl)) pid
        refine Iff.trans hstep (Iff.trans (or_congr hupd Iff.rfl) ?_)
        constructor
        · rintro ((h | hpp) | ⟨hps, hpr⟩)
          · exact Or.inl h
          · exact Or.inr ⟨hpp ▸ hpmem, hmemcons.2 (Or.inl hpp.symm)⟩
          · exact Or.inr ⟨hps, hmemcons.2 (Or.inr hpr)⟩
        · rintro (h | ⟨hps, hpc⟩)
          · exact Or.inl (Or.inl h)
          · rcases hmemcons.1 hpc with hpp | hpr
            · exact Or.inl (Or.inr hpp.symm)
            · exact Or.inr ⟨hps, hpr⟩
    · rw [if_neg hsel]
      dsimp only
      by_cases hlid : leaderId = some p.pid
      · exact absurd (hLid p.pid hlid) hsel
      · rw [if_neg hlid]
        have hun : (∃ it ∈ s.itemsInOrder ++
            [Item.mk s.nextHandle p.pid i false false off p.height],
              it.selected = true ∧ it.pageId = pid) ↔
            (∃ it ∈ s.itemsInOrder, it.selected = true ∧ it.pageId = pid) :=
          selset_append_unsel rfl pid
        have hstep := ih (i + 1) (off + p.height + SPACING) _ someSel
          (build_step_unsel_inv hs
            (Item.mk s.nextHandle p.pid i false false off p.height) rfl rfl
            (rectUnion s.sceneRect off (off + p.height))) pid
        refine Iff.trans hstep (Iff.trans (or_congr hun Iff.rfl) ?_)
        constructor
        · rintro (h | ⟨hps, hpr⟩)
          · exact Or.inl h
          · exact Or.inr ⟨hps, hmemcons.2 (Or.inr hpr)⟩
        · rintro (h | ⟨hps, hpc⟩)
          · exact Or.inl h
          · rcases hmemcons.1 hpc with hpp | hpr
            · exfalso
              subst hpp
              exact hsel (List.elem_eq_true_of_mem hps)
            · exact Or.inr ⟨hps, hpr⟩

theorem resetTail_selset (curPage : PageId) (li : Option PageId)
    (r : State × Option Nat) (hs2 : Inv r.1) (hok : SomeSelOK r.1 r.2)
    (hnonempty : ∃ it ∈ r.1.itemsInOrder, it.selected = true) (pid : PageId) :
    (∃ it ∈ (resetTail curPage li r).1.itemsInOrder,
        it.selected = true ∧ it.pageId = pid) ↔
      (∃ it ∈ r.1.itemsInOrder, it.selected = true ∧ it.pageId = pid) := by
  rw [resetTail]
  cases hld : r.1.leader with
  | some lh =>
    dsimp only
    rw [hld]
    dsimp only
    obtain ⟨it0, hit0, hh0, hsel0⟩ := hs2.selinv lh hld
    exact updItem_sLead_selset hs2.nodup hit0 hh0 hsel0 pid
  | none =>
    dsimp only
    cases hss : r.2 with
    | some h =>
      dsimp only
      obtain ⟨hm, hsel0⟩ := hok.1 h hss
      obtain ⟨it0, hit0, hh0⟩ := exists_of_handle_mem hm
      have hselit : it0.selected = true := by
        rw [← selAtH_of_mem_nodup hit0 hs2.nodup, hh0]
        exact hsel0
      exact updItem_sLead_selset hs2.nodup hit0 hh0 hselit pid
    | none =>
      exfalso
      obtain ⟨it0, hit0, hsel0⟩ := hnonempty
      have hall := hok.2 hss
      have hmemsel : it0.handle ∈ r.1.selOrder :=
        hs2.perm.mem_iff.2 (List.mem_map_of_mem Item.handle hit0)
      have hflag : selAtH r.1.itemsInOrder it0.handle ∈ selFlags r.1 :=
        List.mem_map_of_mem _ hmemsel
      have := hall _ hflag
      rw [selAtH_of_mem_nodup hit0 hs2.nodup, hsel0] at this
      cases this

theorem reset_hLid {s : State} (hs : Inv s)
    (provider : Option (PageId → PageId → Bool)) :
    ∀ lid, ((s.leader.bind (findByHandle s.itemsInOrder)).map Item.pageId)
        = some lid →
      (selectedItems (State.mk s.itemsInOrder s.selOrder s.leader provider
        s.sceneRect s.nextHandle)).contains lid = true := by
  intro lid hli
  have hs0 : Inv (State.mk s.itemsInOrder s.selOrder s.leader provider
      s.sceneRect s.nextHandle) :=
    ⟨hs.nodup, hs.perm, hs.bound, hs.part, hs.selinv⟩
  cases hl : s.leader with
  | none =>
    rw [hl] at hli
    cases hli
  | some lh =>
    rw [hl] at hli
    obtain ⟨it0, hit0, hh0, hsel0⟩ := hs.selinv lh hl
    have hf : findByHandle s.itemsInOrder lh = some it0 := by
      rw [← hh0]
      exact findByHandle_of_mem_nodup hit0 hs.nodup
    rw [Option.some_bind, hf] at hli
    have hlid0 : lid = it0.pageId := by
      injection hli with hli0
      exact hli0.symm
    have hmem : lid ∈ selectedItems (State.mk s.itemsInOrder s.selOrder
        s.leader provider s.sceneRect s.nextHandle) := by
      rw [hlid0]
      exact mem_selectedItems hs0 hit0 hsel0
    simpa using hmem

theorem reset_keep_eq {pages : List PageEntry}
    {provider : Option (PageId → PageId → Bool)} {curPage : PageId} {s : State}
    (hpne : pages.isEmpty = false) :
    reset pages SelectionAction.keepSelection provider curPage s =
      resetTail curPage
        ((s.leader.bind (findByHandle s.itemsInOrder)).map Item.pageId)
        (resetBuild
          (selectedItems (State.mk s.itemsInOrder s.selOrder s.leader provider
            s.sceneRect s.nextHandle))
          ((s.leader.bind (findByHandle s.itemsInOrder)).map Item.pageId)
          (sortedPages provider pages)
          0 0 (State.mk [] [] none provider none s.nextHandle) none) := by
  rw [reset.eq_def]
  dsimp only [clearOp]
  rw [if_pos rfl, if_pos rfl, if_neg (by rw [hpne]; exact fun h => nomatch h)]

/-- C6 (amended): after `reset(pages, KEEP_SELECTION, provider)` the set of
selected page identities equals the set selected before, provided every
previously selected identity occurs in the new page list AND the previous
selection was nonempty. (With an empty previous selection the reset
freshly selects the snapshot's current page, so the original claim fails.) -/
theorem claim_C6_keep_selection_roundtrip {pages : List PageEntry}
    {provider : Option (PageId → PageId → Bool)} {curPage : PageId} {s : State}
    (hs : Inv s) (hne : selectedItems s ≠ [])
    (hsub : ∀ pid ∈ selectedItems s, pid ∈ pages.map PageEntry.pid) :
    ∀ pid, pid ∈ selectedItems
        (reset pages SelectionAction.keepSelection provider curPage s).1 ↔
      pid ∈ selectedItems s := by
  have hperm : (sortedPages provider pages).Perm pages := by
    cases provider with
    | none => simp [sortedPages]
    | some prec =>
      rw [sortedPages]
      exact stableSortBy_perm _ pages
  obtain ⟨pid0, hpid0⟩ := List.exists_mem_of_ne_nil _ hne
  have hp0pages := hsub pid0 hpid0
  have hpne : pages.isEmpty = false := by
    cases pages with
    | nil => exact absurd hp0pages (List.not_mem_nil _)
    | cons a t => rfl
  intro pid
  rw [reset_keep_eq hpne]
  have hEmptyInv : Inv (State.mk [] [] none provider none s.nextHandle) :=
    ⟨List.nodup_nil, List.Perm.refl _, fun h hm => absurd hm (List.not_mem_nil h),
      List.Pairwise.nil, fun h hld => nomatch hld⟩
  have hok0 : SomeSelOK (State.mk [] [] none provider none s.nextHandle) none :=
    ⟨(fun h0 hsome => nomatch hsome),
      fun _ b hb => absurd hb (List.not_mem_nil b)⟩
  have hLid := reset_hLid hs provider
  have hb := resetBuild_inv
    (selectedItems (State.mk s.itemsInOrder s.selOrder s.leader provider
      s.sceneRect s.nextHandle))
    ((s.leader.bind (findByHandle s.itemsInOrder)).map Item.pageId) hLid
    (sortedPages provider pages)
    0 0 (State.mk [] [] none provider none s.nextHandle) none hEmptyInv hok0
  have hselset := resetBuild_selset
    (selectedItems (State.mk s.itemsInOrder s.selOrder s.leader provider
      s.sceneRect s.nextHandle))
    ((s.leader.bind (findByHandle s.itemsInOrder)).map Item.pageId) hLid
    (sortedPages provider pages)
    0 0 (State.mk [] [] none provider none s.nextHandle) none hEmptyInv
  have hempty : ∀ q : PageId,
      (∃ it ∈ (State.mk ([] : List Item) ([] : List Nat) none provider none
        s.nextHandle).itemsInOrder, it.selected = true ∧ it.pageId = q) ↔ False := by
    intro q
    constructor
    · rintro ⟨it, hit, _⟩
      exact absurd hit (List.not_mem_nil it)
    · intro hf
      cases hf
  have hsel0ex : ∃ it ∈ (resetBuild
      (selectedItems (State.mk s.itemsInOrder s.selOrder s.leader provider
        s.sceneRect s.nextHandle))
      ((s.leader.bind (findByHandle s.itemsInOrder)).map Item.pageId)
      (sortedPages provider pages)
      0 0 (State.mk [] [] none provider none s.nextHandle) none).1.itemsInOrder,
      it.selected = true := by
    have h0 := (hselset pid0).2 (Or.inr ⟨hpid0,
      (hperm.map PageEntry.pid).mem_iff.2 hp0pages⟩)
    obtain ⟨it, hit, hsl, _⟩ := h0
    exact ⟨it, hit, hsl⟩
  refine Iff.trans (mem_selectedItems_iff
    (resetTail_inv curPage _ _ hb.1 hb.2) pid) ?_
  refine Iff.trans (resetTail_selset curPage _ _ hb.1 hb.2 hsel0ex pid) ?_
  refine Iff.trans (hselset pid) ?_
  rw [(hperm.map PageEntry.pid).mem_iff]
  constructor
  · rintro (h | ⟨hps, _⟩)
    · exact absurd ((hempty pid).1 h) (fun hf => hf)
    · exact hps
  · intro hmem
    exact Or.inr ⟨hmem, hsub pid hmem⟩

/- ======================  removePages singularization  ====================== -/

theorem removeWalk_projHP (toRemove : List PageId) :
    ∀ (l : List Item) (delta : Int) (rect : Option (Int × Int))
      (images : List Nat) (leader : Option Nat),
      (removeWalk toRemove l delta rect images leader).1.map
          (fun it => (it.handle, it.pageId)) =
        (l.filter fun it => !(toRemove.contains it.pageId)).map
          (fun it => (it.handle, it.pageId)) := by
  intro l
  induction l with
  | nil =>
    intro delta rect images leader
    rfl
  | cons x xs ih =>
    intro delta rect images leader
    rw [removeWalk]
    by_cases hc : toRemove.contains x.pageId = true
    · rw [if_pos hc]
      dsimp only
      rw [List.filter_cons, hc]
      simp only [Bool.not_true, Bool.false_eq_true, if_false]
      exact ih _ _ _ _
    · rw [if_neg hc]
      dsimp only
      rw [List.filter_cons]
      have hcf : (!toRemove.contains x.pageId) = true := by
        simp only [Bool.not_eq_true'] at hc ⊢
        simpa using hc
      rw [hcf]
      simp only [if_true, List.map_cons]
      exact congrArg (List.cons _) (ih _ _ _ _)

theorem removeWalk_images (toRemove : List PageId) :
    ∀ (l : List Item) (delta : Int) (rect : Option (Int × Int))
      (images : List Nat) (leader : Option Nat),
      (∀ img ∈ images,
        img ∈ (removeWalk toRemove l delta rect images leader).2.2.1) ∧
      (∀ it ∈ l, toRemove.contains it.pageId = true →
        it.pageId.subPage ≠ SubPage.single →
        it.pageId.imageId ∈ (removeWalk toRemove l delta rect images leader).2.2.1) := by
  intro l
  induction l with
  | nil =>
    intro delta rect images leader
    exact ⟨fun img hm => hm, fun it hit => absurd hit (List.not_mem_nil it)⟩
  | cons x xs ih =>
    intro delta rect images leader
    rw [removeWalk]
    by_cases hc : toRemove.contains x.pageId = true
    · rw [if_pos hc]
      dsimp only
      obtain ⟨hmono, hrest⟩ := ih (delta - (x.h + SPACING)) rect
        (match x.pageId.subPage with
          | SubPage.left | SubPage.right => images ++ [x.pageId.imageId]
          | SubPage.single => images)
        (if leader = some x.handle then none else leader)
      refine ⟨?_, ?_⟩
      · intro img hm
        refine hmono img ?_
        cases hsp : x.pageId.subPage with
        | single => exact hm
        | left => exact List.mem_append_left _ hm
        | right => exact List.mem_append_left _ hm
      · intro it hit hcit hsp
        rcases List.mem_cons.1 hit with he | hm
        · subst he
          refine hmono it.pageId.imageId ?_
          cases hx : it.pageId.subPage with
          | single => exact absurd hx hsp
          | left =>
            exact List.mem_append_right _ (List.mem_singleton_self _)
          | right =>
            exact List.mem_append_right _ (List.mem_singleton_self _)
        · exact hrest it hm hcit hsp
    · rw [if_neg hc]
      dsimp only
      obtain ⟨hmono, hrest⟩ := ih delta
        (rectUnion rect (x.y + delta) (x.y + delta + x.h)) images leader
      refine ⟨?_, ?_⟩
      · intro img hm
        exact hmono img hm
      · intro it hit hcit hsp
        rcases List.mem_cons.1 hit with he | hm
        · subst he
          rw [hcit] at hc
          exact absurd rfl hc
        · exact hrest it hm hcit hsp

/- ======================  claim C2  ====================== -/

/-- C2: when a ctrl-click deselects the record that is the current selection
leader while other records remain selected, the new leader is the record at
the display position the alternating one-back/one-forward search returns:
a remaining selected position nearest to the removed leader's position, all
strictly closer positions on both sides being unselected, with an
equal-distance tie resolved in favour of the backward direction; the
emitted leader-changed notification carries the avoid-scrolling flag. -/
theorem claim_C2_ctrl_deselect_leader_nearest {hdl : Nat} {s : State}
    {it : Item} (hs : Inv s)
    (hfind : findByHandle s.itemsInOrder hdl = some it)
    (hsel : it.selected = true) (hmult : multipleItemsSelected s = true)
    (hlead : s.leader = some hdl) :
    let l1 := updItem hdl (sSel false) s.itemsInOrder
    let n := l1.length
    let i := idxOfHandle l1 hdl
    ∃ j d,
      ctrlSearch (selAtIdx l1) n (n + 1) i i = some j ∧
      (selectItemWithControl hdl s).1.leader =
        some (((l1.get? j).map Item.handle).getD 0) ∧
      (selectItemWithControl hdl s).2 =
        [Notif.newSelectionLeader
          (pidAtH (selectItemWithControl hdl s).1.itemsInOrder
            (((l1.get? j).map Item.handle).getD 0))
          ⟨true, false, true⟩] ∧
      1 ≤ d ∧
      selAtIdx l1 j = true ∧
      ((j = i - d ∧ d ≤ i) ∨ (j = i + d ∧ i + d < n)) ∧
      (∀ e, 1 ≤ e → e < d →
        (e ≤ i → selAtIdx l1 (i - e) = false) ∧
        (i + e < n → selAtIdx l1 (i + e) = false)) ∧
      (j = i + d → d ≤ i → selAtIdx l1 (i - d) = false) := by
  intro l1 n i
  have hieq : idxOfHandle l1 hdl = i := rfl
  have hneq : l1.length = n := rfl
  have hmemS : hdl ∈ s.itemsInOrder.map Item.handle := by
    obtain ⟨hm, hh⟩ := findByHandle_mem hfind
    exact hh ▸ List.mem_map_of_mem Item.handle hm
  have hmap1 : l1.map Item.handle = s.itemsInOrder.map Item.handle :=
    updItem_map_handle _ _ (sSel_handle false) _
  have hmem1 : hdl ∈ l1.map Item.handle := by
    rw [hmap1]
    exact hmemS
  have hnd1 : (l1.map Item.handle).Nodup := by
    rw [hmap1]
    exact hs.nodup
  obtain ⟨it1, hget1, hh1⟩ := idxOfHandle_spec hmem1
  rw [hieq] at hget1
  have hilt : i < n := by
    rw [← hneq]
    by_contra hge
    rw [List.get?_eq_none.2 (by omega)] at hget1
    cases hget1
  -- A second selected record exists; find its display position.
  have hsecond : ∃ hm0, hm0 ≠ hdl ∧ hm0 ∈ s.selOrder ∧
      selAtH s.itemsInOrder hm0 = true := by
    rw [multipleItemsSelected] at hmult
    cases hso : s.selOrder with
    | nil =>
      rw [hso] at hmult
      cases hmult
    | cons h1 t =>
      cases t with
      | nil =>
        rw [hso] at hmult
        cases hmult
      | cons h2 t2 =>
        rw [hso] at hmult
        rw [Bool.and_eq_true] at hmult
        obtain ⟨hs1, hs2⟩ := hmult
        have hnd := selOrder_nodup hs
        rw [hso] at hnd
        have hne12 : h1 ≠ h2 := by
          rcases List.nodup_cons.1 hnd with ⟨hn1, _⟩
          intro he
          exact hn1 (he ▸ List.mem_cons_self h2 t2)
        by_cases hcase : h1 = hdl
        · refine ⟨h2, ?_, ?_, hs2⟩
          · intro he
            exact hne12 (by rw [hcase, he])
          · exact List.mem_cons_of_mem h1 (List.mem_cons_self h2 t2)
        · exact ⟨h1, hcase, List.mem_cons_self h1 _, hs1⟩
  obtain ⟨hm0, hmne, hmmem, hmsel⟩ := hsecond
  have hmmap1 : hm0 ∈ l1.map Item.handle := by
    rw [hmap1]
    exact hs.perm.subset hmmem
  obtain ⟨itm, hgetm, hhm⟩ := idxOfHandle_spec hmmap1
  have hmlt : idxOfHandle l1 hm0 < n := by
    rw [← hneq]
    by_contra hge
    rw [List.get?_eq_none.2 (by omega)] at hgetm
    cases hgetm
  have hmsel1 : selAtIdx l1 (idxOfHandle l1 hm0) = true := by
    rw [selAtIdx, hgetm]
    have hsa : selAtH l1 itm.handle = itm.selected :=
      selAtH_of_mem_nodup (List.get?_mem hgetm) hnd1
    rw [hhm] at hsa
    rw [selAtH_updItem_ne _ _ (sSel_handle false) _ _ hmne] at hsa
    rw [hmsel] at hsa
    simp [← hsa]
  have hmni : idxOfHandle l1 hm0 ≠ i := by
    intro he
    rw [he, hget1] at hgetm
    have : itm = it1 := by
      injection hgetm with hval
      exact hval.symm
    rw [this, hh1] at hhm
    exact hmne hhm.symm
  have hex : ∃ d, 1 ≤ d ∧ d ≤ 0 + (n + 1) ∧
      ((d ≤ i ∧ selAtIdx l1 (i - d) = true) ∨
        (i + d < n ∧ selAtIdx l1 (i + d) = true)) := by
    by_cases hmi : idxOfHandle l1 hm0 < i
    · refine ⟨i - idxOfHandle l1 hm0, by omega, by omega, Or.inl ⟨by omega, ?_⟩⟩
      have he : i - (i - idxOfHandle l1 hm0) = idxOfHandle l1 hm0 := by omega
      rw [he]
      exact hmsel1
    · refine ⟨idxOfHandle l1 hm0 - i, by omega, by omega, Or.inr ⟨by omega, ?_⟩⟩
      have he : i + (idxOfHandle l1 hm0 - i) = idxOfHandle l1 hm0 := by omega
      rw [he]
      exact hmsel1
  obtain ⟨j, d, hsearch, hd1, hkd, hside, hselj, hall, htie⟩ :=
    ctrlSearch_found (selAtIdx l1) n i (n + 1) 0 i i (by omega)
      (by omega) (fun e he1 he0 => absurd he0 (by omega)) hex
  have hstate := ctrl_state_desel_leader hdl s it j hfind hsel hmult hlead
    hsearch
  refine ⟨j, d, hsearch, ?_, ?_, hd1, hselj, hside, hall, htie⟩
  · rw [hstate]
  · rw [hstate]

/- ======================  remaining claims  ====================== -/

/-- C1: in every reachable state, a non-null selection leader reference names
a stored record whose selected flag is true; reachability is closed under
all public operations, so every one of them preserves the invariant. -/
theorem claim_C1_leader_selected {s : State} (hr : Reachable s) :
    ∀ h, s.leader = some h →
      ∃ it ∈ s.itemsInOrder, it.handle = h ∧ it.selected = true :=
  (inv_reachable hr).selinv

/-- Evaluates C1 on a concrete reachable state holding a leader. -/
theorem claim_C1_witness :
    Reachable exReset1 ∧ exReset1.leader = some 0 ∧
      ∃ it ∈ exReset1.itemsInOrder, it.handle = 0 ∧ it.selected = true :=
  ⟨Reachable.reset [⟨pgA, 5⟩] SelectionAction.resetSelection none pgA initState
      Reachable.init,
    by decide,
    claim_C1_leader_selected
      (Reachable.reset [⟨pgA, 5⟩] SelectionAction.resetSelection none pgA
        initState Reachable.init) 0 (by decide)⟩

/-- Evaluates C2 on a concrete state: both records selected, the leader at
display position 1 is ctrl-clicked, and the search settles on position 0. -/
theorem claim_C2_witness :
    (Inv exShift2 ∧ findByHandle exShift2.itemsInOrder 1 = some exIt1 ∧
      exIt1.selected = true ∧ multipleItemsSelected exShift2 = true ∧
      exShift2.leader = some 1) ∧
    (let l1 := updItem 1 (sSel false) exShift2.itemsInOrder
     let n := l1.length
     let i := idxOfHandle l1 1
     ∃ j d,
      ctrlSearch (selAtIdx l1) n (n + 1) i i = some j ∧
      (selectItemWithControl 1 exShift2).1.leader =
        some (((l1.get? j).map Item.handle).getD 0) ∧
      (selectItemWithControl 1 exShift2).2 =
        [Notif.newSelectionLeader
          (pidAtH (selectItemWithControl 1 exShift2).1.itemsInOrder
            (((l1.get? j).map Item.handle).getD 0))
          ⟨true, false, true⟩] ∧
      1 ≤ d ∧
      selAtIdx l1 j = true ∧
      ((j = i - d ∧ d ≤ i) ∨ (j = i + d ∧ i + d < n)) ∧
      (∀ e, 1 ≤ e → e < d →
        (e ≤ i → selAtIdx l1 (i - e) = false) ∧
        (i + e < n → selAtIdx l1 (i + e) = false)) ∧
      (j = i + d → d ≤ i → selAtIdx l1 (i - d) = false)) :=
  ⟨⟨inv_reachable (Reachable.click 1 ⟨false, true⟩ exReset2 (by decide)
      (Reachable.reset [⟨pgA, 5⟩, ⟨pgB, 7⟩] SelectionAction.resetSelection none
        pgA initState Reachable.init)),
    by decide, by decide, by decide, by decide⟩,
    @claim_C2_ctrl_deselect_leader_nearest 1 exShift2 exIt1
      (inv_reachable (Reachable.click 1 ⟨false, true⟩ exReset2 (by decide)
        (Reachable.reset [⟨pgA, 5⟩, ⟨pgB, 7⟩] SelectionAction.resetSelection none
          pgA initState Reachable.init)))
      (by decide) (by decide) (by decide) (by decide)⟩

/-- C3 (amended): a shift-click whose clicked record already is the selection
leader returns before doing anything: the state is unchanged and no
notification at all is emitted. (The original claim's redundant-flagged
notification is computed but never emitted: the early return precedes the
emission.) -/
theorem claim_C3_shift_on_leader_noop {hdl : Nat} {s : State}
    (hlead : s.leader = some hdl) :
    selectItemWithShift hdl s = (s, []) :=
  shift_return_state hdl s hdl hlead rfl

/-- Refutes C3 as stated: on a reachable state whose selected leader is
shift-clicked, the emitted notification list is empty, not a
redundant-flagged leader change. -/
theorem claim_C3_counterexample :
    Reachable exReset1 ∧ exReset1.leader = some 0 ∧
      selAtH exReset1.itemsInOrder 0 = true ∧
      (selectItemWithShift 0 exReset1).2 = [] :=
  ⟨Reachable.reset [⟨pgA, 5⟩] SelectionAction.resetSelection none pgA initState
      Reachable.init, by decide, by decide, by decide⟩

/-- Evaluates the amended C3 on a concrete state. -/
theorem claim_C3_witness :
    exReset1.leader = some 0 ∧ selectItemWithShift 0 exReset1 = (exReset1, []) :=
  ⟨by decide, claim_C3_shift_on_leader_noop (by decide)⟩

/-- C4 (amended): a no-modifier click on a stored record clears the whole
selection, selects the clicked record, makes it the leader, and always
emits one leader-changed notification whose redundant flag is set exactly
when the clicked record already was the leader - regardless of how many
records were selected. (The original claim's extra "and was the only
selected item" condition is not checked by the code.) -/
theorem claim_C4_no_modifiers_click {hdl : Nat} {s : State} (hs : Inv s)
    (hmem : hdl ∈ s.itemsInOrder.map Item.handle) :
    (selectItemNoModifiers hdl s).1.leader = some hdl ∧
    selAtH (selectItemNoModifiers hdl s).1.itemsInOrder hdl = true ∧
    (∀ h, h ≠ hdl →
      selAtH (selectItemNoModifiers hdl s).1.itemsInOrder h = false) ∧
    (selectItemNoModifiers hdl s).2 =
      [Notif.newSelectionLeader
        (pidAtH (selectItemNoModifiers hdl s).1.itemsInOrder hdl)
        ⟨true, decide (s.leader = some hdl), false⟩] := by
  have hmemc : hdl ∈ (clearSelection s).itemsInOrder.map Item.handle := by
    rw [clearSelection_map_handle]
    exact hmem
  have hsome : (findByHandle (clearSelection s).itemsInOrder hdl).isSome := by
    obtain ⟨it, hit, hh⟩ := exists_of_handle_mem hmemc
    exact hh ▸ findByHandle_isSome_of_mem hit
  refine ⟨rfl, ?_, ?_, rfl⟩
  · show selAtH (updItem hdl (sLead true) (clearSelection s).itemsInOrder) hdl
      = true
    exact selAtH_updItem_sLead_true_self hdl _ hsome
  · intro h hne
    show selAtH (updItem hdl (sLead true) (clearSelection s).itemsInOrder) h
      = false
    rw [selAtH_updItem_ne _ _ (sLead_handle true) _ _ hne]
    by_cases hmemh : h ∈ s.itemsInOrder.map Item.handle
    · exact clearSelection_flag_false s hs.part h (hs.perm.mem_iff.2 hmemh)
    · have hnone : findByHandle (clearSelection s).itemsInOrder h = none := by
        rw [findByHandle_eq_none]
        intro it hit hh
        refine hmemh ?_
        have : it.handle ∈ (clearSelection s).itemsInOrder.map Item.handle :=
          List.mem_map_of_mem Item.handle hit
        rw [clearSelection_map_handle] at this
        exact hh ▸ this
      rw [selAtH, hnone]
      rfl

/-- Refutes C4 as stated: on a reachable state with two selected records the
clicked leader yields a redundant-flagged notification even though it was
not the only selected record. -/
theorem claim_C4_counterexample :
    Reachable exShift2 ∧ exShift2.leader = some 1 ∧
      multipleItemsSelected exShift2 = true ∧
      (selectItemNoModifiers 1 exShift2).2 =
        [Notif.newSelectionLeader pgB ⟨true, true, false⟩] :=
  ⟨Reachable.click 1 ⟨false, true⟩ exReset2 (by decide)
      (Reachable.reset [⟨pgA, 5⟩, ⟨pgB, 7⟩] SelectionAction.resetSelection none
        pgA initState Reachable.init),
    by decide, by decide, by decide⟩

/-- Evaluates the amended C4 on a concrete state. -/
theorem claim_C4_witness :
    (Inv exReset2 ∧ 1 ∈ exReset2.itemsInOrder.map Item.handle) ∧
    ((selectItemNoModifiers 1 exReset2).1.leader = some 1 ∧
      selAtH (selectItemNoModifiers 1 exReset2).1.itemsInOrder 1 = true ∧
      (∀ h, h ≠ 1 →
        selAtH (selectItemNoModifiers 1 exReset2).1.itemsInOrder h = false) ∧
      (selectItemNoModifiers 1 exReset2).2 =
        [Notif.newSelectionLeader
          (pidAtH (selectItemNoModifiers 1 exReset2).1.itemsInOrder 1)
          ⟨true, decide (exReset2.leader = some 1), false⟩]) :=
  ⟨⟨inv_reachable (Reachable.reset [⟨pgA, 5⟩, ⟨pgB, 7⟩]
      SelectionAction.resetSelection none pgA initState Reachable.init),
    by decide⟩,
    claim_C4_no_modifiers_click
      (inv_reachable (Reachable.reset [⟨pgA, 5⟩, ⟨pgB, 7⟩]
        SelectionAction.resetSelection none pgA initState Reachable.init))
      (by decide)⟩

/-- C5: `itemInsertPosition` with a hint inside the range returns the hint
with distance 0 when no order provider is set; with a provider it returns a
position that is the end of the range or one whose element the new page
precedes, whose predecessor (if any) the new page does not precede, and the
written distance is the signed offset from the hint to the returned
position. -/
theorem claim_C5_itemInsertPosition (prec : PageId → PageId → Bool)
    (l : List PageId) (pageId : PageId) (hint : Nat) (hh : hint ≤ l.length) :
    itemInsertPosition none l pageId hint = (hint, 0) ∧
    (((itemInsertPosition (some prec) l pageId hint).1 ≤ l.length) ∧
    ((itemInsertPosition (some prec) l pageId hint).1 = l.length ∨
      ((l.get? (itemInsertPosition (some prec) l pageId hint).1).map
        (fun x => prec pageId x)).getD false = true) ∧
    ((itemInsertPosition (some prec) l pageId hint).1 = 0 ∨
      ((l.get? ((itemInsertPosition (some prec) l pageId hint).1 - 1)).map
        (fun x => prec pageId x)).getD false = false) ∧
    ((itemInsertPosition (some prec) l pageId hint).2 =
      ((itemInsertPosition (some prec) l pageId hint).1 : Int) -
        (hint : Int))) :=
  ⟨rfl, itemInsertPosition_spec prec l pageId hint hh⟩

/-- Evaluates C5 on a concrete two-element range. -/
theorem claim_C5_witness :
    (1 ≤ [pgA, pgB].length) ∧
    (itemInsertPosition none [pgA, pgB] pgB 1 = (1, 0) ∧
    (((itemInsertPosition (some PageId.lt) [pgA, pgB] pgB 1).1 ≤
        [pgA, pgB].length) ∧
    ((itemInsertPosition (some PageId.lt) [pgA, pgB] pgB 1).1 =
        [pgA, pgB].length ∨
      (([pgA, pgB].get? (itemInsertPosition (some PageId.lt)
          [pgA, pgB] pgB 1).1).map
        (fun x => PageId.lt pgB x)).getD false = true) ∧
    ((itemInsertPosition (some PageId.lt) [pgA, pgB] pgB 1).1 = 0 ∨
      (([pgA, pgB].get? ((itemInsertPosition (some PageId.lt)
          [pgA, pgB] pgB 1).1 - 1)).map
        (fun x => PageId.lt pgB x)).getD false = false) ∧
    ((itemInsertPosition (some PageId.lt) [pgA, pgB] pgB 1).2 =
      ((itemInsertPosition (some PageId.lt) [pgA, pgB] pgB 1).1 : Int) -
        ((1 : Nat) : Int)))) :=
  ⟨by decide, claim_C5_itemInsertPosition PageId.lt [pgA, pgB] pgB 1 (by decide)⟩

/-- Refutes C6 as stated: with an empty previous selection the containment
premise holds vacuously, yet after `reset(KEEP_SELECTION)` the snapshot's
current page is freshly selected, so the selected set is not preserved. -/
theorem claim_C6_counterexample :
    selectedItems initState = [] ∧
    (∀ pid ∈ selectedItems initState,
      pid ∈ [(⟨pgA, 5⟩ : PageEntry)].map PageEntry.pid) ∧
    selectedItems
      (reset [⟨pgA, 5⟩] SelectionAction.keepSelection none pgA initState).1 =
      [pgA] :=
  ⟨rfl, by decide, by decide⟩

/-- Evaluates the amended C6 on a concrete state with a nonempty selection. -/
theorem claim_C6_witness :
    (Inv exReset1 ∧ selectedItems exReset1 ≠ [] ∧
      (∀ pid ∈ selectedItems exReset1,
        pid ∈ [(⟨pgA, 6⟩ : PageEntry)].map PageEntry.pid)) ∧
    (∀ pid, pid ∈ selectedItems
        (reset [⟨pgA, 6⟩] SelectionAction.keepSelection none pgB exReset1).1 ↔
      pid ∈ selectedItems exReset1) :=
  ⟨⟨inv_reachable (Reachable.reset [⟨pgA, 5⟩] SelectionAction.resetSelection
      none pgA initState Reachable.init), by decide, by decide⟩,
    claim_C6_keep_selection_roundtrip
      (inv_reachable (Reachable.reset [⟨pgA, 5⟩] SelectionAction.resetSelection
        none pgA initState Reachable.init))
      (by decide) (by decide)⟩

/-- C7: in every reachable state the selected-then-unselected view is
partitioned - no unselected record precedes a selected one - so the
front-to-first-unselected scan (takeWhile) enumerates exactly the selected
records (filter). -/
theorem claim_C7_selection_partitioned {s : State} (hr : Reachable s) :
    Partitioned (selFlags s) ∧
      s.selOrder.takeWhile (selAtH s.itemsInOrder) =
        s.selOrder.filter (selAtH s.itemsInOrder) :=
  ⟨(inv_reachable hr).part,
    takeWhile_eq_filter_of_partitioned _ _ (inv_reachable hr).part⟩

/-- Evaluates C7 on a concrete reachable state with one selected and one
unselected record. -/
theorem claim_C7_witness :
    Reachable exReset2 ∧
      (Partitioned (selFlags exReset2) ∧
        exReset2.selOrder.takeWhile (selAtH exReset2.itemsInOrder) =
          exReset2.selOrder.filter (selAtH exReset2.itemsInOrder)) :=
  ⟨Reachable.reset [⟨pgA, 5⟩, ⟨pgB, 7⟩] SelectionAction.resetSelection none pgA
      initState Reachable.init,
    claim_C7_selection_partitioned
      (Reachable.reset [⟨pgA, 5⟩, ⟨pgB, 7⟩] SelectionAction.resetSelection none
        pgA initState Reachable.init)⟩

/-- C8: an `insert` whose reference image is non-null but referenced by no
stored record is a complete no-op: the state is returned unchanged and no
notification is emitted. -/
theorem claim_C8_insert_missing_reference_noop {pid : PageId} {newH : Int}
    {boa : BeforeOrAfter} {image : Nat} {s : State} (himg : image ≠ 0)
    (href : ∀ it2 ∈ s.itemsInOrder, it2.pageId.imageId ≠ image) :
    insert pid newH boa image s = (s, []) := by
  have hrl : refLookup s image = none := by
    rw [refLookup]
    cases hfind : (byIdView s).find?
        (fun it2 => !PageId.lt it2.pageId (pageIdOfImage image)) with
    | none => rfl
    | some it2 =>
      dsimp only
      have hmem : it2 ∈ byIdView s := List.mem_of_find?_eq_some hfind
      have hmem2 : it2 ∈ s.itemsInOrder := by
        rw [byIdView] at hmem
        exact (stableSortBy_perm _ _).subset hmem
      rw [if_neg (href it2 hmem2)]
  rw [insert]
  dsimp only
  rw [if_neg (fun hc => himg hc.2), hrl]

/-- Evaluates C8 on a concrete state holding no record of image 2. -/
theorem claim_C8_witness :
    ((2 : Nat) ≠ 0 ∧
      (∀ it2 ∈ exReset1.itemsInOrder, it2.pageId.imageId ≠ 2)) ∧
    insert pgB 3 BeforeOrAfter.after 2 exReset1 = (exReset1, []) :=
  ⟨⟨by decide, by decide⟩,
    claim_C8_insert_missing_reference_noop (by decide) (by decide)⟩

/-- C9: `removePages` downgrades the identity of a remaining sibling half: if
a removed record is a left or right half and a stored record of the same
image survives the removal, the survivor reappears with the single-page
designation (same handle, image kept, sub-page set to single). -/
theorem claim_C9_remove_half_singularizes {toRemove : List PageId} {s : State}
    {itL itR : Item} (hL : itL ∈ s.itemsInOrder)
    (hLrm : toRemove.contains itL.pageId = true)
    (hLside : itL.pageId.subPage ≠ SubPage.single)
    (hR : itR ∈ s.itemsInOrder) (hRkeep : toRemove.contains itR.pageId = false)
    (hsib : itR.pageId.imageId = itL.pageId.imageId) :
    ∃ it2 ∈ (removePages toRemove s).1.itemsInOrder,
      it2.handle = itR.handle ∧
      it2.pageId = ⟨itR.pageId.imageId, SubPage.single⟩ := by
  rw [removePages]
  have hHP := removeWalk_projHP toRemove s.itemsInOrder 0 none [] s.leader
  have hIM := (removeWalk_images toRemove s.itemsInOrder 0 none [] s.leader).2
    itL hL hLrm hLside
  cases hwalk : removeWalk toRemove s.itemsInOrder 0 none [] s.leader with
  | mk kept rest =>
  cases rest with
  | mk rect rest2 =>
  cases rest2 with
  | mk images leader2 =>
  rw [hwalk] at hHP hIM
  dsimp only at hHP hIM ⊢
  have hpairR : (itR.handle, itR.pageId) ∈
      kept.map (fun it2 => (it2.handle, it2.pageId)) := by
    rw [hHP]
    refine List.mem_map.2 ⟨itR, ?_, rfl⟩
    refine List.mem_filter.2 ⟨hR, ?_⟩
    rw [hRkeep]
    rfl
  obtain ⟨itK, hitK, hpairK⟩ := List.mem_map.1 hpairR
  have hKh : itK.handle = itR.handle := congrArg Prod.fst hpairK
  have hKp : itK.pageId = itR.pageId := congrArg Prod.snd hpairK
  have hcont : images.contains itK.pageId.imageId = true := by
    rw [hKp, hsib]
    exact List.elem_eq_true_of_mem hIM
  refine ⟨{ itK with pageId := ⟨itK.pageId.imageId, SubPage.single⟩ }, ?_, ?_, ?_⟩
  · have hmm := List.mem_map_of_mem (fun it2 =>
      if images.contains it2.pageId.imageId then
        { it2 with pageId := ⟨it2.pageId.imageId, SubPage.single⟩ }
      else it2) hitK
    dsimp only at hmm
    rw [if_pos hcont] at hmm
    exact hmm
  · exact hKh
  · show (⟨itK.pageId.imageId, SubPage.single⟩ : PageId) =
      ⟨itR.pageId.imageId, SubPage.single⟩
    rw [hKp]

/-- Evaluates C9 on a concrete state: removing the left half of image 5
leaves the surviving right half designated single-page. -/
theorem claim_C9_witness :
    (exItL ∈ exLR.itemsInOrder ∧ [pgL].contains exItL.pageId = true ∧
      exItL.pageId.subPage ≠ SubPage.single ∧ exItR ∈ exLR.itemsInOrder ∧
      [pgL].contains exItR.pageId = false ∧
      exItR.pageId.imageId = exItL.pageId.imageId) ∧
    (∃ it2 ∈ (removePages [pgL] exLR).1.itemsInOrder,
      it2.handle = exItR.handle ∧
      it2.pageId = ⟨exItR.pageId.imageId, SubPage.single⟩) :=
  ⟨⟨by decide, by decide, by decide, by decide, by decide, by decide⟩,
    @claim_C9_remove_half_singularizes [pgL] exLR exItL exItR (by decide)
      (by decide) (by decide) (by decide) (by decide) (by decide)⟩

/-- C10: a context-menu event on the scene emits
`pastLastPageContextMenuRequested` with the event's screen position always
when no records are stored, and otherwise exactly when the event's scene
y-coordinate lies strictly below the bottom of the last record's bounding
rectangle. -/
theorem claim_C10_context_menu (scenePosY : Int) (screenPos : Int × Int)
    (s : State) :
    (s.itemsInOrder = [] →
      sceneContextMenuEvent scenePosY screenPos s =
        [Notif.pastLastPage screenPos]) ∧
    (∀ last, s.itemsInOrder.getLast? = some last →
      (sceneContextMenuEvent scenePosY screenPos s =
          [Notif.pastLastPage screenPos] ↔
        last.y + last.h < scenePosY)) := by
  constructor
  · intro hemp
    rw [sceneContextMenuEvent, hemp]
    rfl
  · intro last hlast
    rw [sceneContextMenuEvent, hlast]
    dsimp only
    by_cases hle : scenePosY ≤ last.y + last.h
    · rw [if_pos hle]
      constructor
      · intro h
        simp at h
      · intro hlt
        exact absurd hlt (by omega)
    · rw [if_neg hle]
      constructor
      · intro _
        omega
      · intro _
        rfl

/-- Evaluates C10 on a concrete state whose single record spans y 0 to 5. -/
theorem claim_C10_witness :
    exReset1.itemsInOrder.getLast? =
      some ((exReset1.itemsInOrder.getLast?).getD exFallback) ∧
    (sceneContextMenuEvent 100 (7, 8) exReset1 =
        [Notif.pastLastPage (7, 8)] ↔
      ((exReset1.itemsInOrder.getLast?).getD exFallback).y +
          ((exReset1.itemsInOrder.getLast?).getD exFallback).h < 100) :=
  ⟨by decide,
    (claim_C10_context_menu 100 (7, 8) exReset1).2
      ((exReset1.itemsInOrder.getLast?).getD exFallback) (by decide)⟩

end ThumbSeq
